import Mathlib

/-!
MSProject: flow statistics of `anomaly2_6_54.cc`, its address-resolution
bootstrap and the configuration names of the other scripts.

A shallow embedding of the result-printing part of `main` in
`src/anomaly2_6_54.cc` (the loop over the flow-monitor records, the per-TID
report loop and the total block), of `SimulationHelper::CreateOnOffHelper`
and `SimulationHelper::PopulateArpCache` of the same file, and of the
loss-model and position-allocator selections of `ms-lab3b.cc`, `ms-lab2.cc`
and `anomaly_project.cc`, and of the per-flow throughput loop of
`anomaly_project.cc`, followed by the theorems that settle the
specification's statements about them.

Conventions of the embedding.

* `uint64_t`, `uint32_t`, `uint16_t` values are natural numbers; every
  operation that can leave the range reduces modulo `2 ^ w` as the machine does.
* `ns3::Time` is the signed 64-bit count of nanoseconds that ns-3 stores
  (default resolution); sums wrap in two's complement, `Time / n` and
  `GetMicroSeconds` are the truncating integer divisions of that count.
  A division by zero has no result (`none`).
* `double` values are rationals and every floating-point operation of the
  source is the exact operation followed by a rounding function `rnd`.
  `rnd := exactArith` is exact arithmetic, `rnd := binary64` is IEEE-754
  double precision (round to nearest, ties to even). The quotient by a zero
  window is not a finite double, so statements about throughput values
  carry `W ≠ 0`.
* `std::vector<T> (8, x)` is a list of length 8. `operator[]` checks no
  bounds: the update `v[tid] += x` with `tid` outside the list goes to the
  storage `tid` cells past the start of the buffer, which is not a cell of
  the vector, so the cells keep their content and the run goes on. C++
  leaves such an access undefined; the embedding takes the storage written
  to be none of the accumulators. A read of `v[tid]` outside the list has no
  result (`none`).
* `exit (1)`, a failed `NS_ASSERT` and `NS_ABORT_MSG` end the run; the
  functions return what was produced up to that point and the reason.
* Objects of the ns-3 library appear with the fields the source reads and
  writes. The resolution cache, whose code is not in the repository, is a
  map from address to entry; the behaviour of its insertion on an address
  that already has an entry is a parameter (`assertFresh`).
-/

namespace MSProject

/-! ## Machine arithmetic -/

/-- Addition of two `uint64_t` values (`a += b`). -/
def add64 (a b : Nat) : Nat := (a + b) % 2 ^ 64

/-- Subtraction `a - b` on `uint64_t`. -/
def sub64 (a b : Nat) : Nat := (a + (2 ^ 64 - b % 2 ^ 64)) % 2 ^ 64

/-- Subtraction `a - b` on `uint32_t` (`unsigned int`). -/
def sub32 (a b : Nat) : Nat := (a + (2 ^ 32 - b % 2 ^ 32)) % 2 ^ 32

/-- Reduction of an integer to the signed 64-bit range (two's complement). -/
def wrapI64 (x : Int) : Int := (x + 2 ^ 63) % 2 ^ 64 - 2 ^ 63

/-- Sum of two `ns3::Time` values (`a += b` on the nanosecond counts). -/
def timeAdd (a b : Int) : Int := wrapI64 (a + b)

/-- Quotient `t / n` of an `ns3::Time` by an unsigned integer: truncating
division of the nanosecond count, undefined for `n = 0`. -/
def timeDiv (t : Int) (n : Nat) : Option Int :=
  if n = 0 then none else some (Int.tdiv t (n : Int))

/-- Whole microseconds of a time: `Time::GetMicroSeconds`. -/
def getMicroSeconds (t : Int) : Int := Int.tdiv t 1000

/-! ## Double precision -/

/-- Exact arithmetic: no rounding. -/
def exactArith (q : ℚ) : ℚ := q

/-- Nearest natural number to `p / r`, ties to the even one (`0 < r`). -/
def roundHalfEven (p r : Nat) : Nat :=
  let q := p / r
  let rem := p % r
  if 2 * rem < r then q else if r < 2 * rem then q + 1 else if q % 2 = 0 then q else q + 1

/-- Number of binary digits of `n`, by halving at most `fuel` times. -/
def bitLenAux : Nat → Nat → Nat
  | 0, _ => 0
  | fuel + 1, n => if n = 0 then 0 else bitLenAux fuel (n / 2) + 1

/-- Number of binary digits of `n`. -/
def bitLen (n : Nat) : Nat := bitLenAux n n

/-- Binary exponent of the positive rational `n / d`: the `e` with
`2 ^ e ≤ n / d < 2 ^ (e + 1)`. -/
def binExp (n d : Nat) : Int :=
  let l : Int := (bitLen n : Int) - (bitLen d : Int)
  if 0 ≤ l then (if d * 2 ^ l.toNat ≤ n then l else l - 1)
  else (if d ≤ n * 2 ^ (-l).toNat then l else l - 1)

/-- Rounding of a rational to IEEE-754 binary64, to nearest with ties to
even: 53 significant bits, least exponent -1022 (subnormals included).
Overflow to infinity is not represented; the magnitudes of this program
stay far below `2 ^ 1024`. -/
def binary64 (q : ℚ) : ℚ :=
  if q = 0 then 0 else
  let n := q.num.natAbs
  let d := q.den
  let k : Int := max (binExp n d) (-1022) - 52
  let m : Nat :=
    if 0 ≤ k then roundHalfEven n (d * 2 ^ k.toNat) else roundHalfEven (n * 2 ^ (-k).toNat) d
  let mag : ℚ := if 0 ≤ k then (m : ℚ) * 2 ^ k.toNat else (m : ℚ) / 2 ^ (-k).toNat
  if q < 0 then -mag else mag

/-- Sum of two doubles (`a += b`). -/
def dblAdd (rnd : ℚ → ℚ) (a b : ℚ) : ℚ := rnd (a + b)

/-- Throughput term `rxBytes * 8.0 / W` of the source: `rxBytes` is a
`uint64_t`, `8.0` a double literal, and
`W = (simulationTime - Seconds (calcStart)).GetMicroSeconds ()` an `int64_t`;
both integers are converted to double before the operation. -/
def flowThroughput (rnd : ℚ → ℚ) (W : Int) (rxBytes : Nat) : ℚ :=
  rnd (rnd (rnd (rxBytes : ℚ) * 8) / rnd (W : ℚ))

/-- Window of the throughput: `(simulationTime - Seconds (calcStart)).GetMicroSeconds ()`,
from the two times in nanoseconds. -/
def activeWindow (simulationTime calcStart : Int) : Int :=
  getMicroSeconds (wrapI64 (simulationTime - calcStart))

/-- Mean in milliseconds `(double)(sum / n).GetMicroSeconds () / 1000`;
no result when `n = 0`. -/
def meanMs (rnd : ℚ → ℚ) (sum : Int) (n : Nat) : Option ℚ :=
  (timeDiv sum n).map fun t => rnd (rnd ((getMicroSeconds t : Int) : ℚ) / 1000)

/-! ## Flow records -/

/-- Fields of `Ipv4FlowClassifier::FiveTuple`. -/
structure FiveTuple where
  sourceAddress : Nat
  destinationAddress : Nat
  protocol : Nat
  sourcePort : Nat
  destinationPort : Nat
  deriving DecidableEq, Repr

/-- Fields of `FlowMonitor::FlowStats` that `main` reads: byte counters are
`uint64_t`, packet counters `uint32_t`, the sums are `ns3::Time`
(nanoseconds). -/
structure FlowStats where
  txBytes : Nat
  rxBytes : Nat
  txPackets : Nat
  rxPackets : Nat
  lostPackets : Nat
  delaySum : Int
  jitterSum : Int
  deriving DecidableEq, Repr

/-- One entry of the flow loop: the key and value of the `stats` map
(`flow->first`, `flow->second`) and the tuple `t` that
`classifier->FindFlow (flow->first)` returns for it. -/
structure FlowEntry where
  first : Nat
  t : FiveTuple
  second : FlowStats
  deriving DecidableEq, Repr

/-- Range of the fields of an entry, as their C++ types give it. -/
def FlowEntry.InRange (fl : FlowEntry) : Prop :=
  fl.first < 2 ^ 32 ∧ fl.t.protocol < 2 ^ 8 ∧ fl.t.sourcePort < 2 ^ 16 ∧
  fl.t.destinationPort < 2 ^ 16 ∧
  fl.second.txBytes < 2 ^ 64 ∧ fl.second.rxBytes < 2 ^ 64 ∧
  fl.second.txPackets < 2 ^ 32 ∧ fl.second.rxPackets < 2 ^ 32 ∧
  fl.second.lostPackets < 2 ^ 32 ∧
  -2 ^ 63 ≤ fl.second.delaySum ∧ fl.second.delaySum < 2 ^ 63 ∧
  -2 ^ 63 ≤ fl.second.jitterSum ∧ fl.second.jitterSum < 2 ^ 63

/-! ## Accumulators of `main` -/

/-- Accumulators declared before the flow loop. -/
@[ext]
structure Stats where
  txBytes : Nat
  rxBytes : Nat
  txPackets : Nat
  rxPackets : Nat
  lostPackets : Nat
  throughput : ℚ
  delaySum : Int
  jitterSum : Int
  txBytesPerTid : List Nat
  rxBytesPerTid : List Nat
  txPacketsPerTid : List Nat
  rxPacketsPerTid : List Nat
  lostPacketsPerTid : List Nat
  throughputPerTid : List ℚ
  delaySumPerTid : List Int
  jitterSumPerTid : List Int
  deriving DecidableEq, Repr

/-- State of the accumulators when the loop starts. `double throughput;` has
no initialiser, so its starting content `u` is whatever the storage holds;
every other accumulator starts at zero. -/
def initStats (u : ℚ) : Stats :=
  { txBytes := 0, rxBytes := 0, txPackets := 0, rxPackets := 0, lostPackets := 0
    throughput := u
    delaySum := 0, jitterSum := 0
    txBytesPerTid := List.replicate 8 0
    rxBytesPerTid := List.replicate 8 0
    txPacketsPerTid := List.replicate 8 0
    rxPacketsPerTid := List.replicate 8 0
    lostPacketsPerTid := List.replicate 8 0
    throughputPerTid := List.replicate 8 0
    delaySumPerTid := List.replicate 8 0
    jitterSumPerTid := List.replicate 8 0 }

/-- Class index of a destination port: `uint16_t tid = t.destinationPort-1000`. -/
def tidOf (destinationPort : Nat) : Nat :=
  Int.toNat (((destinationPort : Int) - 1000) % 65536)

/-- Update `v[i] += x` of a vector. `std::vector::operator[]` checks no
bounds: for `i` outside `v` the statement reads and writes the storage `i`
cells past the start of the buffer, which is not a cell of `v`, so the cells
of `v` are left as they are. -/
def addAt {α : Type} (add : α → α → α) (v : List α) (i : Nat) (x : α) : List α :=
  match v[i]? with
  | some a => v.set i (add a x)
  | none => v

/-- Throughput that a flow adds to the accumulators:
`rxPackets > 0 ? rxBytes * 8.0 / W : 0`. -/
def thrTerm (rnd : ℚ → ℚ) (W : Int) (f : FlowStats) : ℚ :=
  if 0 < f.rxPackets then flowThroughput rnd W f.rxBytes else 0

/-- Accumulation of one flow: the statements from `uint16_t tid = ...` to
`jitterSum += ...` of the loop body: the eight updates `xPerTid[tid] += ...`,
then the eight updates of the global accumulators. Nothing tests `tid`: for a
class index outside the vectors the eight vector updates go to storage
outside the vectors, taken to be none of the accumulators, and the global
updates follow. -/
def accumulate (rnd : ℚ → ℚ) (W : Int) (s : Stats) (fl : FlowEntry) : Stats :=
  let tid := tidOf fl.t.destinationPort
  { txBytesPerTid := addAt add64 s.txBytesPerTid tid fl.second.txBytes
    rxBytesPerTid := addAt add64 s.rxBytesPerTid tid fl.second.rxBytes
    txPacketsPerTid := addAt add64 s.txPacketsPerTid tid fl.second.txPackets
    rxPacketsPerTid := addAt add64 s.rxPacketsPerTid tid fl.second.rxPackets
    lostPacketsPerTid := addAt add64 s.lostPacketsPerTid tid fl.second.lostPackets
    throughputPerTid := addAt (dblAdd rnd) s.throughputPerTid tid (thrTerm rnd W fl.second)
    delaySumPerTid := addAt timeAdd s.delaySumPerTid tid fl.second.delaySum
    jitterSumPerTid := addAt timeAdd s.jitterSumPerTid tid fl.second.jitterSum
    txBytes := add64 s.txBytes fl.second.txBytes
    rxBytes := add64 s.rxBytes fl.second.rxBytes
    txPackets := add64 s.txPackets fl.second.txPackets
    rxPackets := add64 s.rxPackets fl.second.rxPackets
    lostPackets := add64 s.lostPackets fl.second.lostPackets
    throughput := dblAdd rnd s.throughput (thrTerm rnd W fl.second)
    delaySum := timeAdd s.delaySum fl.second.delaySum
    jitterSum := timeAdd s.jitterSum fl.second.jitterSum }

/-! ## Report blocks -/

/-- A derived metric as printed: a number, or the text `---`. -/
inductive Shown where
  | dashes
  | value (q : ℚ)
  deriving DecidableEq, Repr

/-- Ways the printing part can stop before `return 0`: the `exit (1)` of the
protocol switch, a read of a vector cell that is outside the vector, a
division by zero. -/
inductive Fault where
  | exit1
  | outOfBounds
  | divisionByZero
  deriving DecidableEq, Repr

/-- Name chosen by `switch (t.protocol)`; `none` is the `default: exit (1)`. -/
def protoName (protocol : Nat) : Option String :=
  if protocol = 6 then some "TCP" else if protocol = 17 then some "UDP" else none

/-- Lines printed for one flow. -/
structure FlowBlock where
  flowId : Nat
  proto : String
  t : FiveTuple
  txBytes : Nat
  rxBytes : Nat
  txPackets : Nat
  rxPackets : Nat
  lostPackets : Nat
  throughput : Shown
  meanDelay : Shown
  meanJitter : Shown
  deriving DecidableEq, Repr

/-- Mean jitter line of a flow with `rxPackets > 0`: computed from
`jitterSum / (rxPackets - 1)` when `rxPackets > 1`, else `---`. -/
def flowJitter (rnd : ℚ → ℚ) (f : FlowStats) : Option Shown :=
  if 1 < f.rxPackets then (meanMs rnd f.jitterSum (sub32 f.rxPackets 1)).map Shown.value
  else some Shown.dashes

/-- Per-flow block of the loop body: counters, then throughput, mean delay
and mean jitter under the guards `rxPackets > 0` and `rxPackets > 1`. -/
def flowBlock (rnd : ℚ → ℚ) (W : Int) (proto : String) (fl : FlowEntry) : Option FlowBlock :=
  if 0 < fl.second.rxPackets then do
    let d ← meanMs rnd fl.second.delaySum fl.second.rxPackets
    let j ← flowJitter rnd fl.second
    some
      { flowId := fl.first, proto := proto, t := fl.t
        txBytes := fl.second.txBytes, rxBytes := fl.second.rxBytes
        txPackets := fl.second.txPackets, rxPackets := fl.second.rxPackets
        lostPackets := fl.second.lostPackets
        throughput := Shown.value (flowThroughput rnd W fl.second.rxBytes)
        meanDelay := Shown.value d, meanJitter := j }
  else
    some
      { flowId := fl.first, proto := proto, t := fl.t
        txBytes := fl.second.txBytes, rxBytes := fl.second.rxBytes
        txPackets := fl.second.txPackets, rxPackets := fl.second.rxPackets
        lostPackets := fl.second.lostPackets
        throughput := Shown.value 0
        meanDelay := Shown.dashes, meanJitter := Shown.dashes }

/-- Loop over the flow records: protocol switch, per-flow block,
accumulation, then the next record. Returns the blocks printed so far and
either the final accumulators or the reason the run stopped. -/
def flowLoop (rnd : ℚ → ℚ) (W : Int) :
    List FlowEntry → Stats → List FlowBlock → List FlowBlock × Except Fault Stats
  | [], s, out => (out, Except.ok s)
  | fl :: rest, s, out =>
    match protoName fl.t.protocol with
    | none => (out, Except.error Fault.exit1)
    | some proto =>
      match flowBlock rnd W proto fl with
      | none => (out, Except.error Fault.divisionByZero)
      | some b => flowLoop rnd W rest (accumulate rnd W s fl) (out ++ [b])

/-- Lines printed for one traffic class. -/
structure TidBlock where
  tid : Nat
  txBytes : Nat
  rxBytes : Nat
  txPackets : Nat
  rxPackets : Nat
  lostPackets : Nat
  throughput : ℚ
  meanDelay : Shown
  meanJitter : Shown
  deriving DecidableEq, Repr

/-- Mean delay line of class `tid`: guarded by `rxPacketsPerTid[tid] > 0`. -/
def tidMeanDelay (rnd : ℚ → ℚ) (s : Stats) (tid : Nat) : Except Fault Shown :=
  match s.rxPacketsPerTid[tid]?, s.delaySumPerTid[tid]? with
  | some rxP, some dly =>
    if 0 < rxP then
      match meanMs rnd dly rxP with
      | some d => Except.ok (Shown.value d)
      | none => Except.error Fault.divisionByZero
    else Except.ok Shown.dashes
  | _, _ => Except.error Fault.outOfBounds

/-- Mean jitter line of class `tid`: inside `rxPacketsPerTid[tid] > 0` the
source tests `rxPackets > 1` on the global counter and then divides
`jitterSumPerTid[tid]` by `rxPacketsPerTid[tid] - 1`. -/
def tidMeanJitter (rnd : ℚ → ℚ) (s : Stats) (tid : Nat) : Except Fault Shown :=
  match s.rxPacketsPerTid[tid]?, s.jitterSumPerTid[tid]? with
  | some rxP, some jit =>
    if 0 < rxP then
      if 1 < s.rxPackets then
        match meanMs rnd jit (sub64 rxP 1) with
        | some j => Except.ok (Shown.value j)
        | none => Except.error Fault.divisionByZero
      else Except.ok Shown.dashes
    else Except.ok Shown.dashes
  | _, _ => Except.error Fault.outOfBounds

/-- Block printed for class `tid` by the per-TID loop. -/
def tidBlock (rnd : ℚ → ℚ) (s : Stats) (tid : Nat) : Except Fault TidBlock :=
  match s.txBytesPerTid[tid]?, s.rxBytesPerTid[tid]?, s.txPacketsPerTid[tid]?,
      s.rxPacketsPerTid[tid]?, s.lostPacketsPerTid[tid]?, s.throughputPerTid[tid]? with
  | some txB, some rxB, some txP, some rxP, some lost, some thr => do
    let d ← tidMeanDelay rnd s tid
    let j ← tidMeanJitter rnd s tid
    pure
      { tid := tid, txBytes := txB, rxBytes := rxB, txPackets := txP, rxPackets := rxP
        lostPackets := lost, throughput := thr, meanDelay := d, meanJitter := j }
  | _, _, _, _, _, _ => Except.error Fault.outOfBounds

/-- Test of the per-TID loop: `(tid != 2) && (tid != 3) && (tid != 4) && (tid != 7)`. -/
def reported (tid : Nat) : Bool :=
  (tid != 2) && (tid != 3) && (tid != 4) && (tid != 7)

/-- Loop `for (uint16_t tid = 0; tid < 8; tid++)` over the given indices:
blocks printed so far and whether the loop ran to its end. -/
def tidLoop (rnd : ℚ → ℚ) (s : Stats) :
    List Nat → List TidBlock → List TidBlock × Except Fault Unit
  | [], out => (out, Except.ok ())
  | tid :: rest, out =>
    if reported tid then
      match tidBlock rnd s tid with
      | Except.ok b => tidLoop rnd s rest (out ++ [b])
      | Except.error e => (out, Except.error e)
    else tidLoop rnd s rest out

/-- Lines of the total block, in the order printed. -/
structure TotalBlock where
  rxBytes : Nat
  txPackets : Nat
  rxPackets : Nat
  lostPackets : Nat
  txBytes : Nat
  throughput : ℚ
  meanDelay : Shown
  meanJitter : Shown
  deriving DecidableEq, Repr

/-- Mean delay line of the total block: guarded by `rxPackets > 0`. -/
def totalMeanDelay (rnd : ℚ → ℚ) (s : Stats) : Except Fault Shown :=
  if 0 < s.rxPackets then
    match meanMs rnd s.delaySum s.rxPackets with
    | some d => Except.ok (Shown.value d)
    | none => Except.error Fault.divisionByZero
  else Except.ok Shown.dashes

/-- Mean jitter line of the total block: guarded by `rxPackets > 0` and
`rxPackets > 1`. -/
def totalMeanJitter (rnd : ℚ → ℚ) (s : Stats) : Except Fault Shown :=
  if 0 < s.rxPackets then
    if 1 < s.rxPackets then
      match meanMs rnd s.jitterSum (sub64 s.rxPackets 1) with
      | some j => Except.ok (Shown.value j)
      | none => Except.error Fault.divisionByZero
    else Except.ok Shown.dashes
  else Except.ok Shown.dashes

/-- Total block printed after the per-TID loop. -/
def totalBlock (rnd : ℚ → ℚ) (s : Stats) : Except Fault TotalBlock := do
  let d ← totalMeanDelay rnd s
  let j ← totalMeanJitter rnd s
  pure
    { rxBytes := s.rxBytes, txPackets := s.txPackets, rxPackets := s.rxPackets
      lostPackets := s.lostPackets, txBytes := s.txBytes, throughput := s.throughput
      meanDelay := d, meanJitter := j }

/-- Everything the printing part of `main` produced. -/
structure Report where
  flowBlocks : List FlowBlock
  tidBlocks : List TidBlock
  totalBlock : Option TotalBlock
  status : Except Fault Unit
  deriving Repr

/-- Printing part of `main`: flow loop, per-TID loop, total block. `u` is the
starting content of the uninitialised `throughput`. -/
def printResults (rnd : ℚ → ℚ) (W : Int) (u : ℚ) (flows : List FlowEntry) : Report :=
  match flowLoop rnd W flows (initStats u) [] with
  | (fb, Except.error e) =>
    { flowBlocks := fb, tidBlocks := [], totalBlock := none, status := Except.error e }
  | (fb, Except.ok s) =>
    match tidLoop rnd s (List.range 8) [] with
    | (tb, Except.error e) =>
      { flowBlocks := fb, tidBlocks := tb, totalBlock := none, status := Except.error e }
    | (tb, Except.ok _) =>
      match totalBlock rnd s with
      | Except.error e =>
        { flowBlocks := fb, tidBlocks := tb, totalBlock := none, status := Except.error e }
      | Except.ok b =>
        { flowBlocks := fb, tidBlocks := tb, totalBlock := some b, status := Except.ok () }

/-- Accumulators after the flow loop, when it ran to its end. -/
def finalStats (rnd : ℚ → ℚ) (W : Int) (u : ℚ) (flows : List FlowEntry) : Option Stats :=
  match (flowLoop rnd W flows (initStats u) []).2 with
  | Except.ok s => some s
  | Except.error _ => none

/-- Flow entry with the given key, protocol, destination port and counters
(addresses and source port fixed). -/
def mkFlow (first protocol port : Nat) (txBytes rxBytes txPackets rxPackets lostPackets : Nat)
    (delaySum jitterSum : Int) : FlowEntry :=
  { first := first
    t := { sourceAddress := 0, destinationAddress := 1, protocol := protocol,
           sourcePort := 49153, destinationPort := port }
    second := { txBytes := txBytes, rxBytes := rxBytes, txPackets := txPackets,
                rxPackets := rxPackets, lostPackets := lostPackets,
                delaySum := delaySum, jitterSum := jitterSum } }

/-! ## Auxiliary definitions for the proofs -/

/-- Vector after `v[i] += x`, written with the cell's content. -/
def bump {α : Type} (add : α → α → α) (d : α) (v : List α) (i : Nat) (x : α) : List α :=
  v.set i (add (v.getD i d) x)

/-- State after `accumulate`, written with `bump`. -/
def accumulateIn (rnd : ℚ → ℚ) (W : Int) (s : Stats) (fl : FlowEntry) : Stats :=
  { txBytesPerTid := bump add64 0 s.txBytesPerTid (tidOf fl.t.destinationPort) fl.second.txBytes
    rxBytesPerTid := bump add64 0 s.rxBytesPerTid (tidOf fl.t.destinationPort) fl.second.rxBytes
    txPacketsPerTid :=
      bump add64 0 s.txPacketsPerTid (tidOf fl.t.destinationPort) fl.second.txPackets
    rxPacketsPerTid :=
      bump add64 0 s.rxPacketsPerTid (tidOf fl.t.destinationPort) fl.second.rxPackets
    lostPacketsPerTid :=
      bump add64 0 s.lostPacketsPerTid (tidOf fl.t.destinationPort) fl.second.lostPackets
    throughputPerTid :=
      bump (dblAdd rnd) 0 s.throughputPerTid (tidOf fl.t.destinationPort) (thrTerm rnd W fl.second)
    delaySumPerTid :=
      bump timeAdd 0 s.delaySumPerTid (tidOf fl.t.destinationPort) fl.second.delaySum
    jitterSumPerTid :=
      bump timeAdd 0 s.jitterSumPerTid (tidOf fl.t.destinationPort) fl.second.jitterSum
    txBytes := add64 s.txBytes fl.second.txBytes
    rxBytes := add64 s.rxBytes fl.second.rxBytes
    txPackets := add64 s.txPackets fl.second.txPackets
    rxPackets := add64 s.rxPackets fl.second.rxPackets
    lostPackets := add64 s.lostPackets fl.second.lostPackets
    throughput := dblAdd rnd s.throughput (thrTerm rnd W fl.second)
    delaySum := timeAdd s.delaySum fl.second.delaySum
    jitterSum := timeAdd s.jitterSum fl.second.jitterSum }

/-- All eight per-TID vectors have their declared size. -/
def Stats.WF (s : Stats) : Prop :=
  s.txBytesPerTid.length = 8 ∧ s.rxBytesPerTid.length = 8 ∧ s.txPacketsPerTid.length = 8 ∧
  s.rxPacketsPerTid.length = 8 ∧ s.lostPacketsPerTid.length = 8 ∧
  s.throughputPerTid.length = 8 ∧ s.delaySumPerTid.length = 8 ∧ s.jitterSumPerTid.length = 8

/-- Accumulators other than the doubles. -/
def Stats.counters (s : Stats) : Stats :=
  { s with throughput := 0, throughputPerTid := [] }

/-- The index `tid` is inside each of the eight per-TID vectors. -/
def Stats.InBounds (s : Stats) (tid : Nat) : Prop :=
  tid < s.txBytesPerTid.length ∧ tid < s.rxBytesPerTid.length ∧
  tid < s.txPacketsPerTid.length ∧ tid < s.rxPacketsPerTid.length ∧
  tid < s.lostPacketsPerTid.length ∧ tid < s.throughputPerTid.length ∧
  tid < s.delaySumPerTid.length ∧ tid < s.jitterSumPerTid.length

/-- A flow the loop accepts: field ranges of the C++ types, protocol TCP or
UDP, destination port of one of the eight classes. -/
def Accepted (fl : FlowEntry) : Prop :=
  fl.InRange ∧ (fl.t.protocol = 6 ∨ fl.t.protocol = 17) ∧
  1000 ≤ fl.t.destinationPort ∧ fl.t.destinationPort ≤ 1007

/-- Sum of `val` over the flows of class `k`. -/
def classSum {M : Type} [AddCommMonoid M] (val : FlowEntry → M) (k : Nat)
    (flows : List FlowEntry) : M :=
  ((flows.filter (fun fl => decide (tidOf fl.t.destinationPort = k))).map val).sum

/-- Sum of the cells 0, 1, 5 and 6 of a vector of counters. -/
def sum4 (v : List Nat) : Nat := v.getD 0 0 + v.getD 1 0 + v.getD 5 0 + v.getD 6 0

/-- Sum of the cells 0, 1, 5 and 6 of a vector of times. -/
def sum4T (v : List Int) : Int := v.getD 0 0 + v.getD 1 0 + v.getD 5 0 + v.getD 6 0

/-- A flow of one of the four classes in use, with a supported protocol. -/
def FourClass (fl : FlowEntry) : Prop :=
  fl.InRange ∧ (fl.t.protocol = 6 ∨ fl.t.protocol = 17) ∧
  (fl.t.destinationPort = 1000 ∨ fl.t.destinationPort = 1001 ∨
    fl.t.destinationPort = 1005 ∨ fl.t.destinationPort = 1006)

/-- The totals of the flows fit the accumulators: counters below `2 ^ 64`,
time sums non-negative and below `2 ^ 63` nanoseconds. -/
def NoOverflow (flows : List FlowEntry) : Prop :=
  (flows.map (fun fl => fl.second.txBytes)).sum < 2 ^ 64 ∧
  (flows.map (fun fl => fl.second.rxBytes)).sum < 2 ^ 64 ∧
  (flows.map (fun fl => fl.second.txPackets)).sum < 2 ^ 64 ∧
  (flows.map (fun fl => fl.second.rxPackets)).sum < 2 ^ 64 ∧
  (flows.map (fun fl => fl.second.lostPackets)).sum < 2 ^ 64 ∧
  (∀ fl ∈ flows, 0 ≤ fl.second.delaySum) ∧
  (flows.map (fun fl => fl.second.delaySum)).sum < 2 ^ 63 ∧
  (∀ fl ∈ flows, 0 ≤ fl.second.jitterSum) ∧
  (flows.map (fun fl => fl.second.jitterSum)).sum < 2 ^ 63

/-- Counters of one aggregate (a class bucket or the global one). -/
structure Bucket where
  txBytes : Nat
  rxBytes : Nat
  txPackets : Nat
  rxPackets : Nat
  lostPackets : Nat
  throughput : ℚ
  delaySum : Int
  jitterSum : Int
  deriving DecidableEq, Repr

/-- Cell `k` of the eight per-TID vectors. -/
def Stats.classBucket (s : Stats) (k : Nat) : Bucket :=
  { txBytes := s.txBytesPerTid.getD k 0, rxBytes := s.rxBytesPerTid.getD k 0
    txPackets := s.txPacketsPerTid.getD k 0, rxPackets := s.rxPacketsPerTid.getD k 0
    lostPackets := s.lostPacketsPerTid.getD k 0, throughput := s.throughputPerTid.getD k 0
    delaySum := s.delaySumPerTid.getD k 0, jitterSum := s.jitterSumPerTid.getD k 0 }

/-- The eight global accumulators. -/
def Stats.globalBucket (s : Stats) : Bucket :=
  { txBytes := s.txBytes, rxBytes := s.rxBytes, txPackets := s.txPackets
    rxPackets := s.rxPackets, lostPackets := s.lostPackets, throughput := s.throughput
    delaySum := s.delaySum, jitterSum := s.jitterSum }

/-- A bucket after the counters of one flow are added with the `+=` of each
accumulator. -/
def Bucket.addFlow (rnd : ℚ → ℚ) (W : Int) (b : Bucket) (f : FlowStats) : Bucket :=
  { txBytes := add64 b.txBytes f.txBytes, rxBytes := add64 b.rxBytes f.rxBytes
    txPackets := add64 b.txPackets f.txPackets, rxPackets := add64 b.rxPackets f.rxPackets
    lostPackets := add64 b.lostPackets f.lostPackets
    throughput := dblAdd rnd b.throughput (thrTerm rnd W f)
    delaySum := timeAdd b.delaySum f.delaySum, jitterSum := timeAdd b.jitterSum f.jitterSum }

/-- Sample input: one flow of class 6 (Voice) and one of class 5 (Video). -/
def sampleFlows : List FlowEntry :=
  [mkFlow 1 17 1006 14700 14700 10 10 0 50000 9000, mkFlow 2 6 1005 29400 14700 20 10 10 70000 18000]

/-- Sample input: three UDP flows of class 0 that received 125000, 250000
and 375000 bytes. -/
def risingFlows : List FlowEntry :=
  [mkFlow 1 17 1000 125000 125000 100 100 0 0 0, mkFlow 2 17 1000 250000 250000 200 200 0 0 0,
    mkFlow 3 17 1000 375000 375000 300 300 0 0 0]

/-- Sample input: the flows of `risingFlows` in the reverse order. -/
def fallingFlows : List FlowEntry :=
  [mkFlow 3 17 1000 375000 375000 300 300 0 0 0, mkFlow 2 17 1000 250000 250000 200 200 0 0 0,
    mkFlow 1 17 1000 125000 125000 100 100 0 0 0]

/-- Sample input: flows of classes 6, 2 and 7; only the first class is
reported. -/
def mixedFlows : List FlowEntry :=
  [mkFlow 1 17 1006 14700 14700 10 10 0 50000 9000, mkFlow 2 17 1002 2940 2940 2 2 0 8000 1000,
    mkFlow 3 6 1007 1470 1470 1 1 0 3000 0]

deriving instance DecidableEq for Except

/-! ## Traffic generators of `main` -/

/-- Type-of-service byte of `CreateOnOffHelper`: `socketAddress.SetTos (tid << 5)`.
The `uint8_t tid` is promoted to `int` for the shift and the result is
converted to the `uint8_t` parameter of `SetTos`. -/
def tosOf (tid : Nat) : Nat := (tid <<< 5) % 2 ^ 8

/-- Destination port and `tid` argument of each `CreateOnOffHelper` call of
`main`, in source order: the four calls for `nodeSta2` (VO, VI, BE, BK) and
the four calls in the loop over `sta3`. -/
def onOffCalls : List (Nat × Nat) :=
  [(1006, 6), (1005, 5), (1000, 0), (1001, 1), (1006, 6), (1005, 5), (1000, 0), (1001, 1)]

/-! ## `SimulationHelper::PopulateArpCache` -/

/-- The address `Ipv4Address::GetLoopback ()`, 127.0.0.1, as a 32-bit number. -/
def loopback : Nat := 2130706433

/-- Ways `PopulateArpCache` can stop: `NS_ASSERT (ip != 0)`,
`NS_ASSERT (ipIface != 0)`, `NS_ASSERT (device != 0)`, and the library's
refusal of an address that already has an entry. -/
inductive Abort where
  | noIpv4
  | noInterface
  | noDevice
  | duplicateAddress
  deriving DecidableEq, Repr

/-- State of a cache entry. -/
inductive EntryState where
  | alive
  | waitReply
  | dead
  deriving DecidableEq, Repr

/-- Modelled from the spec: an entry of the resolution cache (`ArpCache::Entry`
of the ns-3 library, which is not in the repository): the network-layer
address, the state, the link-layer address once resolved, and the number of
packets waiting for the resolution. -/
structure ArpEntry where
  ipv4Address : Nat
  state : EntryState
  macAddress : Option Nat
  pending : Nat
  deriving DecidableEq, Repr

/-- Modelled from the spec: the resolution cache (`ArpCache` of the ns-3
library): the identity `ptr` of the object, the alive timeout in seconds and
the map from network-layer address to entry. -/
structure ArpCache where
  ptr : Nat
  aliveTimeout : Nat
  entries : List (Nat × ArpEntry)
  deriving DecidableEq, Repr

/-- What `PopulateArpCache` reads and writes of an `Ipv4Interface`: the
link-layer address of `GetDevice ()` (`none` for no device), the local
addresses `GetAddress (k).GetLocal ()`, and the object its `ArpCache`
attribute points to. -/
structure Ipv4Interface where
  device : Option Nat
  addresses : List Nat
  arpCache : Nat
  deriving DecidableEq, Repr

/-- A node of `NodeList`: its `Ipv4L3Protocol` object, `none` when the node
has no network-layer stack, given by its `InterfaceList`; an element of the
list is `none` when it yields no `Ipv4Interface`. -/
structure Node where
  ip : Option (List (Option Ipv4Interface))
  deriving DecidableEq, Repr

/-- Modelled from the spec: the entry that `ArpCache::Add` creates for an
address, not yet resolved. -/
def newEntry (dest : Nat) : ArpEntry :=
  { ipv4Address := dest, state := EntryState.alive, macAddress := none, pending := 0 }

/-- Modelled from the spec: `entry->MarkWaitReply (...)`, the entry waits for
a resolution with one more packet pending. -/
def ArpEntry.markWaitReply (e : ArpEntry) : ArpEntry :=
  { e with state := EntryState.waitReply, pending := e.pending + 1 }

/-- Modelled from the spec: `entry->MarkAlive (addr)`, the entry is resolved
to the link-layer address `mac`. -/
def ArpEntry.markAlive (e : ArpEntry) (mac : Nat) : ArpEntry :=
  { e with state := EntryState.alive, macAddress := some mac }

/-- Modelled from the spec: insertion of the entry made by `arp->Add (ipAddr)`
and the two `Mark` calls into the map of the cache. The specification does
not say what the library does when the address already has an entry:
with `assertFresh` the insertion is refused (an assertion of the library),
without it the entry is replaced. -/
def arpInsert (assertFresh : Bool) (c : ArpCache) (dest : Nat) (entry : ArpEntry) :
    Except Abort ArpCache :=
  if assertFresh = true ∧ (c.entries.lookup dest).isSome = true then
    Except.error Abort.duplicateAddress
  else
    Except.ok { c with entries := (dest, entry) :: c.entries.filter (fun e => e.1 != dest) }

/-- Build pass, innermost loop `for (k = 0; k < ipIface->GetNAddresses (); k++)`:
a loopback address is skipped, any other address gets an entry marked
wait-reply and then alive with the device address `addr`. -/
def buildAddresses (assertFresh : Bool) (addr : Nat) : List Nat → ArpCache → Except Abort ArpCache
  | [], c => Except.ok c
  | ipAddr :: rest, c =>
    if ipAddr = loopback then buildAddresses assertFresh addr rest c
    else
      match arpInsert assertFresh c ipAddr (((newEntry ipAddr).markWaitReply).markAlive addr) with
      | Except.error e => Except.error e
      | Except.ok c1 => buildAddresses assertFresh addr rest c1

/-- Build pass, loop over the interfaces of a node, with
`NS_ASSERT (ipIface != 0)` and `NS_ASSERT (device != 0)`. -/
def buildInterfaces (assertFresh : Bool) :
    List (Option Ipv4Interface) → ArpCache → Except Abort ArpCache
  | [], c => Except.ok c
  | none :: _, _ => Except.error Abort.noInterface
  | some ipIface :: rest, c =>
    match ipIface.device with
    | none => Except.error Abort.noDevice
    | some addr =>
      match buildAddresses assertFresh addr ipIface.addresses c with
      | Except.error e => Except.error e
      | Except.ok c1 => buildInterfaces assertFresh rest c1

/-- Build pass, loop over `NodeList`, with `NS_ASSERT (ip != 0)`. -/
def buildNodes (assertFresh : Bool) : List Node → ArpCache → Except Abort ArpCache
  | [], c => Except.ok c
  | node :: rest, c =>
    match node.ip with
    | none => Except.error Abort.noIpv4
    | some interfaces =>
      match buildInterfaces assertFresh interfaces c with
      | Except.error e => Except.error e
      | Except.ok c1 => buildNodes assertFresh rest c1

/-- Attach pass, loop over the interfaces of a node:
`ipIface->SetAttribute ("ArpCache", PointerValue (arp))`. Returns the
interfaces as they are when the loop stops. -/
def attachInterfaces (arp : Nat) :
    List (Option Ipv4Interface) → List (Option Ipv4Interface) × Except Abort Unit
  | [] => ([], Except.ok ())
  | none :: rest => (none :: rest, Except.error Abort.noInterface)
  | some ipIface :: rest =>
    ((some { ipIface with arpCache := arp }) :: (attachInterfaces arp rest).1,
      (attachInterfaces arp rest).2)

/-- Attach pass, loop over `NodeList`, with its own `NS_ASSERT (ip != 0)`.
Returns the nodes as they are when the loop stops. -/
def attachNodes (arp : Nat) : List Node → List Node × Except Abort Unit
  | [] => ([], Except.ok ())
  | node :: rest =>
    match node.ip with
    | none => (node :: rest, Except.error Abort.noIpv4)
    | some interfaces =>
      match attachInterfaces arp interfaces with
      | (done, Except.error e) => ({ ip := some done } :: rest, Except.error e)
      | (done, Except.ok _) =>
        ({ ip := some done } :: (attachNodes arp rest).1, (attachNodes arp rest).2)

/-- The cache at the start of `PopulateArpCache`: `CreateObject<ArpCache> ()`,
a new object identified by `fresh`, then
`SetAliveTimeout (Seconds (3600 * 24 * 365))`. -/
def newArpCache (fresh : Nat) : ArpCache :=
  { ptr := fresh, aliveTimeout := 3600 * 24 * 365, entries := [] }

/-- State in which `PopulateArpCache` ends: the nodes as it left them, and
the cache it built or the reason it stopped. -/
structure Populated where
  nodes : List Node
  outcome : Except Abort ArpCache
  deriving Repr

/-- `SimulationHelper::PopulateArpCache`: the build pass over all nodes, then
the attach pass over all nodes. -/
def populateArpCache (assertFresh : Bool) (fresh : Nat) (nodes : List Node) : Populated :=
  match buildNodes assertFresh nodes (newArpCache fresh) with
  | Except.error e => { nodes := nodes, outcome := Except.error e }
  | Except.ok arp =>
    match attachNodes arp.ptr nodes with
    | (done, Except.error e) => { nodes := done, outcome := Except.error e }
    | (done, Except.ok _) => { nodes := done, outcome := Except.ok arp }

/-- Entry of a resolved address: created, marked wait-reply, marked alive. -/
def resolved (a mac : Nat) : ArpEntry := ((newEntry a).markWaitReply).markAlive mac

/-- Pairs (address, device address) that an interface with device address
`addr` contributes: its non-loopback addresses. -/
def ifaceBindings (addr : Nat) (addresses : List Nat) : List (Nat × Nat) :=
  (addresses.filter (fun a => decide (a ≠ loopback))).map (fun a => (a, addr))

/-- Pairs contributed by the interfaces of a node, in traversal order. -/
def bindingsIfs : List (Option Ipv4Interface) → List (Nat × Nat)
  | [] => []
  | none :: rest => bindingsIfs rest
  | some ipIface :: rest =>
    (match ipIface.device with
      | none => []
      | some addr => ifaceBindings addr ipIface.addresses) ++ bindingsIfs rest

/-- Pairs (non-loopback address, device address) of a topology, in traversal
order. -/
def bindings : List Node → List (Nat × Nat)
  | [] => []
  | node :: rest =>
    (match node.ip with
      | none => []
      | some interfaces => bindingsIfs interfaces) ++ bindings rest

/-- Insertion of a list of resolved pairs, in order. -/
def insertAll (assertFresh : Bool) : List (Nat × Nat) → ArpCache → Except Abort ArpCache
  | [], c => Except.ok c
  | b :: rest, c =>
    match arpInsert assertFresh c b.1 (resolved b.1 b.2) with
    | Except.error e => Except.error e
    | Except.ok c1 => insertAll assertFresh rest c1

/-- Device address of the last pair of the list with address `a`. -/
def lastMac : List (Nat × Nat) → Nat → Option Nat
  | [], _ => none
  | b :: rest, a =>
    match lastMac rest a with
    | some m => some m
    | none => if b.1 = a then some b.2 else none

/-- Every node has a network-layer stack and every interface is present and
has a device. -/
def Equipped (nodes : List Node) : Prop :=
  ∀ n ∈ nodes, ∃ ifs, n.ip = some ifs ∧ ∀ x ∈ ifs, ∃ i addr, x = some i ∧ i.device = some addr

/-- An interface with its cache reference set to `arp`. -/
def setCache (arp : Nat) (ipIface : Ipv4Interface) : Ipv4Interface :=
  { ipIface with arpCache := arp }

/-- A node with the cache reference of every interface set to `arp`. -/
def attached (arp : Nat) (node : Node) : Node :=
  { ip := node.ip.map (fun ifs => ifs.map (fun x => x.map (setCache arp))) }

/-- The address `a` is bound to some interface of some node. -/
def Bound (nodes : List Node) (a : Nat) : Prop :=
  ∃ n ∈ nodes, ∃ ifs, n.ip = some ifs ∧ ∃ i, some i ∈ ifs ∧ a ∈ i.addresses

/-- Two interfaces that share a non-loopback address have the same device
address; true in particular when no address is bound to two interfaces. -/
def OneOwner (nodes : List Node) : Prop :=
  ∀ n1 ∈ nodes, ∀ ifs1, n1.ip = some ifs1 → ∀ i1, some i1 ∈ ifs1 →
    ∀ n2 ∈ nodes, ∀ ifs2, n2.ip = some ifs2 → ∀ i2, some i2 ∈ ifs2 →
      ∀ a, a ≠ loopback → a ∈ i1.addresses → a ∈ i2.addresses → i1.device = i2.device

/-- Sample input: a loopback-only interface with device address `mac`. -/
def loopbackIface (mac : Nat) : Option Ipv4Interface :=
  some { device := some mac, addresses := [loopback], arpCache := 0 }

/-- Sample input: two nodes, each with a loopback interface and an interface
with one address (10.0.0.1 and 10.0.0.2). -/
def sampleNodes : List Node :=
  [{ ip := some [loopbackIface 1,
      some { device := some 11, addresses := [167772161], arpCache := 2 }] },
    { ip := some [loopbackIface 2,
      some { device := some 12, addresses := [167772162], arpCache := 3 }] }]

/-- Sample input: two nodes that expose the same single address 10.0.0.1. -/
def twinNodes : List Node :=
  [{ ip := some [loopbackIface 1,
      some { device := some 11, addresses := [167772161], arpCache := 2 }] },
    { ip := some [loopbackIface 2,
      some { device := some 12, addresses := [167772161], arpCache := 3 }] }]

/-! ## Configuration names of the other scripts -/

/-- Propagation loss models of the scripts. -/
inductive LossModel where
  | logDistance
  | friis
  | twoRayGround
  | nakagami
  deriving DecidableEq, Repr

/-- Position allocators of `ms-lab3b.cc`. -/
inductive Allocator where
  | grid
  | rectangle
  | disc
  deriving DecidableEq, Repr

/-- Channel configuration of `ms-lab3b.cc`: the chain of comparisons of
`lossModel`, ending in `NS_ABORT_MSG` with its message. -/
def lossModelLab3b (lossModel : String) : Except String LossModel :=
  if lossModel = "LogDistance" then Except.ok LossModel.logDistance
  else if lossModel = "Friis" then Except.ok LossModel.friis
  else if lossModel = "TwoRayGround" then Except.ok LossModel.twoRayGround
  else if lossModel = "Nakagami" then Except.ok LossModel.nakagami
  else Except.error
    "Wrong propagation model selected. Valid models are: Friis, LogDistance, TwoRayGround, Nakagami"

/-- Mobility configuration of `ms-lab3b.cc`: the chain of comparisons of
`positioning`, ending in `NS_ABORT_MSG` with its message. -/
def positioningLab3b (positioning : String) : Except String Allocator :=
  if positioning = "grid" then Except.ok Allocator.grid
  else if positioning = "rectangle" then Except.ok Allocator.rectangle
  else if positioning = "disc" then Except.ok Allocator.disc
  else Except.error "Wrong positioning allocator selected."

/-- Setup of `ms-lab3b.cc` from the channel configuration to the end of the
mobility configuration: the loss model is chosen first, the Wi-Fi devices
are installed, then the position allocator is chosen. -/
def setupLab3b (lossModel positioning : String) : Except String (LossModel × Allocator) :=
  match lossModelLab3b lossModel with
  | Except.error msg => Except.error msg
  | Except.ok model =>
    match positioningLab3b positioning with
    | Except.error msg => Except.error msg
    | Except.ok allocator => Except.ok (model, allocator)

/-- Channel configuration of `ms-lab2.cc`. -/
def lossModelLab2 (lossModel : String) : Except String LossModel :=
  if lossModel = "LogDistance" then Except.ok LossModel.logDistance
  else if lossModel = "Friis" then Except.ok LossModel.friis
  else if lossModel = "Nakagami" then Except.ok LossModel.nakagami
  else Except.error
    "Wrong propagation model selected. Valid models are: Friis, LogDistance, Nakagami"

/-- Channel configuration of `anomaly_project.cc`. -/
def lossModelAnomalyProject (lossModel : String) : Except String LossModel :=
  if lossModel = "LogDistance" then Except.ok LossModel.logDistance
  else if lossModel = "Friis" then Except.ok LossModel.friis
  else if lossModel = "Nakagami" then Except.ok LossModel.nakagami
  else Except.error
    "Wrong propagation model selected. Valid models are: Friis, LogDistance, Nakagami"

/-! ## Auxiliary definitions for the report -/

/-- Mean printed from a time sum and a non-zero count:
`(double)(sum / n).GetMicroSeconds () / 1000`. -/
def meanOf (rnd : ℚ → ℚ) (sum : Int) (n : Nat) : ℚ :=
  rnd (rnd ((getMicroSeconds (Int.tdiv sum (n : Int)) : Int) : ℚ) / 1000)

/-- Name that the protocol switch gives a flow of protocol 6 or 17. -/
def protoOf (fl : FlowEntry) : String := if fl.t.protocol = 6 then "TCP" else "UDP"

/-- Per-flow block of an accepted record, with the means written out. -/
def flowBlockIn (rnd : ℚ → ℚ) (W : Int) (fl : FlowEntry) : FlowBlock :=
  { flowId := fl.first, proto := protoOf fl, t := fl.t
    txBytes := fl.second.txBytes, rxBytes := fl.second.rxBytes
    txPackets := fl.second.txPackets, rxPackets := fl.second.rxPackets
    lostPackets := fl.second.lostPackets
    throughput := Shown.value (thrTerm rnd W fl.second)
    meanDelay :=
      if 0 < fl.second.rxPackets then
        Shown.value (meanOf rnd fl.second.delaySum fl.second.rxPackets)
      else Shown.dashes
    meanJitter :=
      if 1 < fl.second.rxPackets then
        Shown.value (meanOf rnd fl.second.jitterSum (fl.second.rxPackets - 1))
      else Shown.dashes }

/-- Number shown on a line; 0 for the text `---`. -/
def Shown.num : Shown → ℚ
  | Shown.dashes => 0
  | Shown.value q => q

/-- A bucket with every accumulator at zero. -/
def Bucket.empty : Bucket :=
  { txBytes := 0, rxBytes := 0, txPackets := 0, rxPackets := 0, lostPackets := 0
    throughput := 0, delaySum := 0, jitterSum := 0 }

/-- Every counter of `a` is at most the same counter of `b`. -/
def Bucket.CountersLe (a b : Bucket) : Prop :=
  a.txBytes ≤ b.txBytes ∧ a.rxBytes ≤ b.rxBytes ∧ a.txPackets ≤ b.txPackets ∧
  a.rxPackets ≤ b.rxPackets ∧ a.lostPackets ≤ b.lostPackets

/-- The counters of the flow fit the bucket: no sum reaches `2 ^ 64`. -/
def Bucket.Fits (b : Bucket) (f : FlowStats) : Prop :=
  b.txBytes + f.txBytes < 2 ^ 64 ∧ b.rxBytes + f.rxBytes < 2 ^ 64 ∧
  b.txPackets + f.txPackets < 2 ^ 64 ∧ b.rxPackets + f.rxPackets < 2 ^ 64 ∧
  b.lostPackets + f.lostPackets < 2 ^ 64

/-- Sample input: three addresses of one interface, 127.0.0.1, 127.0.0.2 and
10.0.0.1. -/
def loopbackNet : List Nat := [2130706433, 2130706434, 167772161]

/-! ## Per-flow throughput of `anomaly_project.cc` -/

/-- Fields of `FlowMonitor::FlowStats` that the loop of `anomaly_project.cc`
reads: `rxBytes` (`uint64_t`) and the two times, in nanoseconds. -/
structure ProjectFlow where
  rxBytes : Nat
  timeFirstTxPacket : Int
  timeLastRxPacket : Int
  deriving DecidableEq, Repr

/-- Value of `Time::GetSeconds ()`: the time in seconds as a double. -/
def getSeconds (rnd : ℚ → ℚ) (t : Int) : ℚ := rnd ((t : ℚ) / 1000000000)

/-- Duration in the denominator of `flowThr`:
`timeLastRxPacket.GetSeconds () - timeFirstTxPacket.GetSeconds ()`. -/
def observedDuration (rnd : ℚ → ℚ) (f : ProjectFlow) : ℚ :=
  rnd (getSeconds rnd f.timeLastRxPacket - getSeconds rnd f.timeFirstTxPacket)

/-- Assignment `flowThr = rxBytes * 8.0 / (last - first) / 1e6`. No result
when the duration is zero: the division then gives an infinity or a NaN, not
a number. -/
def projectFlowThr (rnd : ℚ → ℚ) (f : ProjectFlow) : Option ℚ :=
  if observedDuration rnd f = 0 then none
  else some (rnd (rnd (rnd (rnd (f.rxBytes : ℚ) * 8) / observedDuration rnd f) / 1000000))

/-- Variables of the loop: the three sums and the `uint32_t number`. -/
structure ProjectTotals where
  flowThrClose : ℚ
  flowThrDist : ℚ
  totalThr : ℚ
  number : Nat
  deriving DecidableEq, Repr

/-- Variables before the loop: `double ... = 0`, `uint32_t number = 0`. -/
def projectInit : ProjectTotals :=
  { flowThrClose := 0, flowThrDist := 0, totalThr := 0, number := 0 }

/-- Body of the loop for one flow: `totalThr += flowThr` under
`rxBytes != 0`, `flowThrClose += flowThr` under `number < nWifi`,
`flowThrDist += flowThr` under `number >= nWifi`, then `number++`. -/
def projectStep (rnd : ℚ → ℚ) (nWifi : Nat) (st : ProjectTotals) (f : ProjectFlow) :
    Option ProjectTotals :=
  match projectFlowThr rnd f with
  | none => none
  | some flowThr =>
    some
      { totalThr := if f.rxBytes ≠ 0 then dblAdd rnd st.totalThr flowThr else st.totalThr
        flowThrClose :=
          if st.number < nWifi then dblAdd rnd st.flowThrClose flowThr else st.flowThrClose
        flowThrDist :=
          if nWifi ≤ st.number then dblAdd rnd st.flowThrDist flowThr else st.flowThrDist
        number := (st.number + 1) % 2 ^ 32 }

/-- Loop over the flow records of `anomaly_project.cc`. -/
def projectLoop (rnd : ℚ → ℚ) (nWifi : Nat) : List ProjectFlow → ProjectTotals →
    Option ProjectTotals
  | [], st => some st
  | f :: rest, st =>
    match projectStep rnd nWifi st f with
    | none => none
    | some st1 => projectLoop rnd nWifi rest st1

/-- Throughput of a flow in exact arithmetic: bits received over the
duration in seconds, in units of `10 ^ 6`. -/
def exactFlowThr (f : ProjectFlow) : ℚ :=
  (f.rxBytes : ℚ) * 8 / (((f.timeLastRxPacket : ℚ) - (f.timeFirstTxPacket : ℚ)) / 1000000000) /
    1000000

/-- Sample input: two flows of a close station and one of a distant station
that received nothing. -/
def projectFlows : List ProjectFlow :=
  [{ rxBytes := 1250000, timeFirstTxPacket := 1000000000, timeLastRxPacket := 11000000000 },
    { rxBytes := 2500000, timeFirstTxPacket := 1000000000, timeLastRxPacket := 11000000000 },
    { rxBytes := 0, timeFirstTxPacket := 1000000000, timeLastRxPacket := 0 }]

/-! ## Lemmas on the machine arithmetic -/

theorem add64_right_comm (a x y : Nat) : add64 (add64 a x) y = add64 (add64 a y) x := by
  unfold add64
  omega

theorem timeAdd_right_comm (a x y : Int) : timeAdd (timeAdd a x) y = timeAdd (timeAdd a y) x := by
  unfold timeAdd wrapI64
  omega

theorem dblAdd_exact_right_comm (a x y : ℚ) :
    dblAdd exactArith (dblAdd exactArith a x) y = dblAdd exactArith (dblAdd exactArith a y) x := by
  unfold dblAdd exactArith
  ring

theorem tidOf_of_le {p : Nat} (h1 : 1000 ≤ p) (h2 : p < 65536) : tidOf p = p - 1000 := by
  unfold tidOf
  omega

theorem addAt_of_lt {α : Type} (add : α → α → α) (d : α) (v : List α) (i : Nat) (x : α)
    (h : i < v.length) : addAt add v i x = bump add d v i x := by
  unfold addAt bump
  rw [List.getElem?_eq_getElem h, List.getD_eq_getElem _ _ h]

theorem length_bump {α : Type} (add : α → α → α) (d : α) (v : List α) (i : Nat) (x : α) :
    (bump add d v i x).length = v.length := by
  unfold bump
  simp

theorem getD_bump {α : Type} (add : α → α → α) (d : α) (v : List α) (i k : Nat) (x : α)
    (h : i < v.length) :
    (bump add d v i x).getD k d = if i = k then add (v.getD i d) x else v.getD k d := by
  unfold bump
  by_cases hik : i = k
  · subst hik
    simp [List.getD_eq_getElem?_getD, List.getElem?_set, h]
  · simp [List.getD_eq_getElem?_getD, List.getElem?_set, hik]

/-! ## One step of the accumulation -/

theorem accumulate_of_lt (rnd : ℚ → ℚ) (W : Int) (s : Stats) (fl : FlowEntry) (hs : s.WF)
    (h : tidOf fl.t.destinationPort < 8) :
    accumulate rnd W s fl = accumulateIn rnd W s fl := by
  obtain ⟨h1, h2, h3, h4, h5, h6, h7, h8⟩ := hs
  unfold accumulate accumulateIn
  dsimp only
  rw [addAt_of_lt add64 0 s.txBytesPerTid _ _ (by omega),
    addAt_of_lt add64 0 s.rxBytesPerTid _ _ (by omega),
    addAt_of_lt add64 0 s.txPacketsPerTid _ _ (by omega),
    addAt_of_lt add64 0 s.rxPacketsPerTid _ _ (by omega),
    addAt_of_lt add64 0 s.lostPacketsPerTid _ _ (by omega),
    addAt_of_lt (dblAdd rnd) 0 s.throughputPerTid _ _ (by omega),
    addAt_of_lt timeAdd 0 s.delaySumPerTid _ _ (by omega),
    addAt_of_lt timeAdd 0 s.jitterSumPerTid _ _ (by omega)]

theorem wf_initStats (u : ℚ) : (initStats u).WF := by
  simp [Stats.WF, initStats]

theorem wf_accumulateIn (rnd : ℚ → ℚ) (W : Int) (s : Stats) (fl : FlowEntry) (hs : s.WF) :
    (accumulateIn rnd W s fl).WF := by
  obtain ⟨h1, h2, h3, h4, h5, h6, h7, h8⟩ := hs
  simp [Stats.WF, accumulateIn, length_bump, h1, h2, h3, h4, h5, h6, h7, h8]

theorem wf_foldl_accumulateIn (rnd : ℚ → ℚ) (W : Int) (flows : List FlowEntry) :
    ∀ s : Stats, s.WF → (flows.foldl (accumulateIn rnd W) s).WF := by
  induction flows with
  | nil => intro s hs; exact hs
  | cons fl rest ih => intro s hs; exact ih _ (wf_accumulateIn rnd W s fl hs)

/-! ## The per-flow block never faults on a well-typed record -/

theorem meanMs_isSome (rnd : ℚ → ℚ) (sum : Int) (n : Nat) (h : n ≠ 0) :
    meanMs rnd sum n =
      some (rnd (rnd ((getMicroSeconds (Int.tdiv sum (n : Int)) : Int) : ℚ) / 1000)) := by
  simp [meanMs, timeDiv, h]

theorem meanMs_zero (rnd : ℚ → ℚ) (sum : Int) : meanMs rnd sum 0 = none := by
  simp [meanMs, timeDiv]

theorem sub32_one {n : Nat} (h1 : 1 < n) (h2 : n < 2 ^ 32) : sub32 n 1 = n - 1 := by
  unfold sub32
  omega

theorem sub64_one {n : Nat} (h1 : 0 < n) (h2 : n < 2 ^ 64) : sub64 n 1 = n - 1 := by
  unfold sub64
  omega

theorem flowJitter_of_le (rnd : ℚ → ℚ) (f : FlowStats) (h : f.rxPackets ≤ 1) :
    flowJitter rnd f = some Shown.dashes := by
  unfold flowJitter
  rw [if_neg (by omega)]

theorem flowJitter_of_gt (rnd : ℚ → ℚ) (f : FlowStats) (h1 : 1 < f.rxPackets)
    (h2 : f.rxPackets < 2 ^ 32) :
    flowJitter rnd f = some (Shown.value (rnd (rnd
      ((getMicroSeconds (Int.tdiv f.jitterSum ((f.rxPackets - 1 : Nat) : Int)) : Int) : ℚ)
        / 1000))) := by
  unfold flowJitter
  rw [if_pos h1, sub32_one h1 h2, meanMs_isSome rnd _ _ (by omega)]
  rfl

theorem flowBlock_isSome (rnd : ℚ → ℚ) (W : Int) (proto : String) (fl : FlowEntry)
    (h : fl.second.rxPackets < 2 ^ 32) : ∃ b, flowBlock rnd W proto fl = some b := by
  unfold flowBlock
  by_cases h0 : 0 < fl.second.rxPackets
  · rw [if_pos h0, meanMs_isSome rnd _ _ (by omega)]
    by_cases h1 : 1 < fl.second.rxPackets
    · rw [flowJitter_of_gt rnd _ h1 h]
      exact ⟨_, rfl⟩
    · rw [flowJitter_of_le rnd _ (by omega)]
      exact ⟨_, rfl⟩
  · rw [if_neg h0]
    exact ⟨_, rfl⟩

theorem protoName_of_accepted {fl : FlowEntry} (h : Accepted fl) :
    ∃ proto, protoName fl.t.protocol = some proto := by
  rcases h.2.1 with h6 | h17
  · exact ⟨"TCP", by simp [protoName, h6]⟩
  · exact ⟨"UDP", by simp [protoName, h17]⟩

theorem tidOf_of_accepted {fl : FlowEntry} (h : Accepted fl) :
    tidOf fl.t.destinationPort < 8 := by
  have h1 := h.2.2.1
  have h2 := h.2.2.2
  unfold tidOf
  omega

/-! ## The flow loop on accepted flows -/

theorem flowLoop_accepted (rnd : ℚ → ℚ) (W : Int) (flows : List FlowEntry) :
    ∀ (s : Stats) (out : List FlowBlock), s.WF → (∀ fl ∈ flows, Accepted fl) →
      (flowLoop rnd W flows s out).2 = Except.ok (flows.foldl (accumulateIn rnd W) s) := by
  induction flows with
  | nil => intro s out _ _; rfl
  | cons fl rest ih =>
    intro s out hs hall
    have hfl : Accepted fl := hall fl (List.mem_cons_self _ _)
    obtain ⟨proto, hp⟩ := protoName_of_accepted hfl
    obtain ⟨b, hb⟩ := flowBlock_isSome rnd W proto fl hfl.1.2.2.2.2.2.2.2.1
    have hacc := accumulate_of_lt rnd W s fl hs (tidOf_of_accepted hfl)
    simp only [flowLoop, hp, hb, hacc, List.foldl_cons]
    exact ih _ _ (wf_accumulateIn rnd W s fl hs)
      (fun x hx => hall x (List.mem_cons_of_mem _ hx))

theorem finalStats_accepted (rnd : ℚ → ℚ) (W : Int) (u : ℚ) (flows : List FlowEntry)
    (hall : ∀ fl ∈ flows, Accepted fl) :
    finalStats rnd W u flows = some (flows.foldl (accumulateIn rnd W) (initStats u)) := by
  unfold finalStats
  rw [flowLoop_accepted rnd W flows _ _ (wf_initStats u) hall]

/-! ## Closed forms of the accumulators -/

theorem foldl_proj {σ β γ : Type} (step : σ → β → σ) (proj : σ → γ) (g : γ → β → γ)
    (h : ∀ s x, proj (step s x) = g (proj s) x) (xs : List β) :
    ∀ s : σ, proj (xs.foldl step s) = xs.foldl g (proj s) := by
  induction xs with
  | nil => intro s; rfl
  | cons x rest ih => intro s; simp only [List.foldl_cons]; rw [ih, h]

theorem foldl_bump {α β : Type} (add : α → α → α) (d : α) (idx : β → Nat) (val : β → α)
    (xs : List β) :
    ∀ (v : List α) (k : Nat), (∀ x ∈ xs, idx x < v.length) →
      (xs.foldl (fun w x => bump add d w (idx x) (val x)) v).length = v.length ∧
      (xs.foldl (fun w x => bump add d w (idx x) (val x)) v).getD k d =
        (xs.filter (fun x => decide (idx x = k))).foldl (fun a x => add a (val x))
          (v.getD k d) := by
  induction xs with
  | nil => intro v k _; exact ⟨rfl, rfl⟩
  | cons x rest ih =>
    intro v k hall
    have hx : idx x < v.length := hall x (List.mem_cons_self _ _)
    have hrest : ∀ y ∈ rest, idx y < (bump add d v (idx x) (val x)).length := by
      intro y hy
      rw [length_bump]
      exact hall y (List.mem_cons_of_mem _ hy)
    obtain ⟨hlen, hget⟩ := ih (bump add d v (idx x) (val x)) k hrest
    refine ⟨?_, ?_⟩
    · simp only [List.foldl_cons]
      rw [hlen, length_bump]
    · simp only [List.foldl_cons]
      rw [hget, getD_bump add d v (idx x) k (val x) hx]
      by_cases hk : idx x = k
      · simp [List.filter_cons, hk]
      · simp [List.filter_cons, hk]

theorem foldl_add64 (val : FlowEntry → Nat) (xs : List FlowEntry) :
    ∀ a : Nat, a < 2 ^ 64 →
      xs.foldl (fun a x => add64 a (val x)) a = (a + (xs.map val).sum) % 2 ^ 64 := by
  induction xs with
  | nil => intro a ha; simp; omega
  | cons x rest ih =>
    intro a _
    simp only [List.foldl_cons, List.map_cons, List.sum_cons]
    rw [ih (add64 a (val x)) (by unfold add64; omega)]
    unfold add64
    omega

theorem foldl_timeAdd (val : FlowEntry → Int) (xs : List FlowEntry) :
    ∀ a : Int, wrapI64 a = a →
      xs.foldl (fun a x => timeAdd a (val x)) a = wrapI64 (a + (xs.map val).sum) := by
  induction xs with
  | nil => intro a ha; simp [ha]
  | cons x rest ih =>
    intro a _
    simp only [List.foldl_cons, List.map_cons, List.sum_cons]
    rw [ih (timeAdd a (val x)) (by unfold timeAdd wrapI64; omega)]
    unfold timeAdd wrapI64
    omega

theorem foldl_dblAdd_exact (val : FlowEntry → ℚ) (xs : List FlowEntry) :
    ∀ a : ℚ, xs.foldl (fun a x => dblAdd exactArith a (val x)) a = a + (xs.map val).sum := by
  induction xs with
  | nil => intro a; simp
  | cons x rest ih =>
    intro a
    simp only [List.foldl_cons, List.map_cons, List.sum_cons]
    rw [ih]
    unfold dblAdd exactArith
    ring

/-! ## Order of the flows -/

theorem ext_getD {α : Type} (d : α) {v w : List α} (hl : v.length = w.length)
    (h : ∀ k, v.getD k d = w.getD k d) : v = w := by
  apply List.ext_getElem hl
  intro n h1 h2
  have hn := h n
  rwa [List.getD_eq_getElem _ _ h1, List.getD_eq_getElem _ _ h2] at hn

theorem foldl_perm {α β : Type} (f : α → β → α) (hc : ∀ a x y, f (f a x) y = f (f a y) x)
    {l1 l2 : List β} (hp : l1.Perm l2) (a : α) : l1.foldl f a = l2.foldl f a :=
  hp.foldl_eq' (fun x _ y _ z => hc z x y) a

theorem foldl_bump_perm {α β : Type} (add : α → α → α) (d : α) (idx : β → Nat) (val : β → α)
    (hc : ∀ a x y, add (add a x) y = add (add a y) x) {l1 l2 : List β} (hp : l1.Perm l2)
    (v : List α) (h : ∀ x ∈ l1, idx x < v.length) :
    l1.foldl (fun w x => bump add d w (idx x) (val x)) v =
      l2.foldl (fun w x => bump add d w (idx x) (val x)) v := by
  have h2 : ∀ x ∈ l2, idx x < v.length := fun x hx => h x (hp.mem_iff.mpr hx)
  apply ext_getD d
  · rw [(foldl_bump add d idx val l1 v 0 h).1, (foldl_bump add d idx val l2 v 0 h2).1]
  · intro k
    rw [(foldl_bump add d idx val l1 v k h).2, (foldl_bump add d idx val l2 v k h2).2]
    exact foldl_perm (fun a x => add a (val x)) (fun a x y => hc a (val x) (val y))
      (hp.filter _) _

theorem vec_field_perm {α : Type} (rnd : ℚ → ℚ) (W : Int) (proj : Stats → List α)
    (add : α → α → α) (val : FlowEntry → α) (d : α)
    (hproj : ∀ s fl, proj (accumulateIn rnd W s fl) =
      bump add d (proj s) (tidOf fl.t.destinationPort) (val fl))
    (hc : ∀ a x y, add (add a x) y = add (add a y) x) {l1 l2 : List FlowEntry}
    (hp : l1.Perm l2) (s : Stats) (hlen : (proj s).length = 8)
    (hall : ∀ fl ∈ l1, tidOf fl.t.destinationPort < 8) :
    proj (l1.foldl (accumulateIn rnd W) s) = proj (l2.foldl (accumulateIn rnd W) s) := by
  rw [foldl_proj (accumulateIn rnd W) proj
      (fun w fl => bump add d w (tidOf fl.t.destinationPort) (val fl)) hproj l1 s,
    foldl_proj (accumulateIn rnd W) proj
      (fun w fl => bump add d w (tidOf fl.t.destinationPort) (val fl)) hproj l2 s]
  exact foldl_bump_perm add d (fun fl => tidOf fl.t.destinationPort) val hc hp (proj s)
    (fun x hx => by rw [hlen]; exact hall x hx)

theorem glob_field_perm {α : Type} (rnd : ℚ → ℚ) (W : Int) (proj : Stats → α)
    (add : α → α → α) (val : FlowEntry → α)
    (hproj : ∀ s fl, proj (accumulateIn rnd W s fl) = add (proj s) (val fl))
    (hc : ∀ a x y, add (add a x) y = add (add a y) x) {l1 l2 : List FlowEntry}
    (hp : l1.Perm l2) (s : Stats) :
    proj (l1.foldl (accumulateIn rnd W) s) = proj (l2.foldl (accumulateIn rnd W) s) := by
  rw [foldl_proj (accumulateIn rnd W) proj (fun a fl => add a (val fl)) hproj l1 s,
    foldl_proj (accumulateIn rnd W) proj (fun a fl => add a (val fl)) hproj l2 s]
  exact foldl_perm (fun a x => add a (val x)) (fun a x y => hc a (val x) (val y)) hp _

theorem counters_perm (rnd : ℚ → ℚ) (W : Int) {l1 l2 : List FlowEntry} (hp : l1.Perm l2)
    (s : Stats) (hs : s.WF) (hall : ∀ fl ∈ l1, tidOf fl.t.destinationPort < 8) :
    (l1.foldl (accumulateIn rnd W) s).counters = (l2.foldl (accumulateIn rnd W) s).counters := by
  obtain ⟨h1, h2, h3, h4, h5, _, h7, h8⟩ := hs
  apply Stats.ext
  · exact glob_field_perm rnd W Stats.txBytes add64 (fun fl => fl.second.txBytes)
      (fun _ _ => rfl) add64_right_comm hp s
  · exact glob_field_perm rnd W Stats.rxBytes add64 (fun fl => fl.second.rxBytes)
      (fun _ _ => rfl) add64_right_comm hp s
  · exact glob_field_perm rnd W Stats.txPackets add64 (fun fl => fl.second.txPackets)
      (fun _ _ => rfl) add64_right_comm hp s
  · exact glob_field_perm rnd W Stats.rxPackets add64 (fun fl => fl.second.rxPackets)
      (fun _ _ => rfl) add64_right_comm hp s
  · exact glob_field_perm rnd W Stats.lostPackets add64 (fun fl => fl.second.lostPackets)
      (fun _ _ => rfl) add64_right_comm hp s
  · rfl
  · exact glob_field_perm rnd W Stats.delaySum timeAdd (fun fl => fl.second.delaySum)
      (fun _ _ => rfl) timeAdd_right_comm hp s
  · exact glob_field_perm rnd W Stats.jitterSum timeAdd (fun fl => fl.second.jitterSum)
      (fun _ _ => rfl) timeAdd_right_comm hp s
  · exact vec_field_perm rnd W Stats.txBytesPerTid add64 (fun fl => fl.second.txBytes) 0
      (fun _ _ => rfl) add64_right_comm hp s h1 hall
  · exact vec_field_perm rnd W Stats.rxBytesPerTid add64 (fun fl => fl.second.rxBytes) 0
      (fun _ _ => rfl) add64_right_comm hp s h2 hall
  · exact vec_field_perm rnd W Stats.txPacketsPerTid add64 (fun fl => fl.second.txPackets) 0
      (fun _ _ => rfl) add64_right_comm hp s h3 hall
  · exact vec_field_perm rnd W Stats.rxPacketsPerTid add64 (fun fl => fl.second.rxPackets) 0
      (fun _ _ => rfl) add64_right_comm hp s h4 hall
  · exact vec_field_perm rnd W Stats.lostPacketsPerTid add64
      (fun fl => fl.second.lostPackets) 0 (fun _ _ => rfl) add64_right_comm hp s h5 hall
  · rfl
  · exact vec_field_perm rnd W Stats.delaySumPerTid timeAdd (fun fl => fl.second.delaySum) 0
      (fun _ _ => rfl) timeAdd_right_comm hp s h7 hall
  · exact vec_field_perm rnd W Stats.jitterSumPerTid timeAdd (fun fl => fl.second.jitterSum) 0
      (fun _ _ => rfl) timeAdd_right_comm hp s h8 hall

theorem exact_perm (W : Int) {l1 l2 : List FlowEntry} (hp : l1.Perm l2)
    (s : Stats) (hs : s.WF) (hall : ∀ fl ∈ l1, tidOf fl.t.destinationPort < 8) :
    l1.foldl (accumulateIn exactArith W) s = l2.foldl (accumulateIn exactArith W) s := by
  have hc := counters_perm exactArith W hp s hs hall
  apply Stats.ext
  · exact (congrArg Stats.txBytes hc :)
  · exact (congrArg Stats.rxBytes hc :)
  · exact (congrArg Stats.txPackets hc :)
  · exact (congrArg Stats.rxPackets hc :)
  · exact (congrArg Stats.lostPackets hc :)
  · exact glob_field_perm exactArith W Stats.throughput (dblAdd exactArith)
      (fun fl => thrTerm exactArith W fl.second) (fun _ _ => rfl) dblAdd_exact_right_comm hp s
  · exact (congrArg Stats.delaySum hc :)
  · exact (congrArg Stats.jitterSum hc :)
  · exact (congrArg Stats.txBytesPerTid hc :)
  · exact (congrArg Stats.rxBytesPerTid hc :)
  · exact (congrArg Stats.txPacketsPerTid hc :)
  · exact (congrArg Stats.rxPacketsPerTid hc :)
  · exact (congrArg Stats.lostPacketsPerTid hc :)
  · exact vec_field_perm exactArith W Stats.throughputPerTid (dblAdd exactArith)
      (fun fl => thrTerm exactArith W fl.second) 0 (fun _ _ => rfl) dblAdd_exact_right_comm
      hp s hs.2.2.2.2.2.1 hall
  · exact (congrArg Stats.delaySumPerTid hc :)
  · exact (congrArg Stats.jitterSumPerTid hc :)

theorem derived_of_counters (rnd : ℚ → ℚ) {s1 s2 : Stats} (hc : s1.counters = s2.counters) :
    (∀ tid, tidMeanDelay rnd s1 tid = tidMeanDelay rnd s2 tid ∧
      tidMeanJitter rnd s1 tid = tidMeanJitter rnd s2 tid) ∧
    totalMeanDelay rnd s1 = totalMeanDelay rnd s2 ∧
    totalMeanJitter rnd s1 = totalMeanJitter rnd s2 := by
  have e1 : s1.rxPackets = s2.rxPackets := (congrArg Stats.rxPackets hc :)
  have e2 : s1.delaySum = s2.delaySum := (congrArg Stats.delaySum hc :)
  have e3 : s1.jitterSum = s2.jitterSum := (congrArg Stats.jitterSum hc :)
  have e4 : s1.rxPacketsPerTid = s2.rxPacketsPerTid := (congrArg Stats.rxPacketsPerTid hc :)
  have e5 : s1.delaySumPerTid = s2.delaySumPerTid := (congrArg Stats.delaySumPerTid hc :)
  have e6 : s1.jitterSumPerTid = s2.jitterSumPerTid := (congrArg Stats.jitterSumPerTid hc :)
  refine ⟨fun tid => ⟨?_, ?_⟩, ?_, ?_⟩
  · unfold tidMeanDelay; rw [e4, e5]
  · unfold tidMeanJitter; rw [e1, e4, e6]
  · unfold totalMeanDelay; rw [e1, e2]
  · unfold totalMeanJitter; rw [e1, e3]

/-! ## C1: order of the flow records -/

/-- C1, counterexample. Three UDP flows to port 1000 that received 125000,
250000 and 375000 bytes, window 10 s: in double precision the per-TID and
global throughput sums are 0.6000000000000001 in one order and 0.6 in the
reverse order, so the throughput accumulators are not identical for every
permutation of the flow records. -/
theorem throughput_depends_on_order :
    risingFlows.Perm fallingFlows ∧ (∀ fl ∈ risingFlows, Accepted fl) ∧
    (finalStats binary64 10000000 0 risingFlows).map
        (fun s => (s.throughputPerTid.getD 0 0, s.throughput)) =
      some (1351079888211149 / 2251799813685248, 1351079888211149 / 2251799813685248) ∧
    (finalStats binary64 10000000 0 fallingFlows).map
        (fun s => (s.throughputPerTid.getD 0 0, s.throughput)) =
      some (5404319552844595 / 9007199254740992, 5404319552844595 / 9007199254740992) ∧
    (finalStats binary64 10000000 0 risingFlows).map Stats.throughputPerTid ≠
      (finalStats binary64 10000000 0 fallingFlows).map Stats.throughputPerTid := by
  refine ⟨?_, ?_, ?_, ?_, ?_⟩
  · decide
  · intro fl hfl
    simp only [risingFlows, List.mem_cons, List.mem_singleton, List.not_mem_nil,
      or_false] at hfl
    rcases hfl with h | h | h <;> subst h <;> simp [Accepted, FlowEntry.InRange, mkFlow]
  · decide!
  · decide!
  · decide!

/-- C1, amended. For every permutation of a list of flow records with
protocol 6 or 17 and destination port in 1000..1007, under every rounding of
the double operations, the loop ends for both orders, all integer and time
accumulators (per-TID and global) are identical and so are the mean delay and
mean jitter derived for each class and for the total; in exact arithmetic
(window `W ≠ 0`) the throughput accumulators are identical too, so the whole
final state is the same. -/
theorem order_independence (rnd : ℚ → ℚ) (W : Int) (u : ℚ) (l1 l2 : List FlowEntry)
    (_hW : W ≠ 0) (hp : l1.Perm l2) (hall : ∀ fl ∈ l1, Accepted fl) :
    (∃ s1 s2, finalStats rnd W u l1 = some s1 ∧ finalStats rnd W u l2 = some s2 ∧
      s1.counters = s2.counters ∧
      (∀ tid, tidMeanDelay rnd s1 tid = tidMeanDelay rnd s2 tid ∧
        tidMeanJitter rnd s1 tid = tidMeanJitter rnd s2 tid) ∧
      totalMeanDelay rnd s1 = totalMeanDelay rnd s2 ∧
      totalMeanJitter rnd s1 = totalMeanJitter rnd s2) ∧
    (∃ s, finalStats exactArith W u l1 = some s ∧ finalStats exactArith W u l2 = some s) := by
  have hall2 : ∀ fl ∈ l2, Accepted fl := fun fl h => hall fl (hp.mem_iff.mpr h)
  have htid : ∀ fl ∈ l1, tidOf fl.t.destinationPort < 8 :=
    fun fl h => tidOf_of_accepted (hall fl h)
  refine ⟨⟨_, _, finalStats_accepted rnd W u l1 hall, finalStats_accepted rnd W u l2 hall2,
    ?_, ?_⟩, ⟨_, finalStats_accepted exactArith W u l1 hall, ?_⟩⟩
  · exact counters_perm rnd W hp _ (wf_initStats u) htid
  · exact derived_of_counters rnd (counters_perm rnd W hp _ (wf_initStats u) htid)
  · rw [finalStats_accepted exactArith W u l2 hall2,
      exact_perm W hp _ (wf_initStats u) htid]

/-- C1, witness: two flows of different classes in both orders. -/
theorem order_independence_witness :
    (∃ s1 s2,
      finalStats binary64 10000000 0
        [mkFlow 1 17 1000 1470 1470 1 1 0 5000 0, mkFlow 2 6 1006 2940 1470 2 1 1 7000 0] =
        some s1 ∧
      finalStats binary64 10000000 0
        [mkFlow 2 6 1006 2940 1470 2 1 1 7000 0, mkFlow 1 17 1000 1470 1470 1 1 0 5000 0] =
        some s2 ∧
      s1.counters = s2.counters ∧
      (∀ tid, tidMeanDelay binary64 s1 tid = tidMeanDelay binary64 s2 tid ∧
        tidMeanJitter binary64 s1 tid = tidMeanJitter binary64 s2 tid) ∧
      totalMeanDelay binary64 s1 = totalMeanDelay binary64 s2 ∧
      totalMeanJitter binary64 s1 = totalMeanJitter binary64 s2) ∧
    (∃ s,
      finalStats exactArith 10000000 0
        [mkFlow 1 17 1000 1470 1470 1 1 0 5000 0, mkFlow 2 6 1006 2940 1470 2 1 1 7000 0] =
        some s ∧
      finalStats exactArith 10000000 0
        [mkFlow 2 6 1006 2940 1470 2 1 1 7000 0, mkFlow 1 17 1000 1470 1470 1 1 0 5000 0] =
        some s) :=
  order_independence binary64 10000000 0 _ _ (by decide) (List.Perm.swap _ _ _)
    (by
      intro fl hfl
      simp only [List.mem_cons, List.mem_singleton, List.not_mem_nil, or_false] at hfl
      rcases hfl with h | h <;> subst h <;>
        simp [Accepted, FlowEntry.InRange, mkFlow])

/-! ## C2: global totals and the four classes -/

theorem accepted_of_fourClass {fl : FlowEntry} (h : FourClass fl) : Accepted fl := by
  refine ⟨h.1, h.2.1, ?_, ?_⟩ <;> rcases h.2.2 with h | h | h | h <;> omega

theorem tidOf_of_fourClass {fl : FlowEntry} (h : FourClass fl) :
    tidOf fl.t.destinationPort = 0 ∨ tidOf fl.t.destinationPort = 1 ∨
      tidOf fl.t.destinationPort = 5 ∨ tidOf fl.t.destinationPort = 6 := by
  unfold tidOf
  rcases h.2.2 with h | h | h | h <;> omega

theorem getD_replicate_zero {α : Type} (d : α) (n k : Nat) :
    (List.replicate n d).getD k d = d := by
  simp only [List.getD_eq_getElem?_getD, List.getElem?_replicate]
  split <;> rfl

theorem sum_four_classes {M : Type} [AddCommMonoid M] (val : FlowEntry → M)
    (flows : List FlowEntry) (h : ∀ fl ∈ flows, FourClass fl) :
    (flows.map val).sum =
      classSum val 0 flows + classSum val 1 flows + classSum val 5 flows +
        classSum val 6 flows := by
  induction flows with
  | nil => simp [classSum]
  | cons fl rest ih =>
    have ih2 := ih (fun x hx => h x (List.mem_cons_of_mem _ hx))
    simp only [classSum] at ih2 ⊢
    simp only [List.map_cons, List.sum_cons, ih2]
    rcases tidOf_of_fourClass (h fl (List.mem_cons_self _ _)) with e | e | e | e <;>
      simp [List.filter_cons, e] <;> abel

theorem final_glob64 (rnd : ℚ → ℚ) (W : Int) (u : ℚ) (flows : List FlowEntry)
    (proj : Stats → Nat) (val : FlowEntry → Nat)
    (hproj : ∀ s fl, proj (accumulateIn rnd W s fl) = add64 (proj s) (val fl))
    (h0 : proj (initStats u) = 0) :
    proj (flows.foldl (accumulateIn rnd W) (initStats u)) = (flows.map val).sum % 2 ^ 64 := by
  rw [foldl_proj (accumulateIn rnd W) proj (fun a fl => add64 a (val fl)) hproj flows,
    foldl_add64 val flows _ (by rw [h0]; decide), h0, Nat.zero_add]

theorem final_vec64 (rnd : ℚ → ℚ) (W : Int) (u : ℚ) (flows : List FlowEntry)
    (proj : Stats → List Nat) (val : FlowEntry → Nat)
    (hproj : ∀ s fl, proj (accumulateIn rnd W s fl) =
      bump add64 0 (proj s) (tidOf fl.t.destinationPort) (val fl))
    (h0 : proj (initStats u) = List.replicate 8 0)
    (hall : ∀ fl ∈ flows, tidOf fl.t.destinationPort < 8) (k : Nat) :
    (proj (flows.foldl (accumulateIn rnd W) (initStats u))).getD k 0 =
      classSum val k flows % 2 ^ 64 := by
  rw [foldl_proj (accumulateIn rnd W) proj
      (fun w fl => bump add64 0 w (tidOf fl.t.destinationPort) (val fl)) hproj flows,
    (foldl_bump add64 0 (fun fl => tidOf fl.t.destinationPort) val flows _ k
      (by rw [h0]; simpa using hall)).2,
    foldl_add64 val _ _ (by rw [h0, getD_replicate_zero]; decide), h0, getD_replicate_zero,
    Nat.zero_add]
  rfl

theorem final_globT (rnd : ℚ → ℚ) (W : Int) (u : ℚ) (flows : List FlowEntry)
    (proj : Stats → Int) (val : FlowEntry → Int)
    (hproj : ∀ s fl, proj (accumulateIn rnd W s fl) = timeAdd (proj s) (val fl))
    (h0 : proj (initStats u) = 0) :
    proj (flows.foldl (accumulateIn rnd W) (initStats u)) = wrapI64 (flows.map val).sum := by
  rw [foldl_proj (accumulateIn rnd W) proj (fun a fl => timeAdd a (val fl)) hproj flows,
    foldl_timeAdd val flows _ (by rw [h0]; decide), h0, Int.zero_add]

theorem final_vecT (rnd : ℚ → ℚ) (W : Int) (u : ℚ) (flows : List FlowEntry)
    (proj : Stats → List Int) (val : FlowEntry → Int)
    (hproj : ∀ s fl, proj (accumulateIn rnd W s fl) =
      bump timeAdd 0 (proj s) (tidOf fl.t.destinationPort) (val fl))
    (h0 : proj (initStats u) = List.replicate 8 0)
    (hall : ∀ fl ∈ flows, tidOf fl.t.destinationPort < 8) (k : Nat) :
    (proj (flows.foldl (accumulateIn rnd W) (initStats u))).getD k 0 =
      wrapI64 (classSum val k flows) := by
  rw [foldl_proj (accumulateIn rnd W) proj
      (fun w fl => bump timeAdd 0 w (tidOf fl.t.destinationPort) (val fl)) hproj flows,
    (foldl_bump timeAdd 0 (fun fl => tidOf fl.t.destinationPort) val flows _ k
      (by rw [h0]; simpa using hall)).2,
    foldl_timeAdd val _ _ (by rw [h0, getD_replicate_zero]; decide), h0, getD_replicate_zero,
    Int.zero_add]
  rfl

theorem classSum_le (val : FlowEntry → Nat) (k : Nat) (flows : List FlowEntry) :
    classSum val k flows ≤ (flows.map val).sum := by
  induction flows with
  | nil => simp [classSum]
  | cons fl rest ih =>
    simp only [classSum] at ih ⊢
    by_cases e : tidOf fl.t.destinationPort = k
    · simp only [List.filter_cons, e, decide_True, if_true, List.map_cons, List.sum_cons]
      omega
    · simp only [List.filter_cons, e, decide_False, List.map_cons, List.sum_cons]
      simp only [Bool.false_eq_true, if_false]
      omega

theorem classSum_nonneg (val : FlowEntry → Int) (k : Nat) (flows : List FlowEntry)
    (h : ∀ fl ∈ flows, 0 ≤ val fl) : 0 ≤ classSum val k flows := by
  unfold classSum
  apply List.sum_nonneg
  intro x hx
  obtain ⟨fl, hfl, rfl⟩ := List.mem_map.mp hx
  exact h fl (List.mem_filter.mp hfl).1

theorem nat_field_consistent (rnd : ℚ → ℚ) (W : Int) (u : ℚ) (flows : List FlowEntry)
    (hall : ∀ fl ∈ flows, FourClass fl) (proj : Stats → Nat) (projV : Stats → List Nat)
    (val : FlowEntry → Nat)
    (hproj : ∀ s fl, proj (accumulateIn rnd W s fl) = add64 (proj s) (val fl))
    (hprojV : ∀ s fl, projV (accumulateIn rnd W s fl) =
      bump add64 0 (projV s) (tidOf fl.t.destinationPort) (val fl))
    (h0 : proj (initStats u) = 0) (h0V : projV (initStats u) = List.replicate 8 0) :
    proj (flows.foldl (accumulateIn rnd W) (initStats u)) =
        sum4 (projV (flows.foldl (accumulateIn rnd W) (initStats u))) % 2 ^ 64 ∧
      ((flows.map val).sum < 2 ^ 64 →
        proj (flows.foldl (accumulateIn rnd W) (initStats u)) =
          sum4 (projV (flows.foldl (accumulateIn rnd W) (initStats u)))) := by
  have htid : ∀ fl ∈ flows, tidOf fl.t.destinationPort < 8 :=
    fun fl h => tidOf_of_accepted (accepted_of_fourClass (hall fl h))
  unfold sum4
  rw [final_glob64 rnd W u flows proj val hproj h0,
    final_vec64 rnd W u flows projV val hprojV h0V htid 0,
    final_vec64 rnd W u flows projV val hprojV h0V htid 1,
    final_vec64 rnd W u flows projV val hprojV h0V htid 5,
    final_vec64 rnd W u flows projV val hprojV h0V htid 6,
    sum_four_classes val flows hall]
  constructor
  · omega
  · intro hlt
    omega

theorem time_field_consistent (rnd : ℚ → ℚ) (W : Int) (u : ℚ) (flows : List FlowEntry)
    (hall : ∀ fl ∈ flows, FourClass fl) (proj : Stats → Int) (projV : Stats → List Int)
    (val : FlowEntry → Int)
    (hproj : ∀ s fl, proj (accumulateIn rnd W s fl) = timeAdd (proj s) (val fl))
    (hprojV : ∀ s fl, projV (accumulateIn rnd W s fl) =
      bump timeAdd 0 (projV s) (tidOf fl.t.destinationPort) (val fl))
    (h0 : proj (initStats u) = 0) (h0V : projV (initStats u) = List.replicate 8 0) :
    proj (flows.foldl (accumulateIn rnd W) (initStats u)) =
        wrapI64 (sum4T (projV (flows.foldl (accumulateIn rnd W) (initStats u)))) ∧
      ((∀ fl ∈ flows, 0 ≤ val fl) → (flows.map val).sum < 2 ^ 63 →
        proj (flows.foldl (accumulateIn rnd W) (initStats u)) =
          sum4T (projV (flows.foldl (accumulateIn rnd W) (initStats u)))) := by
  have htid : ∀ fl ∈ flows, tidOf fl.t.destinationPort < 8 :=
    fun fl h => tidOf_of_accepted (accepted_of_fourClass (hall fl h))
  unfold sum4T
  rw [final_globT rnd W u flows proj val hproj h0,
    final_vecT rnd W u flows projV val hprojV h0V htid 0,
    final_vecT rnd W u flows projV val hprojV h0V htid 1,
    final_vecT rnd W u flows projV val hprojV h0V htid 5,
    final_vecT rnd W u flows projV val hprojV h0V htid 6,
    sum_four_classes val flows hall]
  constructor
  · unfold wrapI64
    omega
  · intro hnn hlt
    have n0 := classSum_nonneg val 0 flows hnn
    have n1 := classSum_nonneg val 1 flows hnn
    have n5 := classSum_nonneg val 5 flows hnn
    have n6 := classSum_nonneg val 6 flows hnn
    unfold wrapI64
    omega

/-- C2, counterexample. Two UDP flows, one to port 1000 and one to port
1001, each with `txBytes = 2 ^ 63`: the global `txBytes` wraps to 0 while
the per-TID values are `2 ^ 63` each, so the global total is not the sum
`2 ^ 64` of the per-TID values. -/
theorem global_total_wraps :
    FourClass (mkFlow 1 17 1000 (2 ^ 63) 0 1 0 0 0 0) ∧
    FourClass (mkFlow 2 17 1001 (2 ^ 63) 0 1 0 0 0 0) ∧
    (finalStats exactArith 10000000 0
      [mkFlow 1 17 1000 (2 ^ 63) 0 1 0 0 0 0, mkFlow 2 17 1001 (2 ^ 63) 0 1 0 0 0 0]).map
        (fun s => (s.txBytes, s.txBytesPerTid.getD 0 0, s.txBytesPerTid.getD 1 0,
          s.txBytesPerTid.getD 5 0, s.txBytesPerTid.getD 6 0, sum4 s.txBytesPerTid)) =
      some (0, 2 ^ 63, 2 ^ 63, 0, 0, 2 ^ 64) := by
  refine ⟨?_, ?_, ?_⟩
  · simp [FourClass, FlowEntry.InRange, mkFlow]
  · simp [FourClass, FlowEntry.InRange, mkFlow]
  · decide!

/-- C2, amended. For every list of flow records with protocol 6 or 17 whose
destination ports are all among 1000, 1001, 1005, 1006, the loop ends and
each global total (txBytes, rxBytes, txPackets, rxPackets, lostPackets,
delaySum, jitterSum) equals the sum of the per-TID values over TIDs 0, 1, 5, 6
reduced to the width of the accumulator (modulo `2 ^ 64`, two's complement
for the times); when the totals of the flows fit the accumulators
(`NoOverflow`) it equals that sum exactly. -/
theorem global_is_sum_of_classes (rnd : ℚ → ℚ) (W : Int) (u : ℚ) (flows : List FlowEntry)
    (hall : ∀ fl ∈ flows, FourClass fl) :
    ∃ s, finalStats rnd W u flows = some s ∧
      (s.txBytes = sum4 s.txBytesPerTid % 2 ^ 64 ∧
        s.rxBytes = sum4 s.rxBytesPerTid % 2 ^ 64 ∧
        s.txPackets = sum4 s.txPacketsPerTid % 2 ^ 64 ∧
        s.rxPackets = sum4 s.rxPacketsPerTid % 2 ^ 64 ∧
        s.lostPackets = sum4 s.lostPacketsPerTid % 2 ^ 64 ∧
        s.delaySum = wrapI64 (sum4T s.delaySumPerTid) ∧
        s.jitterSum = wrapI64 (sum4T s.jitterSumPerTid)) ∧
      (NoOverflow flows →
        s.txBytes = sum4 s.txBytesPerTid ∧
        s.rxBytes = sum4 s.rxBytesPerTid ∧
        s.txPackets = sum4 s.txPacketsPerTid ∧
        s.rxPackets = sum4 s.rxPacketsPerTid ∧
        s.lostPackets = sum4 s.lostPacketsPerTid ∧
        s.delaySum = sum4T s.delaySumPerTid ∧
        s.jitterSum = sum4T s.jitterSumPerTid) := by
  have a1 := nat_field_consistent rnd W u flows hall Stats.txBytes Stats.txBytesPerTid
    (fun fl => fl.second.txBytes) (fun _ _ => rfl) (fun _ _ => rfl) rfl rfl
  have a2 := nat_field_consistent rnd W u flows hall Stats.rxBytes Stats.rxBytesPerTid
    (fun fl => fl.second.rxBytes) (fun _ _ => rfl) (fun _ _ => rfl) rfl rfl
  have a3 := nat_field_consistent rnd W u flows hall Stats.txPackets Stats.txPacketsPerTid
    (fun fl => fl.second.txPackets) (fun _ _ => rfl) (fun _ _ => rfl) rfl rfl
  have a4 := nat_field_consistent rnd W u flows hall Stats.rxPackets Stats.rxPacketsPerTid
    (fun fl => fl.second.rxPackets) (fun _ _ => rfl) (fun _ _ => rfl) rfl rfl
  have a5 := nat_field_consistent rnd W u flows hall Stats.lostPackets Stats.lostPacketsPerTid
    (fun fl => fl.second.lostPackets) (fun _ _ => rfl) (fun _ _ => rfl) rfl rfl
  have a6 := time_field_consistent rnd W u flows hall Stats.delaySum Stats.delaySumPerTid
    (fun fl => fl.second.delaySum) (fun _ _ => rfl) (fun _ _ => rfl) rfl rfl
  have a7 := time_field_consistent rnd W u flows hall Stats.jitterSum Stats.jitterSumPerTid
    (fun fl => fl.second.jitterSum) (fun _ _ => rfl) (fun _ _ => rfl) rfl rfl
  refine ⟨_, finalStats_accepted rnd W u flows (fun fl h => accepted_of_fourClass (hall fl h)),
    ⟨a1.1, a2.1, a3.1, a4.1, a5.1, a6.1, a7.1⟩, ?_⟩
  rintro ⟨n1, n2, n3, n4, n5, n6, n7, n8, n9⟩
  exact ⟨a1.2 n1, a2.2 n2, a3.2 n3, a4.2 n4, a5.2 n5, a6.2 n6 n7, a7.2 n8 n9⟩

theorem fourClass_sampleFlows : ∀ fl ∈ sampleFlows, FourClass fl := by
  intro fl hfl
  simp only [sampleFlows, List.mem_cons, List.mem_singleton, List.not_mem_nil, or_false] at hfl
  rcases hfl with h | h <;> subst h <;> simp [FourClass, FlowEntry.InRange, mkFlow]

theorem noOverflow_sampleFlows : NoOverflow sampleFlows := by
  simp [NoOverflow, sampleFlows, mkFlow]

/-- C2, witness: the sample flows of classes 6 and 5. -/
theorem global_is_sum_of_classes_witness :
    ∃ s, finalStats binary64 10000000 0 sampleFlows = some s ∧
      s.txBytes = sum4 s.txBytesPerTid ∧
      s.rxBytes = sum4 s.rxBytesPerTid ∧
      s.txPackets = sum4 s.txPacketsPerTid ∧
      s.rxPackets = sum4 s.rxPacketsPerTid ∧
      s.lostPackets = sum4 s.lostPacketsPerTid ∧
      s.delaySum = sum4T s.delaySumPerTid ∧
      s.jitterSum = sum4T s.jitterSumPerTid := by
  obtain ⟨s, hs, _, hex⟩ :=
    global_is_sum_of_classes binary64 10000000 0 sampleFlows fourClass_sampleFlows
  exact ⟨s, hs, hex noOverflow_sampleFlows⟩

/-! ## C4: one record and the buckets -/

theorem classBucket_accumulateIn (rnd : ℚ → ℚ) (W : Int) (s : Stats) (fl : FlowEntry)
    (hs : s.WF) (h : tidOf fl.t.destinationPort < 8) (k : Nat) :
    (accumulateIn rnd W s fl).classBucket k =
      if tidOf fl.t.destinationPort = k then (s.classBucket k).addFlow rnd W fl.second
      else s.classBucket k := by
  obtain ⟨h1, h2, h3, h4, h5, h6, h7, h8⟩ := hs
  simp only [Stats.classBucket, accumulateIn]
  rw [getD_bump add64 0 _ _ k _ (by omega), getD_bump add64 0 _ _ k _ (by omega),
    getD_bump add64 0 _ _ k _ (by omega), getD_bump add64 0 _ _ k _ (by omega),
    getD_bump add64 0 _ _ k _ (by omega), getD_bump (dblAdd rnd) 0 _ _ k _ (by omega),
    getD_bump timeAdd 0 _ _ k _ (by omega), getD_bump timeAdd 0 _ _ k _ (by omega)]
  by_cases e : tidOf fl.t.destinationPort = k
  · subst e
    simp only [if_true, Bucket.addFlow]
  · simp only [e, if_false]

/-- C4. For every state with the eight 8-element vectors and every flow
record with destination port `1000 + t`, `t ≤ 7`, the accumulation succeeds,
adds the record's counters to per-TID bucket `t` and to the global totals, and
leaves every per-TID bucket other than `t` unchanged (the vectors keep their
size); in particular for 1006, 1005, 1000, 1001 and `t` = 6, 5, 0, 1. -/
theorem exactly_one_bucket (rnd : ℚ → ℚ) (W : Int) (s : Stats) (fl : FlowEntry) (t : Nat)
    (hs : s.WF) (ht : t ≤ 7) (hport : fl.t.destinationPort = 1000 + t) :
    ∃ s1, accumulate rnd W s fl = s1 ∧ s1.WF ∧
      s1.classBucket t = (s.classBucket t).addFlow rnd W fl.second ∧
      (∀ k, k ≠ t → s1.classBucket k = s.classBucket k) ∧
      s1.globalBucket = s.globalBucket.addFlow rnd W fl.second := by
  have htid : tidOf fl.t.destinationPort = t := by
    unfold tidOf
    omega
  have hlt : tidOf fl.t.destinationPort < 8 := by omega
  refine ⟨_, accumulate_of_lt rnd W s fl hs hlt, wf_accumulateIn rnd W s fl hs, ?_, ?_, rfl⟩
  · rw [classBucket_accumulateIn rnd W s fl hs hlt t, if_pos htid]
  · intro k hk
    rw [classBucket_accumulateIn rnd W s fl hs hlt k, if_neg (by omega)]

/-- C4, witness: a flow to port 1006 on the initial accumulators goes to
bucket 6. -/
theorem exactly_one_bucket_witness :
    ∃ s1, accumulate binary64 10000000 (initStats 0)
        (mkFlow 1 17 1006 14700 14700 10 10 0 50000 9000) = s1 ∧ s1.WF ∧
      s1.classBucket 6 = ((initStats 0).classBucket 6).addFlow binary64 10000000
        (mkFlow 1 17 1006 14700 14700 10 10 0 50000 9000).second ∧
      (∀ k, k ≠ 6 → s1.classBucket k = (initStats 0).classBucket k) ∧
      s1.globalBucket = (initStats 0).globalBucket.addFlow binary64 10000000
        (mkFlow 1 17 1006 14700 14700 10 10 0 50000 9000).second :=
  exactly_one_bucket binary64 10000000 (initStats 0)
    (mkFlow 1 17 1006 14700 14700 10 10 0 50000 9000) 6 (wf_initStats 0) (by decide) rfl

/-! ## C5: jitter line of a class block -/

theorem tidMeanJitter_divides_by_zero (rnd : ℚ → ℚ) (s : Stats) (tid : Nat) (jit : Int)
    (h1 : s.rxPacketsPerTid[tid]? = some 1) (h2 : s.jitterSumPerTid[tid]? = some jit)
    (h3 : 1 < s.rxPackets) : tidMeanJitter rnd s tid = Except.error Fault.divisionByZero := by
  unfold tidMeanJitter
  rw [h1, h2]
  have e : sub64 1 1 = 0 := by decide
  simp only [Nat.lt_one_iff, if_pos h3, e, meanMs_zero]
  rfl

/-- C5, failing input. Two UDP flows, to ports 1000 and 1001, with one
received packet each: the global `rxPackets` is 2, `rxPacketsPerTid[0]` is 1,
and the class block of TID 0 passes the test `rxPackets > 1` on the global
counter and divides `jitterSumPerTid[0]` by `rxPacketsPerTid[0] - 1 = 0`; the
run stops at that division, after the two per-flow blocks and before any
class block. -/
theorem class_jitter_guard_uses_global_counter :
    (finalStats binary64 10000000 0
      [mkFlow 1 17 1000 1470 1470 1 1 0 5000 0, mkFlow 2 17 1001 1470 1470 1 1 0 5000 0]).map
        (fun s => (s.rxPackets, s.rxPacketsPerTid.getD 0 0,
          sub64 (s.rxPacketsPerTid.getD 0 0) 1, tidMeanJitter binary64 s 0)) =
      some (2, 1, 0, Except.error Fault.divisionByZero) ∧
    (printResults binary64 10000000 0
      [mkFlow 1 17 1000 1470 1470 1 1 0 5000 0, mkFlow 2 17 1001 1470 1470 1 1 0 5000 0]).status =
      Except.error Fault.divisionByZero ∧
    (printResults binary64 10000000 0
      [mkFlow 1 17 1000 1470 1470 1 1 0 5000 0,
        mkFlow 2 17 1001 1470 1470 1 1 0 5000 0]).flowBlocks.length = 2 ∧
    (printResults binary64 10000000 0
      [mkFlow 1 17 1000 1470 1470 1 1 0 5000 0, mkFlow 2 17 1001 1470 1470 1 1 0 5000 0]).tidBlocks =
      [] := by
  refine ⟨?_, ?_, ?_, ?_⟩ <;> decide!

/-! ## C6, C7: guards of the per-flow block -/

/-- C6. For every flow record (`rxPackets` a `uint32_t`): with `rxPackets`
0 or 1 the per-flow block is produced with mean jitter `---`, whatever
`jitterSum` is, so `jitterSum / (rxPackets - 1)` is not evaluated (for
`rxPackets = 1` its divisor would be zero); with `rxPackets ≥ 2` the block
shows the number computed from `jitterSum / (rxPackets - 1)`. -/
theorem flow_jitter_guard (rnd : ℚ → ℚ) (W : Int) (proto : String) (fl : FlowEntry)
    (hr : fl.second.rxPackets < 2 ^ 32) :
    (fl.second.rxPackets ≤ 1 →
      (∃ b, flowBlock rnd W proto fl = some b ∧ b.meanJitter = Shown.dashes) ∧
      ∀ j : Int, flowBlock rnd W proto
        { fl with second := { fl.second with jitterSum := j } } = flowBlock rnd W proto fl) ∧
    (2 ≤ fl.second.rxPackets →
      ∃ b, flowBlock rnd W proto fl = some b ∧
        b.meanJitter = Shown.value (rnd (rnd ((getMicroSeconds
          (Int.tdiv fl.second.jitterSum ((fl.second.rxPackets - 1 : Nat) : Int)) : Int) : ℚ)
            / 1000))) := by
  constructor
  · intro h
    constructor
    · unfold flowBlock
      by_cases h0 : 0 < fl.second.rxPackets
      · rw [if_pos h0, meanMs_isSome rnd _ _ (by omega), flowJitter_of_le rnd _ h]
        exact ⟨_, rfl, rfl⟩
      · rw [if_neg h0]
        exact ⟨_, rfl, rfl⟩
    · intro j
      unfold flowBlock
      by_cases h0 : 0 < fl.second.rxPackets
      · simp only [if_pos h0]
        rw [flowJitter_of_le rnd _ h, flowJitter_of_le rnd _ (by exact h)]
      · simp only [if_neg h0]
  · intro h
    unfold flowBlock
    rw [if_pos (by omega), meanMs_isSome rnd _ _ (by omega),
      flowJitter_of_gt rnd _ (by omega) hr]
    exact ⟨_, rfl, rfl⟩

/-- C6, witness: a flow with one received packet and one with ten. -/
theorem flow_jitter_guard_witness :
    ((∃ b, flowBlock binary64 10000000 "UDP" (mkFlow 1 17 1000 1470 1470 1 1 0 5000 0) = some b ∧
        b.meanJitter = Shown.dashes) ∧
      ∀ j : Int, flowBlock binary64 10000000 "UDP"
        { mkFlow 1 17 1000 1470 1470 1 1 0 5000 0 with
          second := { (mkFlow 1 17 1000 1470 1470 1 1 0 5000 0).second with jitterSum := j } } =
        flowBlock binary64 10000000 "UDP" (mkFlow 1 17 1000 1470 1470 1 1 0 5000 0)) ∧
    (∃ b, flowBlock binary64 10000000 "UDP" (mkFlow 1 17 1006 14700 14700 10 10 0 50000 9000) =
        some b ∧
      b.meanJitter = Shown.value (binary64 (binary64 ((getMicroSeconds
        (Int.tdiv 9000 ((10 - 1 : Nat) : Int)) : Int) : ℚ) / 1000))) :=
  ⟨(flow_jitter_guard binary64 10000000 "UDP" (mkFlow 1 17 1000 1470 1470 1 1 0 5000 0)
      (by decide)).1 (by decide),
    (flow_jitter_guard binary64 10000000 "UDP" (mkFlow 1 17 1006 14700 14700 10 10 0 50000 9000)
      (by decide)).2 (by decide)⟩

/-- C7. For every flow record with `rxPackets = 0` the per-flow block is
produced with throughput 0 and mean delay `---`, whatever `rxBytes` and
`delaySum` are; for `rxPackets > 0` (a `uint32_t`, window `W ≠ 0`) the
throughput is the number `rxBytes * 8.0 / W` and the mean delay the number
computed from `delaySum / rxPackets`. -/
theorem flow_delay_guard (rnd : ℚ → ℚ) (W : Int) (proto : String) (fl : FlowEntry)
    (_hW : W ≠ 0) (hr : fl.second.rxPackets < 2 ^ 32) :
    (fl.second.rxPackets = 0 →
      ∃ b, flowBlock rnd W proto fl = some b ∧ b.throughput = Shown.value 0 ∧
        b.meanDelay = Shown.dashes) ∧
    (0 < fl.second.rxPackets →
      ∃ b, flowBlock rnd W proto fl = some b ∧
        b.throughput = Shown.value (rnd (rnd (rnd (fl.second.rxBytes : ℚ) * 8) / rnd (W : ℚ))) ∧
        b.meanDelay = Shown.value (rnd (rnd ((getMicroSeconds
          (Int.tdiv fl.second.delaySum (fl.second.rxPackets : Int)) : Int) : ℚ) / 1000))) := by
  constructor
  · intro h
    unfold flowBlock
    rw [if_neg (by omega)]
    exact ⟨_, rfl, rfl, rfl⟩
  · intro h
    unfold flowBlock
    rw [if_pos h, meanMs_isSome rnd _ _ (by omega)]
    by_cases h1 : 1 < fl.second.rxPackets
    · rw [flowJitter_of_gt rnd _ h1 hr]
      exact ⟨_, rfl, rfl, rfl⟩
    · rw [flowJitter_of_le rnd _ (by omega)]
      exact ⟨_, rfl, rfl, rfl⟩

/-- C7, witness: a flow that received nothing although `rxBytes` and
`delaySum` are set, and a flow with ten received packets. -/
theorem flow_delay_guard_witness :
    (∃ b, flowBlock binary64 10000000 "UDP" (mkFlow 1 17 1000 1470 1470 1 0 1 5000 0) = some b ∧
      b.throughput = Shown.value 0 ∧ b.meanDelay = Shown.dashes) ∧
    (∃ b, flowBlock binary64 10000000 "UDP" (mkFlow 1 17 1006 14700 14700 10 10 0 50000 9000) =
        some b ∧
      b.throughput = Shown.value (binary64 (binary64 (binary64 ((14700 : Nat) : ℚ) * 8) /
        binary64 ((10000000 : Int) : ℚ))) ∧
      b.meanDelay = Shown.value (binary64 (binary64 ((getMicroSeconds
        (Int.tdiv 50000 ((10 : Nat) : Int)) : Int) : ℚ) / 1000))) :=
  ⟨(flow_delay_guard binary64 10000000 "UDP" (mkFlow 1 17 1000 1470 1470 1 0 1 5000 0)
      (by decide) (by decide)).1 rfl,
    (flow_delay_guard binary64 10000000 "UDP" (mkFlow 1 17 1006 14700 14700 10 10 0 50000 9000)
      (by decide) (by decide)).2 (by decide)⟩

/-! ## C8: buckets that received nothing -/

theorem foldl_dblAdd_zero (rnd : ℚ → ℚ) (hrnd : rnd 0 = 0) (val : FlowEntry → ℚ)
    (xs : List FlowEntry) (h : ∀ fl ∈ xs, val fl = 0) :
    xs.foldl (fun a x => dblAdd rnd a (val x)) 0 = 0 := by
  induction xs with
  | nil => rfl
  | cons x rest ih =>
    simp only [List.foldl_cons]
    rw [h x (List.mem_cons_self _ _)]
    have e : dblAdd rnd 0 0 = 0 := by simp [dblAdd, hrnd]
    rw [e]
    exact ih (fun fl hfl => h fl (List.mem_cons_of_mem _ hfl))

theorem sum_rxPackets_le (xs : List FlowEntry) (h : ∀ fl ∈ xs, fl.second.rxPackets < 2 ^ 32) :
    (xs.map (fun fl => fl.second.rxPackets)).sum ≤ xs.length * (2 ^ 32 - 1) := by
  induction xs with
  | nil => simp
  | cons x rest ih =>
    have hx := h x (List.mem_cons_self _ _)
    have hr := ih (fun fl hfl => h fl (List.mem_cons_of_mem _ hfl))
    simp only [List.map_cons, List.sum_cons, List.length_cons]
    have e : (rest.length + 1) * (2 ^ 32 - 1) = rest.length * (2 ^ 32 - 1) + (2 ^ 32 - 1) := by
      ring
    omega

theorem final_throughputPerTid (rnd : ℚ → ℚ) (W : Int) (u : ℚ) (flows : List FlowEntry)
    (hall : ∀ fl ∈ flows, tidOf fl.t.destinationPort < 8) (k : Nat) :
    (flows.foldl (accumulateIn rnd W) (initStats u)).throughputPerTid.getD k 0 =
      (flows.filter (fun fl => decide (tidOf fl.t.destinationPort = k))).foldl
        (fun a fl => dblAdd rnd a (thrTerm rnd W fl.second)) 0 := by
  rw [foldl_proj (accumulateIn rnd W) Stats.throughputPerTid
      (fun w fl => bump (dblAdd rnd) 0 w (tidOf fl.t.destinationPort) (thrTerm rnd W fl.second))
      (fun _ _ => rfl) flows,
    (foldl_bump (dblAdd rnd) 0 (fun fl => tidOf fl.t.destinationPort)
      (fun fl => thrTerm rnd W fl.second) flows _ k (by simpa [initStats] using hall)).2]
  have e : (initStats u).throughputPerTid.getD k 0 = 0 := getD_replicate_zero 0 8 k
  rw [e]

theorem getElem?_of_getD {α : Type} (v : List α) (k : Nat) (d : α) (h : k < v.length) :
    v[k]? = some (v.getD k d) := by
  rw [List.getElem?_eq_getElem h, List.getD_eq_getElem _ _ h]

/-- Class part of C8. For accepted flows (at most `2 ^ 32` of them, the map
being keyed by a 32-bit flow id) and a rounding with `rnd 0 = 0`: a class
bucket whose accumulated `rxPackets` is 0 shows mean delay `---` and has
accumulated throughput exactly 0, and a global `rxPackets` of 0 shows mean
delay `---` in the total block. -/
theorem class_bucket_without_rx (rnd : ℚ → ℚ) (W : Int) (u : ℚ) (flows : List FlowEntry)
    (hrnd : rnd 0 = 0) (hall : ∀ fl ∈ flows, Accepted fl) (hlen : flows.length ≤ 2 ^ 32) :
    ∃ s, finalStats rnd W u flows = some s ∧
      (∀ k, k < 8 → s.rxPacketsPerTid.getD k 0 = 0 →
        tidMeanDelay rnd s k = Except.ok Shown.dashes ∧ s.throughputPerTid.getD k 0 = 0) ∧
      (s.rxPackets = 0 → totalMeanDelay rnd s = Except.ok Shown.dashes) := by
  have htid : ∀ fl ∈ flows, tidOf fl.t.destinationPort < 8 :=
    fun fl h => tidOf_of_accepted (hall fl h)
  refine ⟨_, finalStats_accepted rnd W u flows hall, ?_, ?_⟩
  · intro k hk h0
    have hwf := wf_foldl_accumulateIn rnd W flows _ (wf_initStats u)
    constructor
    · unfold tidMeanDelay
      rw [getElem?_of_getD _ k 0 (by rw [hwf.2.2.2.1]; exact hk),
        getElem?_of_getD _ k 0 (by rw [hwf.2.2.2.2.2.2.1]; exact hk), h0]
      rfl
    · rw [final_throughputPerTid rnd W u flows htid k]
      apply foldl_dblAdd_zero rnd hrnd
      intro fl hfl
      have hmem := (List.mem_filter.mp hfl).1
      rw [final_vec64 rnd W u flows Stats.rxPacketsPerTid (fun fl => fl.second.rxPackets)
        (fun _ _ => rfl) rfl htid k] at h0
      have hle := classSum_le (fun fl => fl.second.rxPackets) k flows
      have hsum := sum_rxPackets_le flows (fun fl h => (hall fl h).1.2.2.2.2.2.2.2.1)
      have hb : flows.length * (2 ^ 32 - 1) < 2 ^ 64 := by
        have : flows.length * (2 ^ 32 - 1) ≤ 2 ^ 32 * (2 ^ 32 - 1) :=
          Nat.mul_le_mul_right _ hlen
        omega
      have hz : classSum (fun fl => fl.second.rxPackets) k flows = 0 := by omega
      unfold classSum at hz
      have hfl0 : fl.second.rxPackets = 0 :=
        List.sum_eq_zero_iff.mp hz _ (List.mem_map.mpr ⟨fl, hfl, rfl⟩)
      simp [thrTerm, hfl0]
  · intro h0
    unfold totalMeanDelay
    rw [h0]
    rfl

/-- C8, failing input. With no flow record, or with one UDP flow that
received nothing, the global `rxPackets` is 0 and the total block shows mean
delay `---`, but the global throughput is the starting content of the
uninitialised `double throughput` (here 1), not 0; from any starting content
`u` the empty loop leaves `throughput = u`. -/
theorem global_throughput_not_initialised :
    (finalStats binary64 10000000 1 []).map
        (fun s => (s.rxPackets, totalMeanDelay binary64 s, s.throughput)) =
      some (0, Except.ok Shown.dashes, 1) ∧
    (finalStats binary64 10000000 1 [mkFlow 1 17 1000 1470 0 1 0 1 0 0]).map
        (fun s => (s.rxPackets, totalMeanDelay binary64 s, s.throughput,
          s.throughputPerTid.getD 0 0)) =
      some (0, Except.ok Shown.dashes, 1, 0) ∧
    ∀ (rnd : ℚ → ℚ) (W : Int) (u : ℚ),
      (finalStats rnd W u []).map (fun s => (s.rxPackets, s.throughput)) = some (0, u) := by
  refine ⟨by decide!, by decide!, ?_⟩
  intro rnd W u
  rfl

/-! ## C9: throughput of a bucket in exact arithmetic -/

theorem thrTerm_exact (W : Int) (f : FlowStats) (hz : f.rxPackets = 0 → f.rxBytes = 0) :
    thrTerm exactArith W f = (f.rxBytes : ℚ) * 8 / (W : ℚ) := by
  unfold thrTerm flowThroughput exactArith
  by_cases h : 0 < f.rxPackets
  · rw [if_pos h]
  · rw [if_neg h, hz (by omega)]
    simp

theorem sum_thrTerm_exact (W : Int) (xs : List FlowEntry)
    (hz : ∀ fl ∈ xs, fl.second.rxPackets = 0 → fl.second.rxBytes = 0) :
    (xs.map (fun fl => thrTerm exactArith W fl.second)).sum =
      (((xs.map (fun fl => fl.second.rxBytes)).sum : Nat) : ℚ) * 8 / (W : ℚ) := by
  induction xs with
  | nil => simp
  | cons x rest ih =>
    simp only [List.map_cons, List.sum_cons]
    rw [ih (fun fl hfl => hz fl (List.mem_cons_of_mem _ hfl)),
      thrTerm_exact W x.second (hz x (List.mem_cons_self _ _))]
    push_cast
    ring

/-- C9, counterexample. One UDP flow to port 1000 with `rxPackets = 0` and
`rxBytes = 1470`, window 10 s, exact arithmetic: the flow adds 0 to
`throughputPerTid[0]` under the guard `rxPackets > 0` but 1470 to
`rxBytesPerTid[0]`, so the class throughput is 0 and not
`1470 * 8 / 10000000`. -/
theorem throughput_skips_flows_without_rx :
    (finalStats exactArith 10000000 0 [mkFlow 1 17 1000 1470 1470 1 0 1 0 0]).map
        (fun s => (s.throughputPerTid.getD 0 0, s.rxBytesPerTid.getD 0 0,
          ((s.rxBytesPerTid.getD 0 0 : Nat) : ℚ) * 8 / ((10000000 : Int) : ℚ))) =
      some (0, 1470, 147 / 125000) := by
  decide!

/-- C9, amended. In exact arithmetic, for every list of accepted flow
records in which a record with `rxPackets = 0` has `rxBytes = 0` and whose
received bytes total less than `2 ^ 64`, with one window `W ≠ 0` for all
buckets: the throughput of every class bucket equals
`rxBytesPerTid[tid] * 8 / W`, and the amount the loop adds to the global
`throughput` equals `rxBytes * 8 / W`. -/
theorem bucket_throughput_exact (W : Int) (u : ℚ) (flows : List FlowEntry) (_hW : W ≠ 0)
    (hall : ∀ fl ∈ flows, Accepted fl)
    (hz : ∀ fl ∈ flows, fl.second.rxPackets = 0 → fl.second.rxBytes = 0)
    (hsum : (flows.map (fun fl => fl.second.rxBytes)).sum < 2 ^ 64) :
    ∃ s, finalStats exactArith W u flows = some s ∧
      (∀ k, s.throughputPerTid.getD k 0 =
        ((s.rxBytesPerTid.getD k 0 : Nat) : ℚ) * 8 / (W : ℚ)) ∧
      s.throughput - u = ((s.rxBytes : Nat) : ℚ) * 8 / (W : ℚ) := by
  have htid : ∀ fl ∈ flows, tidOf fl.t.destinationPort < 8 :=
    fun fl h => tidOf_of_accepted (hall fl h)
  refine ⟨_, finalStats_accepted exactArith W u flows hall, ?_, ?_⟩
  · intro k
    rw [final_throughputPerTid exactArith W u flows htid k,
      foldl_dblAdd_exact (fun fl => thrTerm exactArith W fl.second), zero_add,
      sum_thrTerm_exact W _ (fun fl hfl => hz fl (List.mem_filter.mp hfl).1),
      final_vec64 exactArith W u flows Stats.rxBytesPerTid (fun fl => fl.second.rxBytes)
        (fun _ _ => rfl) rfl htid k]
    have hle := classSum_le (fun fl => fl.second.rxBytes) k flows
    rw [Nat.mod_eq_of_lt (by omega)]
    rfl
  · rw [foldl_proj (accumulateIn exactArith W) Stats.throughput
        (fun a fl => dblAdd exactArith a (thrTerm exactArith W fl.second)) (fun _ _ => rfl) flows,
      foldl_dblAdd_exact (fun fl => thrTerm exactArith W fl.second),
      sum_thrTerm_exact W flows hz,
      final_glob64 exactArith W u flows Stats.rxBytes (fun fl => fl.second.rxBytes)
        (fun _ _ => rfl) rfl,
      Nat.mod_eq_of_lt hsum]
    simp [initStats]

/-- C9, witness: the sample flows of classes 6 and 5, window 10 s. -/
theorem bucket_throughput_exact_witness :
    ∃ s, finalStats exactArith 10000000 0 sampleFlows = some s ∧
      (∀ k, s.throughputPerTid.getD k 0 =
        ((s.rxBytesPerTid.getD k 0 : Nat) : ℚ) * 8 / ((10000000 : Int) : ℚ)) ∧
      s.throughput - 0 = ((s.rxBytes : Nat) : ℚ) * 8 / ((10000000 : Int) : ℚ) :=
  bucket_throughput_exact 10000000 0 sampleFlows (by decide)
    (fun fl h => accepted_of_fourClass (fourClass_sampleFlows fl h))
    (by
      intro fl hfl
      simp only [sampleFlows, List.mem_cons, List.mem_singleton, List.not_mem_nil,
        or_false] at hfl
      rcases hfl with h | h <;> subst h <;> simp [mkFlow])
    (by simp [sampleFlows, mkFlow])

/-! ## C10: the concrete scenario -/

/-- C10. One UDP flow with txBytes = rxBytes = 1470000, rxPackets = 1000,
delaySum = 50000 us, jitterSum = 999 us, simulationTime = 10 s, calcStart = 0:
the window is 10000000 us, `delaySum / rxPackets` is 50 us and
`jitterSum / (rxPackets - 1)` is 1 us; in exact arithmetic the block shows
throughput 1470000 * 8 / 10000000 = 1.176, mean delay 50 / 1000 = 0.05 and
mean jitter 1 / 1000 = 0.001, and in double precision the doubles nearest to
these three numbers. -/
theorem concrete_scenario :
    activeWindow 10000000000 0 = 10000000 ∧
    (timeDiv 50000000 1000).map getMicroSeconds = some 50 ∧
    (timeDiv 999000 (sub32 1000 1)).map getMicroSeconds = some 1 ∧
    (flowBlock exactArith (activeWindow 10000000000 0) "UDP"
      (mkFlow 1 17 1000 1470000 1470000 1000 1000 0 50000000 999000)).map
        (fun b => (b.throughput, b.meanDelay, b.meanJitter)) =
      some (Shown.value (1470000 * 8 / 10000000), Shown.value (50 / 1000),
        Shown.value (1 / 1000)) ∧
    ((1470000 * 8 / 10000000 : ℚ) = 1176 / 1000 ∧ (50 / 1000 : ℚ) = 5 / 100) ∧
    (flowBlock binary64 (activeWindow 10000000000 0) "UDP"
      (mkFlow 1 17 1000 1470000 1470000 1000 1000 0 50000000 999000)).map
        (fun b => (b.throughput, b.meanDelay, b.meanJitter)) =
      some (Shown.value (binary64 (1176 / 1000)), Shown.value (binary64 (5 / 100)),
        Shown.value (binary64 (1 / 1000))) := by
  refine ⟨by decide!, by decide!, by decide!, by decide!, ⟨by norm_num, by norm_num⟩,
    by decide!⟩

/-! ## C11, C12: protocol switch -/

/-- C11. The protocol switch names protocol 6 "TCP" and protocol 17 "UDP" and
produces no other name; it takes the `exit (1)` branch exactly for the
protocol numbers other than 6 and 17 (for example 1, ICMP), and the run over
a flow record stops with exit status 1 exactly in that case. -/
theorem protocol_resolution :
    protoName 6 = some "TCP" ∧ protoName 17 = some "UDP" ∧ protoName 1 = none ∧
    (∀ p : Nat, protoName p = none ↔ (p ≠ 6 ∧ p ≠ 17)) ∧
    (∀ (p : Nat) (n : String), protoName p = some n ↔ (p = 6 ∧ n = "TCP") ∨ (p = 17 ∧ n = "UDP")) ∧
    (∀ (rnd : ℚ → ℚ) (W : Int) (fl : FlowEntry) (s : Stats) (out : List FlowBlock),
      (flowLoop rnd W [fl] s out).2 = Except.error Fault.exit1 ↔
        (fl.t.protocol ≠ 6 ∧ fl.t.protocol ≠ 17)) := by
  refine ⟨rfl, rfl, rfl, ?_, ?_, ?_⟩
  · intro p
    unfold protoName
    by_cases h6 : p = 6
    · simp [h6]
    · by_cases h17 : p = 17
      · simp [h17]
      · simp [h6, h17]
  · intro p n
    unfold protoName
    by_cases h6 : p = 6
    · subst h6
      simp [eq_comm]
    · by_cases h17 : p = 17
      · subst h17
        simp [eq_comm]
      · simp [h6, h17]
  · intro rnd W fl s out
    by_cases h6 : fl.t.protocol = 6
    · have hp : protoName fl.t.protocol = some "TCP" := by simp [protoName, h6]
      have hr : (fl.t.protocol ≠ 6 ∧ fl.t.protocol ≠ 17) ↔ False := by simp [h6]
      rw [hr]
      simp only [flowLoop, hp]
      cases flowBlock rnd W "TCP" fl with
      | none => simp
      | some b => simp [flowLoop]
    · by_cases h17 : fl.t.protocol = 17
      · have hp : protoName fl.t.protocol = some "UDP" := by simp [protoName, h17]
        have hr : (fl.t.protocol ≠ 6 ∧ fl.t.protocol ≠ 17) ↔ False := by simp [h17]
        rw [hr]
        simp only [flowLoop, hp]
        cases flowBlock rnd W "UDP" fl with
        | none => simp
        | some b => simp [flowLoop]
      · have hp : protoName fl.t.protocol = none := by simp [protoName, h6, h17]
        simp [flowLoop, hp, h6, h17]

theorem flowLoop_append_accepted (rnd : ℚ → ℚ) (W : Int) (pre l : List FlowEntry) :
    ∀ (s : Stats) (out : List FlowBlock), s.WF → (∀ x ∈ pre, Accepted x) →
      flowLoop rnd W (pre ++ l) s out =
        flowLoop rnd W l (pre.foldl (accumulateIn rnd W) s) (flowLoop rnd W pre s out).1 := by
  induction pre with
  | nil => intro s out _ _; rfl
  | cons fl rest ih =>
    intro s out hs hall
    have hfl : Accepted fl := hall fl (List.mem_cons_self _ _)
    obtain ⟨proto, hp⟩ := protoName_of_accepted hfl
    obtain ⟨b, hb⟩ := flowBlock_isSome rnd W proto fl hfl.1.2.2.2.2.2.2.2.1
    have hacc := accumulate_of_lt rnd W s fl hs (tidOf_of_accepted hfl)
    simp only [List.cons_append, flowLoop, hp, hb, hacc, List.foldl_cons]
    exact ih _ _ (wf_accumulateIn rnd W s fl hs)
      (fun x hx => hall x (List.mem_cons_of_mem _ hx))

theorem flowLoop_ids_accepted (rnd : ℚ → ℚ) (W : Int) (l : List FlowEntry) :
    ∀ (s : Stats) (out : List FlowBlock), s.WF → (∀ x ∈ l, Accepted x) →
      (flowLoop rnd W l s out).1.map FlowBlock.flowId =
        out.map FlowBlock.flowId ++ l.map FlowEntry.first := by
  induction l with
  | nil => intro s out _ _; simp [flowLoop]
  | cons fl rest ih =>
    intro s out hs hall
    have hfl : Accepted fl := hall fl (List.mem_cons_self _ _)
    obtain ⟨proto, hp⟩ := protoName_of_accepted hfl
    obtain ⟨b, hb⟩ := flowBlock_isSome rnd W proto fl hfl.1.2.2.2.2.2.2.2.1
    have hacc := accumulate_of_lt rnd W s fl hs (tidOf_of_accepted hfl)
    have hid : b.flowId = fl.first := by
      unfold flowBlock at hb
      split at hb
      · cases hd : meanMs rnd fl.second.delaySum fl.second.rxPackets with
        | none => simp [hd] at hb
        | some d =>
          cases hj : flowJitter rnd fl.second with
          | none => simp [hd, hj] at hb
          | some j =>
            simp [hd, hj] at hb
            rw [← hb]
      · simp at hb
        rw [← hb]
    simp only [flowLoop, hp, hb, hacc]
    rw [ih _ _ (wf_accumulateIn rnd W s fl hs)
      (fun x hx => hall x (List.mem_cons_of_mem _ hx))]
    simp [hid]

/-- C12. If the record `fl` is the first whose protocol is neither 6 nor 17
and the records before it are accepted ones, the run ends with exit status 1
and its whole output is the per-flow blocks of the preceding records, one
per record in their order: no block for `fl` or a later record, no per-class
block and no total block, whatever the counters of `fl` and of the later
records are. -/
theorem unsupported_protocol_is_immediate (rnd : ℚ → ℚ) (W : Int) (u : ℚ)
    (pre rest : List FlowEntry) (fl : FlowEntry) (hpre : ∀ x ∈ pre, Accepted x)
    (hfl : fl.t.protocol ≠ 6 ∧ fl.t.protocol ≠ 17) :
    printResults rnd W u (pre ++ fl :: rest) =
      { flowBlocks := (flowLoop rnd W pre (initStats u) []).1, tidBlocks := [],
        totalBlock := none, status := Except.error Fault.exit1 } ∧
    (flowLoop rnd W pre (initStats u) []).2 =
      Except.ok (pre.foldl (accumulateIn rnd W) (initStats u)) ∧
    (flowLoop rnd W pre (initStats u) []).1.map FlowBlock.flowId = pre.map FlowEntry.first ∧
    (flowLoop rnd W pre (initStats u) []).1.length = pre.length := by
  have hp : protoName fl.t.protocol = none := by simp [protoName, hfl.1, hfl.2]
  have hids := flowLoop_ids_accepted rnd W pre (initStats u) [] (wf_initStats u) hpre
  refine ⟨?_, flowLoop_accepted rnd W pre _ _ (wf_initStats u) hpre, by simpa using hids, ?_⟩
  · unfold printResults
    rw [flowLoop_append_accepted rnd W pre (fl :: rest) _ _ (wf_initStats u) hpre]
    simp only [flowLoop, hp]
  · have := congrArg List.length hids
    simpa using this

/-- C12, witness: two accepted flows, then an ICMP record, then one more
flow. -/
theorem unsupported_protocol_is_immediate_witness :
    printResults binary64 10000000 0
        (sampleFlows ++ mkFlow 3 1 1000 64 64 1 1 0 1000 0 ::
          [mkFlow 4 17 1001 1470 1470 1 1 0 5000 0]) =
      { flowBlocks := (flowLoop binary64 10000000 sampleFlows (initStats 0) []).1,
        tidBlocks := [], totalBlock := none, status := Except.error Fault.exit1 } ∧
    (flowLoop binary64 10000000 sampleFlows (initStats 0) []).2 =
      Except.ok (sampleFlows.foldl (accumulateIn binary64 10000000) (initStats 0)) ∧
    (flowLoop binary64 10000000 sampleFlows (initStats 0) []).1.map FlowBlock.flowId =
      sampleFlows.map FlowEntry.first ∧
    (flowLoop binary64 10000000 sampleFlows (initStats 0) []).1.length = sampleFlows.length :=
  unsupported_protocol_is_immediate binary64 10000000 0 sampleFlows
    [mkFlow 4 17 1001 1470 1470 1 1 0 5000 0] (mkFlow 3 1 1000 64 64 1 1 0 1000 0)
    (fun fl h => accepted_of_fourClass (fourClass_sampleFlows fl h)) (by decide)

/-! ## C13, C14: ports, classes and the priority marking -/

/-- C13. For every tid in 0..7 the class index computed from the port
`1000 + tid` is `tid`, and every (port, tid) pair of a `CreateOnOffHelper`
call of `main` has `port = 1000 + tid` with `tid` in 0..7, so the flow is
accounted in the bucket of the tid its packets are marked with. -/
theorem port_class_round_trip (tid : Nat) (h : tid ≤ 7) :
    tidOf (1000 + tid) = tid ∧
    (∀ c ∈ onOffCalls, c.1 = 1000 + c.2 ∧ c.2 ≤ 7 ∧ tidOf c.1 = c.2) ∧
    (∀ c ∈ onOffCalls, c = (1006, 6) ∨ c = (1005, 5) ∨ c = (1000, 0) ∨ c = (1001, 1)) := by
  refine ⟨?_, ?_, ?_⟩
  · unfold tidOf
    omega
  · decide
  · decide

/-- C13, witness: class 6 (Voice), port 1006. -/
theorem port_class_round_trip_witness :
    tidOf (1000 + 6) = 6 ∧
    (∀ c ∈ onOffCalls, c.1 = 1000 + c.2 ∧ c.2 ≤ 7 ∧ tidOf c.1 = c.2) ∧
    (∀ c ∈ onOffCalls, c = (1006, 6) ∨ c = (1005, 5) ∨ c = (1000, 0) ∨ c = (1001, 1)) :=
  port_class_round_trip 6 (by decide)

/-- C14. For every tid in 0..7 the type-of-service byte set by
`CreateOnOffHelper` is `tid << 5 = 32 * tid`; the shifted value is below 256,
so the conversion to `uint8_t` loses nothing; its low five bits are zero and
shifting it back by 5 gives `tid`; hence two tids in 0..7 with the same byte
are equal. -/
theorem priority_marking (tid : Nat) (h : tid ≤ 7) :
    tosOf tid = 32 * tid ∧ tid <<< 5 < 2 ^ 8 ∧ tosOf tid = tid <<< 5 ∧
    tosOf tid % 2 ^ 5 = 0 ∧ tosOf tid >>> 5 = tid ∧
    (∀ other : Nat, other ≤ 7 → tosOf other = tosOf tid → other = tid) := by
  have e : ∀ n : Nat, n ≤ 7 → tosOf n = 32 * n := by
    intro n hn
    unfold tosOf
    rw [Nat.shiftLeft_eq]
    omega
  refine ⟨e tid h, ?_, ?_, ?_, ?_, ?_⟩
  · rw [Nat.shiftLeft_eq]
    omega
  · rw [e tid h, Nat.shiftLeft_eq]
    omega
  · rw [e tid h]
    omega
  · rw [e tid h, Nat.shiftRight_eq_div_pow]
    omega
  · intro other ho heq
    rw [e tid h, e other ho] at heq
    omega

/-- C14, witness: class 5 (Video) is marked 160. -/
theorem priority_marking_witness :
    tosOf 5 = 32 * 5 ∧ 5 <<< 5 < 2 ^ 8 ∧ tosOf 5 = 5 <<< 5 ∧
    tosOf 5 % 2 ^ 5 = 0 ∧ tosOf 5 >>> 5 = 5 ∧
    (∀ other : Nat, other ≤ 7 → tosOf other = tosOf 5 → other = 5) :=
  priority_marking 5 (by decide)

/-! ## C15: the per-class report -/

theorem tidBlock_fields (rnd : ℚ → ℚ) (s : Stats) (tid : Nat) (b : TidBlock)
    (h : tidBlock rnd s tid = Except.ok b) :
    b.tid = tid ∧ b.txBytes = s.txBytesPerTid.getD tid 0 ∧
    b.rxBytes = s.rxBytesPerTid.getD tid 0 ∧ b.txPackets = s.txPacketsPerTid.getD tid 0 ∧
    b.rxPackets = s.rxPacketsPerTid.getD tid 0 ∧
    b.lostPackets = s.lostPacketsPerTid.getD tid 0 ∧
    b.throughput = s.throughputPerTid.getD tid 0 := by
  unfold tidBlock at h
  split at h
  · rename_i txB rxB txP rxP lost thr e1 e2 e3 e4 e5 e6
    cases hd : tidMeanDelay rnd s tid with
    | error e => simp [hd, bind, Except.bind] at h
    | ok d =>
      cases hj : tidMeanJitter rnd s tid with
      | error e => simp [hd, hj, bind, Except.bind] at h
      | ok j =>
        simp only [hd, hj, bind, Except.bind, pure, Except.pure, Except.ok.injEq] at h
        subst h
        simp [List.getD_eq_getElem?_getD, e1, e2, e3, e4, e5, e6]
  · simp at h

theorem tidLoop_spec (rnd : ℚ → ℚ) (s : Stats) (l : List Nat) :
    ∀ out : List TidBlock,
      (∃ p, p <+: l.filter reported ∧
        (tidLoop rnd s l out).1.map TidBlock.tid = out.map TidBlock.tid ++ p ∧
        ((tidLoop rnd s l out).2 = Except.ok () → p = l.filter reported)) ∧
      ((tidLoop rnd s l out).2 = Except.ok () ↔
        ∀ tid ∈ l, reported tid = true → ∃ b, tidBlock rnd s tid = Except.ok b) ∧
      (∀ b ∈ (tidLoop rnd s l out).1, b ∈ out ∨ tidBlock rnd s b.tid = Except.ok b) := by
  induction l with
  | nil =>
    intro out
    refine ⟨⟨[], by simp, by simp [tidLoop], fun _ => by simp⟩, by simp [tidLoop], ?_⟩
    intro b hb
    exact Or.inl (by simpa [tidLoop] using hb)
  | cons tid rest ih =>
    intro out
    by_cases hrep : reported tid = true
    · cases hb : tidBlock rnd s tid with
      | error e =>
        refine ⟨⟨[], by simp, by simp [tidLoop, hrep, hb], ?_⟩, ?_, ?_⟩
        · intro h
          simp [tidLoop, hrep, hb] at h
        · simp only [tidLoop, hrep, hb, if_true]
          constructor
          · intro h
            exact absurd h (by simp)
          · intro h
            obtain ⟨b, hb2⟩ := h tid (List.mem_cons_self _ _) hrep
            rw [hb] at hb2
            exact absurd hb2 (by simp)
        · intro b hmem
          simp only [tidLoop, hrep, hb, if_true] at hmem
          exact Or.inl hmem
      | ok b0 =>
        obtain ⟨⟨p, hp1, hp2, hp3⟩, hiff, hmem⟩ := ih (out ++ [b0])
        have htid := (tidBlock_fields rnd s tid b0 hb).1
        refine ⟨⟨tid :: p, ?_, ?_, ?_⟩, ?_, ?_⟩
        · simp only [List.filter_cons, hrep, if_true]
          exact (List.prefix_cons_inj tid).mpr hp1
        · simp only [tidLoop, hrep, hb, if_true]
          rw [hp2]
          simp [htid]
        · intro h
          simp only [tidLoop, hrep, hb, if_true] at h
          rw [hp3 h]
          simp [List.filter_cons, hrep]
        · simp only [tidLoop, hrep, hb, if_true]
          rw [hiff]
          constructor
          · intro h t ht hr
            rcases List.mem_cons.mp ht with e | e
            · subst e
              exact ⟨b0, hb⟩
            · exact h t e hr
          · intro h t ht hr
            exact h t (List.mem_cons_of_mem _ ht) hr
        · intro b hb1
          simp only [tidLoop, hrep, hb, if_true] at hb1
          rcases hmem b hb1 with e | e
          · rcases List.mem_append.mp e with e1 | e1
            · exact Or.inl e1
            · have : b = b0 := by simpa using e1
              subst this
              right
              rw [htid]
              exact hb
          · exact Or.inr e
    · obtain ⟨⟨p, hp1, hp2, hp3⟩, hiff, hmem⟩ := ih out
      have hrep2 : reported tid = false := by simpa using hrep
      refine ⟨⟨p, ?_, ?_, ?_⟩, ?_, ?_⟩
      · simpa [List.filter_cons, hrep2] using hp1
      · simpa [tidLoop, hrep2] using hp2
      · intro h
        simp only [tidLoop, hrep2] at h
        simpa [List.filter_cons, hrep2] using hp3 h
      · simp only [tidLoop, hrep2]
        rw [show (if false = true then
              match tidBlock rnd s tid with
              | Except.ok b => tidLoop rnd s rest (out ++ [b])
              | Except.error e => (out, Except.error e)
            else tidLoop rnd s rest out) = tidLoop rnd s rest out from rfl, hiff]
        constructor
        · intro h t ht hr
          rcases List.mem_cons.mp ht with e | e
          · subst e
            rw [hrep2] at hr
            exact absurd hr (by simp)
          · exact h t e hr
        · intro h t ht hr
          exact h t (List.mem_cons_of_mem _ ht) hr
      · intro b hb1
        simp only [tidLoop, hrep2] at hb1
        exact hmem b hb1

theorem tidMeanDelay_ok (rnd : ℚ → ℚ) (s : Stats) (tid : Nat) (hs : s.WF) (ht : tid < 8) :
    ∃ d, tidMeanDelay rnd s tid = Except.ok d := by
  unfold tidMeanDelay
  rw [getElem?_of_getD _ tid 0 (by rw [hs.2.2.2.1]; exact ht),
    getElem?_of_getD _ tid 0 (by rw [hs.2.2.2.2.2.2.1]; exact ht)]
  by_cases h0 : 0 < s.rxPacketsPerTid.getD tid 0
  · simp only [if_pos h0, meanMs_isSome rnd _ _ (Nat.pos_iff_ne_zero.mp h0)]
    exact ⟨_, rfl⟩
  · simp only [if_neg h0]
    exact ⟨_, rfl⟩

theorem tidMeanJitter_ok_iff (rnd : ℚ → ℚ) (s : Stats) (tid : Nat) (hs : s.WF) (ht : tid < 8)
    (hb : s.rxPacketsPerTid.getD tid 0 < 2 ^ 64) :
    (∃ j, tidMeanJitter rnd s tid = Except.ok j) ↔
      (s.rxPacketsPerTid.getD tid 0 = 1 → s.rxPackets ≤ 1) := by
  unfold tidMeanJitter
  rw [getElem?_of_getD _ tid 0 (by rw [hs.2.2.2.1]; exact ht),
    getElem?_of_getD _ tid 0 (by rw [hs.2.2.2.2.2.2.2]; exact ht)]
  by_cases h0 : 0 < s.rxPacketsPerTid.getD tid 0
  · by_cases h1 : 1 < s.rxPackets
    · by_cases he : s.rxPacketsPerTid.getD tid 0 = 1
      · have e : sub64 1 1 = 0 := by decide
        simp only [if_pos h0, if_pos h1, he, e, meanMs_zero]
        constructor
        · rintro ⟨j, hj⟩
          exact absurd hj (by simp)
        · intro h
          have := h trivial
          omega
      · have hs1 : sub64 (s.rxPacketsPerTid.getD tid 0) 1 ≠ 0 := by
          rw [sub64_one h0 hb]
          omega
        simp only [if_pos h0, if_pos h1, meanMs_isSome rnd _ _ hs1]
        constructor
        · intro _ h
          exact absurd h he
        · intro _
          exact ⟨_, rfl⟩
    · simp only [if_pos h0, if_neg h1]
      constructor
      · intro _ _
        omega
      · intro _
        exact ⟨_, rfl⟩
  · simp only [if_neg h0]
    constructor
    · intro _ h
      omega
    · intro _
      exact ⟨_, rfl⟩

theorem tidBlock_ok_iff (rnd : ℚ → ℚ) (s : Stats) (tid : Nat) (hs : s.WF) (ht : tid < 8)
    (hb : s.rxPacketsPerTid.getD tid 0 < 2 ^ 64) :
    (∃ b, tidBlock rnd s tid = Except.ok b) ↔
      (s.rxPacketsPerTid.getD tid 0 = 1 → s.rxPackets ≤ 1) := by
  obtain ⟨h1, h2, h3, h4, h5, h6, h7, h8⟩ := hs
  rw [← tidMeanJitter_ok_iff rnd s tid ⟨h1, h2, h3, h4, h5, h6, h7, h8⟩ ht hb]
  obtain ⟨d, hd⟩ := tidMeanDelay_ok rnd s tid ⟨h1, h2, h3, h4, h5, h6, h7, h8⟩ ht
  unfold tidBlock
  rw [getElem?_of_getD _ tid 0 (by rw [h1]; exact ht),
    getElem?_of_getD _ tid 0 (by rw [h2]; exact ht),
    getElem?_of_getD _ tid 0 (by rw [h3]; exact ht),
    getElem?_of_getD _ tid 0 (by rw [h4]; exact ht),
    getElem?_of_getD _ tid 0 (by rw [h5]; exact ht),
    getElem?_of_getD _ tid 0 (by rw [h6]; exact ht)]
  cases hj : tidMeanJitter rnd s tid with
  | error e => simp [hd, hj, bind, Except.bind]
  | ok j => simp [hd, hj, bind, Except.bind, pure, Except.pure]

theorem totalBlock_ok (rnd : ℚ → ℚ) (s : Stats) (hb : s.rxPackets < 2 ^ 64) :
    ∃ tb, totalBlock rnd s = Except.ok tb ∧ tb.txBytes = s.txBytes ∧ tb.rxBytes = s.rxBytes ∧
      tb.txPackets = s.txPackets ∧ tb.rxPackets = s.rxPackets ∧
      tb.lostPackets = s.lostPackets ∧ tb.throughput = s.throughput := by
  have hd : ∃ d, totalMeanDelay rnd s = Except.ok d := by
    unfold totalMeanDelay
    by_cases h0 : 0 < s.rxPackets
    · simp only [if_pos h0, meanMs_isSome rnd _ _ (Nat.pos_iff_ne_zero.mp h0)]
      exact ⟨_, rfl⟩
    · simp only [if_neg h0]
      exact ⟨_, rfl⟩
  have hj : ∃ j, totalMeanJitter rnd s = Except.ok j := by
    unfold totalMeanJitter
    by_cases h0 : 0 < s.rxPackets
    · by_cases h1 : 1 < s.rxPackets
      · have hs1 : sub64 s.rxPackets 1 ≠ 0 := by
          rw [sub64_one h0 hb]
          omega
        simp only [if_pos h0, if_pos h1, meanMs_isSome rnd _ _ hs1]
        exact ⟨_, rfl⟩
      · simp only [if_pos h0, if_neg h1]
        exact ⟨_, rfl⟩
    · simp only [if_neg h0]
      exact ⟨_, rfl⟩
  obtain ⟨d, hd⟩ := hd
  obtain ⟨j, hj⟩ := hj
  unfold totalBlock
  simp only [hd, hj, bind, Except.bind, pure, Except.pure]
  exact ⟨_, rfl, rfl, rfl, rfl, rfl, rfl, rfl⟩

theorem printResults_tidBlocks (rnd : ℚ → ℚ) (W : Int) (u : ℚ) (flows : List FlowEntry) :
    ((∃ e, (flowLoop rnd W flows (initStats u) []).2 = Except.error e) ∧
        (printResults rnd W u flows).tidBlocks = [] ∧
        (printResults rnd W u flows).status ≠ Except.ok ()) ∨
      ∃ s, (flowLoop rnd W flows (initStats u) []).2 = Except.ok s ∧
        (printResults rnd W u flows).tidBlocks = (tidLoop rnd s (List.range 8) []).1 ∧
        ((printResults rnd W u flows).status = Except.ok () ↔
          ((tidLoop rnd s (List.range 8) []).2 = Except.ok () ∧
            ∃ tb, totalBlock rnd s = Except.ok tb)) ∧
        (∀ tb, totalBlock rnd s = Except.ok tb →
          (printResults rnd W u flows).status = Except.ok () →
          (printResults rnd W u flows).totalBlock = some tb) := by
  unfold printResults
  rcases hfl : flowLoop rnd W flows (initStats u) [] with ⟨fb, st⟩
  cases st with
  | error e =>
    left
    exact ⟨⟨e, rfl⟩, by simp⟩
  | ok s =>
    right
    refine ⟨s, rfl, ?_⟩
    rcases htl : tidLoop rnd s (List.range 8) [] with ⟨tb, st2⟩
    cases st2 with
    | error e => simp [htl]
    | ok x =>
      cases htot : totalBlock rnd s with
      | error e => simp [htl, htot]
      | ok b => simp [htl, htot]

theorem reported_iff (tid : Nat) (h : tid < 8) :
    reported tid = true ↔ tid ∈ [0, 1, 5, 6] := by
  interval_cases tid <;> simp [reported]

theorem final_rxPackets_lt (rnd : ℚ → ℚ) (W : Int) (u : ℚ) (flows : List FlowEntry)
    (hall : ∀ fl ∈ flows, Accepted fl) :
    (flows.foldl (accumulateIn rnd W) (initStats u)).rxPackets < 2 ^ 64 ∧
    ∀ k, (flows.foldl (accumulateIn rnd W) (initStats u)).rxPacketsPerTid.getD k 0 < 2 ^ 64 := by
  have htid : ∀ fl ∈ flows, tidOf fl.t.destinationPort < 8 :=
    fun fl h => tidOf_of_accepted (hall fl h)
  constructor
  · rw [final_glob64 rnd W u flows Stats.rxPackets (fun fl => fl.second.rxPackets)
      (fun _ _ => rfl) rfl]
    omega
  · intro k
    rw [final_vec64 rnd W u flows Stats.rxPacketsPerTid (fun fl => fl.second.rxPackets)
      (fun _ _ => rfl) rfl htid k]
    omega

/-- C15, counterexample. One flow record with protocol 1 (ICMP): the run
stops in the protocol switch with exit status 1 and the per-class report has
no block at all, not four. -/
theorem no_class_block_after_exit :
    (printResults binary64 10000000 0 [mkFlow 1 1 1000 64 64 1 1 0 1000 0]).tidBlocks = [] ∧
    (printResults binary64 10000000 0 [mkFlow 1 1 1000 64 64 1 1 0 1000 0]).status =
      Except.error Fault.exit1 := by
  constructor <;> decide!

/-- C15, amended. For every input the TIDs of the per-class blocks emitted
are an initial part of 0, 1, 5, 6, so no block is ever emitted for TIDs 2, 3,
4 or 7; whenever the printing part runs to its end they are exactly 0, 1, 5,
6 in that order. For accepted flow records (ports 1000..1007, so records of
TIDs 2, 3, 4, 7 included) the flow loop ends; the printing part runs to its
end exactly when no reported class has `rxPacketsPerTid[tid] = 1` while the
global `rxPackets` exceeds 1; each class block shows the counters of its own
cell; and the total block shows the totals over all records, those of TIDs 2,
3, 4 and 7 included. -/
theorem reporting_scope (rnd : ℚ → ℚ) (W : Int) (u : ℚ) (flows : List FlowEntry) :
    ((printResults rnd W u flows).tidBlocks.map TidBlock.tid <+: [0, 1, 5, 6]) ∧
    ((printResults rnd W u flows).status = Except.ok () →
      (printResults rnd W u flows).tidBlocks.map TidBlock.tid = [0, 1, 5, 6]) ∧
    ((∀ fl ∈ flows, Accepted fl) →
      ∃ s, finalStats rnd W u flows = some s ∧
        ((printResults rnd W u flows).status = Except.ok () ↔
          ∀ k ∈ [0, 1, 5, 6], s.rxPacketsPerTid.getD k 0 = 1 → s.rxPackets ≤ 1) ∧
        (∀ b ∈ (printResults rnd W u flows).tidBlocks,
          b.txBytes = s.txBytesPerTid.getD b.tid 0 ∧
          b.rxBytes = s.rxBytesPerTid.getD b.tid 0 ∧
          b.txPackets = s.txPacketsPerTid.getD b.tid 0 ∧
          b.rxPackets = s.rxPacketsPerTid.getD b.tid 0 ∧
          b.lostPackets = s.lostPacketsPerTid.getD b.tid 0 ∧
          b.throughput = s.throughputPerTid.getD b.tid 0) ∧
        ((printResults rnd W u flows).status = Except.ok () →
          ∃ tb, (printResults rnd W u flows).totalBlock = some tb ∧
            tb.txBytes = (flows.map (fun fl => fl.second.txBytes)).sum % 2 ^ 64 ∧
            tb.rxBytes = (flows.map (fun fl => fl.second.rxBytes)).sum % 2 ^ 64 ∧
            tb.txPackets = (flows.map (fun fl => fl.second.txPackets)).sum % 2 ^ 64 ∧
            tb.rxPackets = (flows.map (fun fl => fl.second.rxPackets)).sum % 2 ^ 64 ∧
            tb.lostPackets = (flows.map (fun fl => fl.second.lostPackets)).sum % 2 ^ 64)) := by
  have hrange : (List.range 8).filter reported = [0, 1, 5, 6] := by decide
  refine ⟨?_, ?_, ?_⟩
  · rcases printResults_tidBlocks rnd W u flows with ⟨_, h, _⟩ | ⟨s, _, h, _⟩
    · rw [h]
      simp
    · obtain ⟨⟨p, hp1, hp2, _⟩, _, _⟩ := tidLoop_spec rnd s (List.range 8) []
      rw [h, hp2, ← hrange]
      simpa using hp1
  · intro hok
    rcases printResults_tidBlocks rnd W u flows with ⟨_, _, h⟩ | ⟨s, _, h, hiff, _⟩
    · exact absurd hok h
    · obtain ⟨⟨p, _, hp2, hp3⟩, _, _⟩ := tidLoop_spec rnd s (List.range 8) []
      rw [h, hp2, hp3 (hiff.mp hok).1, hrange]
      simp
  · intro hall
    have hs := flowLoop_accepted rnd W flows (initStats u) [] (wf_initStats u) hall
    have hwf := wf_foldl_accumulateIn rnd W flows _ (wf_initStats u)
    obtain ⟨hlt, hltk⟩ := final_rxPackets_lt rnd W u flows hall
    rcases printResults_tidBlocks rnd W u flows with ⟨⟨e, he⟩, _⟩ | ⟨s, hs2, htb, hiff, htot⟩
    · rw [hs] at he
      exact absurd he (by simp)
    rw [hs] at hs2
    have e : flows.foldl (accumulateIn rnd W) (initStats u) = s := by
      simpa using hs2
    subst e
    obtain ⟨_, hiff2, hmem⟩ := tidLoop_spec rnd
      (flows.foldl (accumulateIn rnd W) (initStats u)) (List.range 8) []
    obtain ⟨tb, htb1, t1, t2, t3, t4, t5, _⟩ := totalBlock_ok rnd _ hlt
    refine ⟨_, finalStats_accepted rnd W u flows hall, ?_, ?_, ?_⟩
    · rw [hiff, hiff2]
      constructor
      · intro h k hk h1
        have hk8 : k < 8 := by
          simp only [List.mem_cons, List.mem_singleton, List.not_mem_nil, or_false] at hk
          omega
        exact (tidBlock_ok_iff rnd _ k hwf hk8 (hltk k)).mp
          (h.1 k (List.mem_range.mpr hk8) ((reported_iff k hk8).mpr hk)) h1
      · intro h
        refine ⟨?_, tb, htb1⟩
        intro tid htid hrep
        have hk8 := List.mem_range.mp htid
        exact (tidBlock_ok_iff rnd _ tid hwf hk8 (hltk tid)).mpr
          (h tid ((reported_iff tid hk8).mp hrep))
    · intro b hb
      rw [htb] at hb
      rcases hmem b hb with h | h
      · exact absurd h (List.not_mem_nil _)
      · exact (tidBlock_fields rnd _ b.tid b h).2
    · intro hok
      refine ⟨tb, htot tb htb1 hok, ?_, ?_, ?_, ?_, ?_⟩
      · rw [t1]
        exact final_glob64 rnd W u flows Stats.txBytes (fun fl => fl.second.txBytes)
          (fun _ _ => rfl) rfl
      · rw [t2]
        exact final_glob64 rnd W u flows Stats.rxBytes (fun fl => fl.second.rxBytes)
          (fun _ _ => rfl) rfl
      · rw [t3]
        exact final_glob64 rnd W u flows Stats.txPackets (fun fl => fl.second.txPackets)
          (fun _ _ => rfl) rfl
      · rw [t4]
        exact final_glob64 rnd W u flows Stats.rxPackets (fun fl => fl.second.rxPackets)
          (fun _ _ => rfl) rfl
      · rw [t5]
        exact final_glob64 rnd W u flows Stats.lostPackets (fun fl => fl.second.lostPackets)
          (fun _ _ => rfl) rfl

theorem accepted_mixedFlows : ∀ fl ∈ mixedFlows, Accepted fl := by
  intro fl hfl
  simp only [mixedFlows, List.mem_cons, List.mem_singleton, List.not_mem_nil, or_false] at hfl
  rcases hfl with h | h | h <;> subst h <;> simp [Accepted, FlowEntry.InRange, mkFlow]

/-- C15, witness: flows of classes 6, 2 and 7. Four blocks are printed, for
TIDs 0, 1, 5, 6, and the total block counts the bytes of all three flows. -/
theorem reporting_scope_witness :
    (printResults binary64 10000000 0 mixedFlows).status = Except.ok () ∧
    (printResults binary64 10000000 0 mixedFlows).tidBlocks.map TidBlock.tid = [0, 1, 5, 6] ∧
    ∃ tb, (printResults binary64 10000000 0 mixedFlows).totalBlock = some tb ∧
      tb.txBytes = (mixedFlows.map (fun fl => fl.second.txBytes)).sum % 2 ^ 64 ∧
      tb.rxBytes = (mixedFlows.map (fun fl => fl.second.rxBytes)).sum % 2 ^ 64 ∧
      tb.txPackets = (mixedFlows.map (fun fl => fl.second.txPackets)).sum % 2 ^ 64 ∧
      tb.rxPackets = (mixedFlows.map (fun fl => fl.second.rxPackets)).sum % 2 ^ 64 ∧
      tb.lostPackets = (mixedFlows.map (fun fl => fl.second.lostPackets)).sum % 2 ^ 64 := by
  have hok : (printResults binary64 10000000 0 mixedFlows).status = Except.ok () := by decide!
  obtain ⟨_, h2, h3⟩ := reporting_scope binary64 10000000 0 mixedFlows
  obtain ⟨s, _, _, _, htot⟩ := h3 accepted_mixedFlows
  exact ⟨hok, h2 hok, htot hok⟩

/-! ## C16 to C19: `PopulateArpCache` -/

theorem insertAll_append (af : Bool) (l1 l2 : List (Nat × Nat)) :
    ∀ c, insertAll af (l1 ++ l2) c =
      match insertAll af l1 c with
      | Except.error e => Except.error e
      | Except.ok c1 => insertAll af l2 c1 := by
  induction l1 with
  | nil => intro c; rfl
  | cons b rest ih =>
    intro c
    simp only [List.cons_append, insertAll]
    cases arpInsert af c b.1 (resolved b.1 b.2) with
    | error e => rfl
    | ok c1 => exact ih c1

theorem buildAddresses_eq (af : Bool) (addr : Nat) (addresses : List Nat) :
    ∀ c, buildAddresses af addr addresses c = insertAll af (ifaceBindings addr addresses) c := by
  induction addresses with
  | nil => intro c; rfl
  | cons a rest ih =>
    intro c
    by_cases h : a = loopback
    · simp only [buildAddresses, h, if_true, ifaceBindings]
      rw [ih c]
      simp [ifaceBindings]
    · simp only [buildAddresses, h, if_false, ifaceBindings, List.filter_cons, ne_eq,
        not_false_eq_true, decide_True, if_true, List.map_cons, insertAll, resolved]
      cases arpInsert af c a (((newEntry a).markWaitReply).markAlive addr) with
      | error e => rfl
      | ok c1 => exact ih c1

theorem buildInterfaces_eq (af : Bool) (ifs : List (Option Ipv4Interface))
    (h : ∀ x ∈ ifs, ∃ i addr, x = some i ∧ i.device = some addr) :
    ∀ c, buildInterfaces af ifs c = insertAll af (bindingsIfs ifs) c := by
  induction ifs with
  | nil => intro c; rfl
  | cons x rest ih =>
    intro c
    obtain ⟨i, addr, hx, hd⟩ := h x (List.mem_cons_self _ _)
    subst hx
    simp only [buildInterfaces, hd, bindingsIfs]
    rw [insertAll_append, buildAddresses_eq]
    cases insertAll af (ifaceBindings addr i.addresses) c with
    | error e => rfl
    | ok c1 => exact ih (fun y hy => h y (List.mem_cons_of_mem _ hy)) c1

theorem buildNodes_eq (af : Bool) (nodes : List Node) (h : Equipped nodes) :
    ∀ c, buildNodes af nodes c = insertAll af (bindings nodes) c := by
  induction nodes with
  | nil => intro c; rfl
  | cons n rest ih =>
    intro c
    obtain ⟨ifs, hip, hifs⟩ := h n (List.mem_cons_self _ _)
    simp only [buildNodes, hip, bindings]
    rw [insertAll_append, buildInterfaces_eq af ifs hifs]
    cases insertAll af (bindingsIfs ifs) c with
    | error e => rfl
    | ok c1 => exact ih (fun y hy => h y (List.mem_cons_of_mem _ hy)) c1

theorem buildInterfaces_ok (af : Bool) (ifs : List (Option Ipv4Interface)) :
    ∀ c c1, buildInterfaces af ifs c = Except.ok c1 →
      ∀ x ∈ ifs, ∃ i addr, x = some i ∧ i.device = some addr := by
  induction ifs with
  | nil => intro c c1 _ x hx; exact absurd hx (List.not_mem_nil _)
  | cons y rest ih =>
    intro c c1 h x hx
    cases y with
    | none => simp [buildInterfaces] at h
    | some i =>
      cases hd : i.device with
      | none => simp [buildInterfaces, hd] at h
      | some addr =>
        simp only [buildInterfaces, hd] at h
        cases hb : buildAddresses af addr i.addresses c with
        | error e => simp [hb] at h
        | ok c2 =>
          simp only [hb] at h
          rcases List.mem_cons.mp hx with e | e
          · exact ⟨i, addr, e, hd⟩
          · exact ih c2 c1 h x e

theorem buildNodes_ok (af : Bool) (nodes : List Node) :
    ∀ c c1, buildNodes af nodes c = Except.ok c1 → Equipped nodes := by
  induction nodes with
  | nil => intro c c1 _ n hn; exact absurd hn (List.not_mem_nil _)
  | cons m rest ih =>
    intro c c1 h n hn
    cases hip : m.ip with
    | none => simp [buildNodes, hip] at h
    | some ifs =>
      simp only [buildNodes, hip] at h
      cases hb : buildInterfaces af ifs c with
      | error e => simp [hb] at h
      | ok c2 =>
        simp only [hb] at h
        rcases List.mem_cons.mp hn with e | e
        · subst e
          exact ⟨ifs, hip, buildInterfaces_ok af ifs c c2 hb⟩
        · exact ih c2 c1 h n e

theorem lookup_filter_ne (l : List (Nat × ArpEntry)) (k a : Nat) (h : a ≠ k) :
    (l.filter (fun e => e.1 != k)).lookup a = l.lookup a := by
  induction l with
  | nil => rfl
  | cons x rest ih =>
    by_cases hx : x.1 = k
    · have hax : (a == x.1) = false := by
        rw [hx]
        simpa using h
      simp only [List.filter_cons, hx, bne_self_eq_false, Bool.false_eq_true, if_false]
      rw [ih]
      obtain ⟨x1, x2⟩ := x
      simp only at hx
      subst hx
      simp [List.lookup, hax]
    · have hxk : (x.1 != k) = true := by simpa using hx
      simp only [List.filter_cons, hxk, if_true]
      obtain ⟨x1, x2⟩ := x
      simp only [List.lookup]
      cases a == x1 with
      | true => rfl
      | false => exact ih

theorem filter_of_lookup_none (l : List (Nat × ArpEntry)) (k : Nat) (h : l.lookup k = none) :
    l.filter (fun e => e.1 != k) = l := by
  induction l with
  | nil => rfl
  | cons x rest ih =>
    obtain ⟨x1, x2⟩ := x
    simp only [List.lookup] at h
    cases hk : k == x1 with
    | true => simp [hk] at h
    | false =>
      simp only [hk] at h
      have hne : (x1 != k) = true := by
        have : k ≠ x1 := by simpa using hk
        simpa using fun e => this e.symm
      simp only [List.filter_cons, hne, if_true]
      rw [ih h]

theorem arpInsert_ok (af : Bool) (c c1 : ArpCache) (k : Nat) (e : ArpEntry)
    (h : arpInsert af c k e = Except.ok c1) :
    c1.ptr = c.ptr ∧ c1.aliveTimeout = c.aliveTimeout ∧
      ∀ a, c1.entries.lookup a = if a = k then some e else c.entries.lookup a := by
  unfold arpInsert at h
  split at h
  · simp at h
  · simp only [Except.ok.injEq] at h
    subst h
    refine ⟨rfl, rfl, ?_⟩
    intro a
    by_cases hak : a = k
    · subst hak
      simp [List.lookup]
    · have hb : (a == k) = false := by simpa using hak
      simp only [List.lookup, hb, hak, if_false]
      exact lookup_filter_ne c.entries k a hak

theorem arpInsert_fresh (af : Bool) (c : ArpCache) (k : Nat) (e : ArpEntry)
    (h : c.entries.lookup k = none) :
    arpInsert af c k e = Except.ok { c with entries := (k, e) :: c.entries } := by
  unfold arpInsert
  rw [h, filter_of_lookup_none c.entries k h]
  simp

theorem arpInsert_overwrite (c : ArpCache) (k : Nat) (e : ArpEntry) :
    ∃ c1, arpInsert false c k e = Except.ok c1 := by
  unfold arpInsert
  simp

theorem insertAll_overwrite (bs : List (Nat × Nat)) :
    ∀ c, ∃ c1, insertAll false bs c = Except.ok c1 := by
  induction bs with
  | nil => intro c; exact ⟨c, rfl⟩
  | cons b rest ih =>
    intro c
    obtain ⟨c2, h2⟩ := arpInsert_overwrite c b.1 (resolved b.1 b.2)
    simp only [insertAll, h2]
    exact ih c2

theorem insertAll_lookup (af : Bool) (bs : List (Nat × Nat)) :
    ∀ c c1, insertAll af bs c = Except.ok c1 →
      c1.ptr = c.ptr ∧ c1.aliveTimeout = c.aliveTimeout ∧
      ∀ a, c1.entries.lookup a =
        match lastMac bs a with
        | some m => some (resolved a m)
        | none => c.entries.lookup a := by
  induction bs with
  | nil =>
    intro c c1 h
    simp only [insertAll, Except.ok.injEq] at h
    subst h
    exact ⟨rfl, rfl, fun a => rfl⟩
  | cons b rest ih =>
    intro c c1 h
    simp only [insertAll] at h
    cases h2 : arpInsert af c b.1 (resolved b.1 b.2) with
    | error e => simp [h2] at h
    | ok c2 =>
      simp only [h2] at h
      obtain ⟨p1, t1, l1⟩ := arpInsert_ok af c c2 b.1 _ h2
      obtain ⟨p2, t2, l2⟩ := ih c2 c1 h
      refine ⟨p2.trans p1, t2.trans t1, ?_⟩
      intro a
      rw [l2 a]
      simp only [lastMac]
      cases lastMac rest a with
      | some m => rfl
      | none =>
        simp only
        rw [l1 a]
        by_cases hak : a = b.1
        · subst hak
          simp
        · have : ¬ b.1 = a := fun e => hak e.symm
          simp [hak, this]

theorem insertAll_fresh (af : Bool) (bs : List (Nat × Nat)) :
    ∀ c, (bs.map Prod.fst).Nodup → (∀ b ∈ bs, c.entries.lookup b.1 = none) →
      insertAll af bs c =
        Except.ok { c with
          entries := (bs.reverse.map (fun b => (b.1, resolved b.1 b.2)) ++ c.entries) } := by
  induction bs with
  | nil => intro c _ _; rfl
  | cons b rest ih =>
    intro c hnd hnone
    simp only [List.map_cons, List.nodup_cons] at hnd
    simp only [insertAll, arpInsert_fresh af c b.1 _ (hnone b (List.mem_cons_self _ _))]
    rw [ih _ hnd.2 ?_]
    · simp
    · intro b2 hb2
      have hne : b2.1 ≠ b.1 := by
        intro e
        exact hnd.1 (e ▸ List.mem_map_of_mem Prod.fst hb2)
      have hb : (b2.1 == b.1) = false := by simpa using hne
      simp only [List.lookup, hb]
      exact hnone b2 (List.mem_cons_of_mem _ hb2)

theorem lastMac_mem (bs : List (Nat × Nat)) (a m : Nat) (h : lastMac bs a = some m) :
    (a, m) ∈ bs := by
  induction bs with
  | nil => simp [lastMac] at h
  | cons b rest ih =>
    simp only [lastMac] at h
    cases hr : lastMac rest a with
    | some m2 =>
      simp only [hr, Option.some.injEq] at h
      subst h
      exact List.mem_cons_of_mem _ (ih hr)
    | none =>
      simp only [hr] at h
      by_cases hb : b.1 = a
      · simp only [hb, if_true, Option.some.injEq] at h
        obtain ⟨b1, b2⟩ := b
        simp only at hb h
        subst hb h
        exact List.mem_cons_self _ _
      · simp [hb] at h

theorem lastMac_isSome (bs : List (Nat × Nat)) (a m : Nat) (h : (a, m) ∈ bs) :
    ∃ m2, lastMac bs a = some m2 := by
  induction bs with
  | nil => exact absurd h (List.not_mem_nil _)
  | cons b rest ih =>
    simp only [lastMac]
    cases hr : lastMac rest a with
    | some m2 => exact ⟨m2, rfl⟩
    | none =>
      rcases List.mem_cons.mp h with e | e
      · subst e
        exact ⟨m, by simp⟩
      · obtain ⟨m2, h2⟩ := ih e
        rw [hr] at h2
        exact absurd h2 (by simp)

theorem mem_ifaceBindings (addr : Nat) (addresses : List Nat) (a m : Nat) :
    (a, m) ∈ ifaceBindings addr addresses ↔ a ∈ addresses ∧ a ≠ loopback ∧ m = addr := by
  unfold ifaceBindings
  simp only [List.mem_map, List.mem_filter, decide_eq_true_eq, Prod.mk.injEq]
  constructor
  · rintro ⟨x, ⟨h1, h2⟩, h3, h4⟩
    subst h3
    exact ⟨h1, h2, h4.symm⟩
  · rintro ⟨h1, h2, h3⟩
    exact ⟨a, ⟨h1, h2⟩, rfl, h3.symm⟩

theorem mem_bindingsIfs (ifs : List (Option Ipv4Interface)) (a m : Nat) :
    (a, m) ∈ bindingsIfs ifs ↔
      ∃ i, some i ∈ ifs ∧ i.device = some m ∧ a ∈ i.addresses ∧ a ≠ loopback := by
  induction ifs with
  | nil => simp [bindingsIfs]
  | cons x rest ih =>
    cases x with
    | none =>
      simp only [bindingsIfs, ih, List.mem_cons]
      constructor
      · rintro ⟨i, h1, h2⟩
        exact ⟨i, Or.inr h1, h2⟩
      · rintro ⟨i, h1 | h1, h2⟩
        · exact absurd h1 (by simp)
        · exact ⟨i, h1, h2⟩
    | some j =>
      simp only [bindingsIfs, List.mem_append, ih, List.mem_cons]
      constructor
      · rintro (h | ⟨i, h1, h2⟩)
        · cases hd : j.device with
          | none => simp [hd] at h
          | some addr =>
            simp only [hd] at h
            obtain ⟨h1, h2, h3⟩ := (mem_ifaceBindings addr j.addresses a m).mp h
            subst h3
            exact ⟨j, Or.inl rfl, hd, h1, h2⟩
        · exact ⟨i, Or.inr h1, h2⟩
      · rintro ⟨i, h1 | h1, h2, h3, h4⟩
        · have e : i = j := by simpa using h1
          subst e
          left
          simp only [h2]
          exact (mem_ifaceBindings m i.addresses a m).mpr ⟨h3, h4, rfl⟩
        · exact Or.inr ⟨i, h1, h2, h3, h4⟩

theorem mem_bindings (nodes : List Node) (a m : Nat) :
    (a, m) ∈ bindings nodes ↔
      ∃ n ∈ nodes, ∃ ifs, n.ip = some ifs ∧
        ∃ i, some i ∈ ifs ∧ i.device = some m ∧ a ∈ i.addresses ∧ a ≠ loopback := by
  induction nodes with
  | nil => simp [bindings]
  | cons n rest ih =>
    simp only [bindings, List.mem_append, ih, List.mem_cons]
    constructor
    · rintro (h | ⟨n2, h1, h2⟩)
      · cases hip : n.ip with
        | none => simp [hip] at h
        | some ifs =>
          simp only [hip] at h
          exact ⟨n, Or.inl rfl, ifs, hip, (mem_bindingsIfs ifs a m).mp h⟩
      · exact ⟨n2, Or.inr h1, h2⟩
    · rintro ⟨n2, h1 | h1, ifs, hip, h2⟩
      · subst h1
        left
        simp only [hip]
        exact (mem_bindingsIfs ifs a m).mpr h2
      · exact Or.inr ⟨n2, h1, ifs, hip, h2⟩

theorem attachInterfaces_complete (arp : Nat) (ifs : List (Option Ipv4Interface))
    (h : ∀ x ∈ ifs, ∃ i addr, x = some i ∧ i.device = some addr) :
    attachInterfaces arp ifs = (ifs.map (fun x => x.map (setCache arp)), Except.ok ()) := by
  induction ifs with
  | nil => rfl
  | cons x rest ih =>
    obtain ⟨i, addr, hx, _⟩ := h x (List.mem_cons_self _ _)
    subst hx
    simp only [attachInterfaces, ih (fun y hy => h y (List.mem_cons_of_mem _ hy))]
    rfl

theorem attachNodes_complete (arp : Nat) (nodes : List Node) (h : Equipped nodes) :
    attachNodes arp nodes = (nodes.map (attached arp), Except.ok ()) := by
  induction nodes with
  | nil => rfl
  | cons n rest ih =>
    obtain ⟨ifs, hip, hifs⟩ := h n (List.mem_cons_self _ _)
    simp only [attachNodes, hip, attachInterfaces_complete arp ifs hifs,
      ih (fun y hy => h y (List.mem_cons_of_mem _ hy)), List.map_cons, attached, Option.map_some']

theorem populate_of_build_ok (af : Bool) (fresh : Nat) (nodes : List Node) (arp : ArpCache)
    (h : buildNodes af nodes (newArpCache fresh) = Except.ok arp) :
    populateArpCache af fresh nodes =
      { nodes := nodes.map (attached arp.ptr), outcome := Except.ok arp } := by
  have hc := buildNodes_ok af nodes _ _ h
  unfold populateArpCache
  simp only [h, attachNodes_complete arp.ptr nodes hc]

theorem populate_of_build_error (af : Bool) (fresh : Nat) (nodes : List Node) (e : Abort)
    (h : buildNodes af nodes (newArpCache fresh) = Except.error e) :
    populateArpCache af fresh nodes = { nodes := nodes, outcome := Except.error e } := by
  unfold populateArpCache
  simp only [h]

theorem populate_ok (af : Bool) (fresh : Nat) (nodes : List Node) (arp : ArpCache)
    (h : (populateArpCache af fresh nodes).outcome = Except.ok arp) :
    buildNodes af nodes (newArpCache fresh) = Except.ok arp ∧ Equipped nodes ∧
      arp.ptr = fresh ∧ (populateArpCache af fresh nodes).nodes = nodes.map (attached fresh) := by
  cases hb : buildNodes af nodes (newArpCache fresh) with
  | error e =>
    rw [populate_of_build_error af fresh nodes e hb] at h
    simp at h
  | ok arp0 =>
    have hc := buildNodes_ok af nodes _ _ hb
    rw [populate_of_build_ok af fresh nodes arp0 hb] at h ⊢
    simp only [Except.ok.injEq] at h
    subst h
    have hp : arp0.ptr = fresh := by
      rw [buildNodes_eq af nodes hc] at hb
      exact (insertAll_lookup af _ _ _ hb).1
    exact ⟨rfl, hc, hp, by rw [hp]⟩

theorem build_complete (af : Bool) (fresh : Nat) (nodes : List Node) (hc : Equipped nodes)
    (hmode : af = false ∨ ((bindings nodes).map Prod.fst).Nodup) :
    ∃ arp, buildNodes af nodes (newArpCache fresh) = Except.ok arp := by
  rw [buildNodes_eq af nodes hc]
  rcases hmode with h | h
  · subst h
    exact insertAll_overwrite _ _
  · exact ⟨_, insertAll_fresh af _ _ h (fun b _ => rfl)⟩

theorem equipped_sampleNodes : Equipped sampleNodes := by
  intro n hn
  simp only [sampleNodes, List.mem_cons, List.mem_singleton, List.not_mem_nil, or_false] at hn
  rcases hn with h | h <;> subst h <;> simp [loopbackIface]

theorem bindings_length (nodes : List Node) (h : ∀ n ∈ nodes, (bindings [n]).length = 1) :
    (bindings nodes).length = nodes.length := by
  induction nodes with
  | nil => rfl
  | cons n rest ih =>
    have h1 := h n (List.mem_cons_self _ _)
    simp only [bindings, List.append_nil] at h1
    simp only [bindings, List.length_append, List.length_cons, h1,
      ih (fun m hm => h m (List.mem_cons_of_mem _ hm))]
    omega

theorem mem_keys_bindings (nodes : List Node) (hc : Equipped nodes) (a : Nat) :
    a ∈ (bindings nodes).map Prod.fst ↔ (a ≠ loopback ∧ Bound nodes a) := by
  simp only [List.mem_map, Prod.exists, exists_and_right, exists_eq_right]
  constructor
  · rintro ⟨m, hm⟩
    obtain ⟨n, hn, ifs, hip, i, hi, _, ha, hne⟩ := (mem_bindings nodes a m).mp hm
    exact ⟨hne, n, hn, ifs, hip, i, hi, ha⟩
  · rintro ⟨hne, n, hn, ifs, hip, i, hi, ha⟩
    obtain ⟨ifs2, hip2, hdev⟩ := hc n hn
    rw [hip] at hip2
    simp only [Option.some.injEq] at hip2
    subst hip2
    obtain ⟨j, addr, hj, hd⟩ := hdev (some i) hi
    simp only [Option.some.injEq] at hj
    subst hj
    exact ⟨addr, (mem_bindings nodes a addr).mpr ⟨n, hn, ifs, hip, i, hi, hd, ha, hne⟩⟩

/-- C16, counterexample. One node with a network-layer stack whose only
interface has no device: `NS_ASSERT (device != 0)` stops the build pass, so
no cache is built although every node has a stack. And two nodes with a stack
that each expose exactly one non-loopback address, the same one: the cache
has one entry or the run stops, it never has two entries. -/
theorem bootstrap_needs_devices_and_distinct_addresses :
    (∀ n ∈ [({ ip := some [some { device := none, addresses := [167772161], arpCache := 0 }] } :
        Node)], n.ip ≠ none) ∧
    (∀ af : Bool,
      (populateArpCache af 99
        [{ ip := some [some { device := none, addresses := [167772161], arpCache := 0 }] }]).outcome
        = Except.error Abort.noDevice) ∧
    (∀ n ∈ twinNodes, n.ip ≠ none ∧ (bindings [n]).length = 1) ∧
    (populateArpCache true 99 twinNodes).outcome = Except.error Abort.duplicateAddress ∧
    (∃ arp, (populateArpCache false 99 twinNodes).outcome = Except.ok arp ∧
      arp.entries.length = 1) := by
  refine ⟨by decide, ?_, by decide, by decide, ⟨_, rfl, by decide⟩⟩
  intro af
  cases af <;> rfl

/-- C16, amended. For every topology in which every node has a
network-layer stack, every interface has a device and the non-loopback
addresses bound to the interfaces are pairwise distinct, PopulateArpCache
completes and the addresses with an entry in the cache are exactly the
non-loopback addresses bound to some interface of some node; the loopback
address has no entry, there is one entry per bound non-loopback address, all
alive, so N nodes with exactly one such address each give exactly N entries. -/
theorem bootstrap_completeness (af : Bool) (fresh : Nat) (nodes : List Node)
    (hc : Equipped nodes) (hd : ((bindings nodes).map Prod.fst).Nodup) :
    ∃ arp, (populateArpCache af fresh nodes).outcome = Except.ok arp ∧
      (∀ a, a ∈ arp.entries.map Prod.fst ↔ (a ≠ loopback ∧ Bound nodes a)) ∧
      loopback ∉ arp.entries.map Prod.fst ∧
      arp.entries.length = (bindings nodes).length ∧
      ((∀ n ∈ nodes, (bindings [n]).length = 1) → arp.entries.length = nodes.length) ∧
      (∀ e ∈ arp.entries, e.2.state = EntryState.alive) := by
  have hb : buildNodes af nodes (newArpCache fresh) = Except.ok
      { newArpCache fresh with
        entries := ((bindings nodes).reverse.map (fun b => (b.1, resolved b.1 b.2)) ++
          (newArpCache fresh).entries) } := by
    rw [buildNodes_eq af nodes hc]
    exact insertAll_fresh af _ _ hd (fun b _ => rfl)
  have hkeys : ∀ a, a ∈ (((bindings nodes).reverse.map (fun b => (b.1, resolved b.1 b.2)) ++
      (newArpCache fresh).entries).map Prod.fst) ↔ a ∈ (bindings nodes).map Prod.fst := by
    intro a
    simp [newArpCache]
  refine ⟨_, by rw [populate_of_build_ok af fresh nodes _ hb], ?_, ?_, ?_, ?_, ?_⟩
  · intro a
    rw [hkeys a]
    exact mem_keys_bindings nodes hc a
  · intro h
    exact ((mem_keys_bindings nodes hc loopback).mp ((hkeys loopback).mp h)).1 rfl
  · simp [newArpCache]
  · intro h1
    simp only [newArpCache, List.append_nil, List.length_map, List.length_reverse]
    exact bindings_length nodes h1
  · intro e he
    simp only [newArpCache, List.append_nil, List.mem_map, List.mem_reverse] at he
    obtain ⟨b, _, rfl⟩ := he
    rfl

/-- C16, witness: two nodes, each with a loopback interface and one
interface with one address. -/
theorem bootstrap_completeness_witness :
    ∃ arp, (populateArpCache true 99 sampleNodes).outcome = Except.ok arp ∧
      (∀ a, a ∈ arp.entries.map Prod.fst ↔ (a ≠ loopback ∧ Bound sampleNodes a)) ∧
      loopback ∉ arp.entries.map Prod.fst ∧
      arp.entries.length = (bindings sampleNodes).length ∧
      ((∀ n ∈ sampleNodes, (bindings [n]).length = 1) → arp.entries.length = sampleNodes.length) ∧
      (∀ e ∈ arp.entries, e.2.state = EntryState.alive) :=
  bootstrap_completeness true 99 sampleNodes equipped_sampleNodes (by decide)

/-- C17. PopulateArpCache completes on a topology whose nodes all have a
stack and whose interfaces all have a device (with pairwise distinct
addresses where the library asserts a new address); and after it has
completed, for every interface `i` of every node and every non-loopback
address `a` bound to `i`, the entry for `a` is alive and holds the address of
the device of `i`, assuming an address is not shared by interfaces with
different devices (as when addresses are distinct across interfaces). -/
theorem entry_content (af : Bool) (fresh : Nat) (nodes : List Node) :
    (Equipped nodes → (af = false ∨ ((bindings nodes).map Prod.fst).Nodup) →
      ∃ arp, (populateArpCache af fresh nodes).outcome = Except.ok arp) ∧
    (∀ arp, (populateArpCache af fresh nodes).outcome = Except.ok arp → OneOwner nodes →
      ∀ n ∈ nodes, ∀ ifs, n.ip = some ifs → ∀ i, some i ∈ ifs →
        ∀ a ∈ i.addresses, a ≠ loopback →
          ∃ addr, i.device = some addr ∧
            arp.entries.lookup a =
              some { ipv4Address := a, state := EntryState.alive, macAddress := some addr,
                     pending := 1 }) := by
  constructor
  · intro hc hmode
    obtain ⟨arp, h⟩ := build_complete af fresh nodes hc hmode
    exact ⟨arp, by rw [populate_of_build_ok af fresh nodes arp h]⟩
  · intro arp hok hone n hn ifs hip i hi a ha hne
    obtain ⟨hb, hc, _, _⟩ := populate_ok af fresh nodes arp hok
    obtain ⟨ifs2, hip2, hdev⟩ := hc n hn
    rw [hip] at hip2
    simp only [Option.some.injEq] at hip2
    subst hip2
    obtain ⟨j, addr, hj, hd⟩ := hdev (some i) hi
    simp only [Option.some.injEq] at hj
    subst hj
    refine ⟨addr, hd, ?_⟩
    rw [buildNodes_eq af nodes hc] at hb
    obtain ⟨_, _, hl⟩ := insertAll_lookup af _ _ _ hb
    have hmem : (a, addr) ∈ bindings nodes :=
      (mem_bindings nodes a addr).mpr ⟨n, hn, ifs, hip, i, hi, hd, ha, hne⟩
    obtain ⟨m2, hm2⟩ := lastMac_isSome _ a addr hmem
    rw [hl a, hm2]
    obtain ⟨n2, hn2, ifs2, hip2, i2, hi2, hd2, ha2, _⟩ :=
      (mem_bindings nodes a m2).mp (lastMac_mem _ a m2 hm2)
    have := hone n hn ifs hip i hi n2 hn2 ifs2 hip2 i2 hi2 a hne ha ha2
    rw [hd, hd2] at this
    simp only [Option.some.injEq] at this
    subst this
    rfl

theorem snd_eq_of_nodup_keys (l : List (Nat × Nat)) (h : (l.map Prod.fst).Nodup) (a m1 m2 : Nat)
    (h1 : (a, m1) ∈ l) (h2 : (a, m2) ∈ l) : m1 = m2 := by
  induction l with
  | nil => exact absurd h1 (List.not_mem_nil _)
  | cons b rest ih =>
    simp only [List.map_cons, List.nodup_cons] at h
    rcases List.mem_cons.mp h1 with e1 | e1 <;> rcases List.mem_cons.mp h2 with e2 | e2
    · rw [← e1] at e2
      simpa using e2.symm
    · subst e1
      exact absurd (List.mem_map_of_mem Prod.fst e2) h.1
    · subst e2
      exact absurd (List.mem_map_of_mem Prod.fst e1) h.1
    · exact ih h.2 e1 e2

theorem oneOwner_of_nodup (nodes : List Node) (hc : Equipped nodes)
    (hd : ((bindings nodes).map Prod.fst).Nodup) : OneOwner nodes := by
  intro n1 hn1 ifs1 hip1 i1 hi1 n2 hn2 ifs2 hip2 i2 hi2 a hne ha1 ha2
  obtain ⟨ifs1b, hip1b, hdev1⟩ := hc n1 hn1
  obtain ⟨ifs2b, hip2b, hdev2⟩ := hc n2 hn2
  rw [hip1] at hip1b
  rw [hip2] at hip2b
  simp only [Option.some.injEq] at hip1b hip2b
  subst hip1b hip2b
  obtain ⟨j1, m1, hj1, hd1⟩ := hdev1 (some i1) hi1
  obtain ⟨j2, m2, hj2, hd2⟩ := hdev2 (some i2) hi2
  simp only [Option.some.injEq] at hj1 hj2
  subst hj1 hj2
  have e := snd_eq_of_nodup_keys _ hd a m1 m2
    ((mem_bindings nodes a m1).mpr ⟨n1, hn1, ifs1, hip1, i1, hi1, hd1, ha1, hne⟩)
    ((mem_bindings nodes a m2).mpr ⟨n2, hn2, ifs2, hip2, i2, hi2, hd2, ha2, hne⟩)
  rw [hd1, hd2, e]

/-- C17, witness: the entry of 10.0.0.2 holds the device address 12 of its
interface. -/
theorem entry_content_witness :
    ∃ arp, (populateArpCache true 99 sampleNodes).outcome = Except.ok arp ∧
      ∃ addr, (some 12 : Option Nat) = some addr ∧
        arp.entries.lookup 167772162 =
          some { ipv4Address := 167772162, state := EntryState.alive, macAddress := some addr,
                 pending := 1 } := by
  obtain ⟨arp, h⟩ := (entry_content true 99 sampleNodes).1 equipped_sampleNodes
    (Or.inr (by decide))
  exact ⟨arp, h, (entry_content true 99 sampleNodes).2 arp h
    (oneOwner_of_nodup sampleNodes equipped_sampleNodes (by decide))
    { ip := some [loopbackIface 2, some { device := some 12, addresses := [167772162], arpCache := 3 }] }
    (by simp [sampleNodes]) _ rfl
    { device := some 12, addresses := [167772162], arpCache := 3 } (by simp)
    167772162 (by simp) (by decide)⟩

/-- C18. After PopulateArpCache has completed, the cache it built is the
object created at its start, the node list is the input with the cache
reference of every interface replaced, and every interface of every node
(loopback-only interfaces included) points to that one cache, so any two
interfaces hold the same reference. It completes on every topology whose
nodes all have a stack and whose interfaces all have a device. -/
theorem attach_pass (af : Bool) (fresh : Nat) (nodes : List Node) :
    (Equipped nodes → (af = false ∨ ((bindings nodes).map Prod.fst).Nodup) →
      ∃ arp, (populateArpCache af fresh nodes).outcome = Except.ok arp) ∧
    (∀ arp, (populateArpCache af fresh nodes).outcome = Except.ok arp →
      arp.ptr = fresh ∧
      (populateArpCache af fresh nodes).nodes = nodes.map (attached arp.ptr) ∧
      (∀ n ∈ (populateArpCache af fresh nodes).nodes, ∀ ifs, n.ip = some ifs →
        ∀ x ∈ ifs, ∃ i, x = some i ∧ i.arpCache = arp.ptr) ∧
      (∀ n1 ∈ (populateArpCache af fresh nodes).nodes, ∀ ifs1, n1.ip = some ifs1 →
        ∀ i1, some i1 ∈ ifs1 →
        ∀ n2 ∈ (populateArpCache af fresh nodes).nodes, ∀ ifs2, n2.ip = some ifs2 →
        ∀ i2, some i2 ∈ ifs2 → i1.arpCache = i2.arpCache)) := by
  constructor
  · intro hc hmode
    obtain ⟨arp, h⟩ := build_complete af fresh nodes hc hmode
    exact ⟨arp, by rw [populate_of_build_ok af fresh nodes arp h]⟩
  · intro arp hok
    obtain ⟨_, hc, hp, hn⟩ := populate_ok af fresh nodes arp hok
    have hall : ∀ n ∈ (populateArpCache af fresh nodes).nodes, ∀ ifs, n.ip = some ifs →
        ∀ x ∈ ifs, ∃ i, x = some i ∧ i.arpCache = arp.ptr := by
      intro n hmem ifs hip x hx
      rw [hn] at hmem
      obtain ⟨n0, hn0, rfl⟩ := List.mem_map.mp hmem
      obtain ⟨ifs0, hip0, hdev⟩ := hc n0 hn0
      simp only [attached, hip0, Option.map_some', Option.some.injEq] at hip
      subst hip
      obtain ⟨x0, hx0, rfl⟩ := List.mem_map.mp hx
      obtain ⟨i0, _, rfl, _⟩ := hdev x0 hx0
      exact ⟨setCache fresh i0, rfl, by rw [hp]; rfl⟩
    refine ⟨hp, by rw [hn, hp], hall, ?_⟩
    intro n1 hn1 ifs1 hip1 i1 hi1 n2 hn2 ifs2 hip2 i2 hi2
    obtain ⟨j1, hj1, e1⟩ := hall n1 hn1 ifs1 hip1 (some i1) hi1
    obtain ⟨j2, hj2, e2⟩ := hall n2 hn2 ifs2 hip2 (some i2) hi2
    simp only [Option.some.injEq] at hj1 hj2
    subst hj1 hj2
    rw [e1, e2]

/-- C18, witness: two nodes with a loopback-only interface and an
addressed interface each. -/
theorem attach_pass_witness :
    ∃ arp, (populateArpCache true 99 sampleNodes).outcome = Except.ok arp ∧
      arp.ptr = 99 ∧
      (populateArpCache true 99 sampleNodes).nodes = sampleNodes.map (attached arp.ptr) ∧
      (∀ n ∈ (populateArpCache true 99 sampleNodes).nodes, ∀ ifs, n.ip = some ifs →
        ∀ x ∈ ifs, ∃ i, x = some i ∧ i.arpCache = arp.ptr) ∧
      (∀ n1 ∈ (populateArpCache true 99 sampleNodes).nodes, ∀ ifs1, n1.ip = some ifs1 →
        ∀ i1, some i1 ∈ ifs1 →
        ∀ n2 ∈ (populateArpCache true 99 sampleNodes).nodes, ∀ ifs2, n2.ip = some ifs2 →
        ∀ i2, some i2 ∈ ifs2 → i1.arpCache = i2.arpCache) := by
  obtain ⟨arp, h⟩ := (attach_pass true 99 sampleNodes).1 equipped_sampleNodes
    (Or.inr (by decide))
  exact ⟨arp, h, (attach_pass true 99 sampleNodes).2 arp h⟩

theorem insertAll_assert_nodup (bs : List (Nat × Nat)) :
    ∀ c c1, insertAll true bs c = Except.ok c1 →
      (bs.map Prod.fst).Nodup ∧ ∀ b ∈ bs, c.entries.lookup b.1 = none := by
  induction bs with
  | nil =>
    intro c c1 _
    exact ⟨List.nodup_nil, fun b hb => absurd hb (List.not_mem_nil _)⟩
  | cons b rest ih =>
    intro c c1 h
    simp only [insertAll] at h
    cases hins : arpInsert true c b.1 (resolved b.1 b.2) with
    | error e => simp [hins] at h
    | ok c2 =>
      simp only [hins] at h
      obtain ⟨hnd, hnone⟩ := ih c2 c1 h
      obtain ⟨_, _, hl⟩ := arpInsert_ok true c c2 b.1 _ hins
      have hb0 : c.entries.lookup b.1 = none := by
        cases hx : c.entries.lookup b.1 with
        | none => rfl
        | some e0 => simp [arpInsert, hx] at hins
      refine ⟨?_, ?_⟩
      · simp only [List.map_cons, List.nodup_cons]
        refine ⟨?_, hnd⟩
        intro hmem
        obtain ⟨b2, hb2, he⟩ := List.mem_map.mp hmem
        have h2 := hnone b2 hb2
        rw [hl b2.1, if_pos he] at h2
        exact absurd h2 (by simp)
      · intro b2 hb2
        rcases List.mem_cons.mp hb2 with e | e
        · subst e
          exact hb0
        · have h2 := hnone b2 e
          rw [hl b2.1] at h2
          by_cases he : b2.1 = b.1
          · rw [if_pos he] at h2
            exact absurd h2 (by simp)
          · rw [if_neg he] at h2
            exact h2

theorem equipped_twinNodes : Equipped twinNodes := by
  intro n hn
  simp only [twinNodes, List.mem_cons, List.mem_singleton, List.not_mem_nil, or_false] at hn
  rcases hn with h | h <;> subst h <;> simp [loopbackIface]

/-- C19, counterexample. Two nodes that each have a network-layer stack and
whose interfaces all have a device, both exposing the address 10.0.0.1:
where the library asserts that an inserted address is new (as `ArpCache::Add`
of ns-3 does), PopulateArpCache does not complete; it stops in the build pass
at the second insertion, with the node list unchanged. -/
theorem equipped_twins_do_not_complete :
    Equipped twinNodes ∧ (∀ n ∈ twinNodes, n.ip ≠ none) ∧
    (populateArpCache true 99 twinNodes).outcome = Except.error Abort.duplicateAddress ∧
    (¬ ∃ arp, (populateArpCache true 99 twinNodes).outcome = Except.ok arp) ∧
    (populateArpCache true 99 twinNodes).nodes = twinNodes := by
  have h : (populateArpCache true 99 twinNodes).outcome =
      Except.error Abort.duplicateAddress := by decide
  refine ⟨equipped_twinNodes, by decide, h, ?_, by decide⟩
  rintro ⟨arp, harp⟩
  rw [h] at harp
  exact absurd harp (by simp)

/-- C19, amended. If some node has no network-layer protocol object, the
build pass aborts and PopulateArpCache ends with the node list unchanged: no
interface has had its cache reference changed. Whenever PopulateArpCache
completes, every node has a stack and every interface a device. It completes
exactly when every node has a stack, every interface has a device and, where
the library asserts that an inserted address is new, no non-loopback address
is met twice in the traversal of the interfaces. -/
theorem missing_stack_is_fatal (af : Bool) (fresh : Nat) (nodes : List Node) :
    ((∃ n ∈ nodes, n.ip = none) →
      ∃ e, buildNodes af nodes (newArpCache fresh) = Except.error e ∧
        populateArpCache af fresh nodes = { nodes := nodes, outcome := Except.error e }) ∧
    ((∃ arp, (populateArpCache af fresh nodes).outcome = Except.ok arp) → Equipped nodes) ∧
    ((∃ arp, (populateArpCache af fresh nodes).outcome = Except.ok arp) ↔
      (Equipped nodes ∧ (af = true → ((bindings nodes).map Prod.fst).Nodup))) := by
  refine ⟨?_, ?_, ?_⟩
  · rintro ⟨n, hn, hip⟩
    cases hb : buildNodes af nodes (newArpCache fresh) with
    | error e => exact ⟨e, rfl, populate_of_build_error af fresh nodes e hb⟩
    | ok arp =>
      obtain ⟨ifs, hip2, _⟩ := buildNodes_ok af nodes _ _ hb n hn
      rw [hip] at hip2
      exact absurd hip2 (by simp)
  · rintro ⟨arp, h⟩
    exact (populate_ok af fresh nodes arp h).2.1
  · constructor
    · rintro ⟨arp, h⟩
      obtain ⟨hb, hc, _, _⟩ := populate_ok af fresh nodes arp h
      refine ⟨hc, ?_⟩
      intro haf
      subst haf
      rw [buildNodes_eq true nodes hc] at hb
      exact (insertAll_assert_nodup _ _ _ hb).1
    · rintro ⟨hc, hnd⟩
      have hmode : af = false ∨ ((bindings nodes).map Prod.fst).Nodup := by
        cases af with
        | false => exact Or.inl rfl
        | true => exact Or.inr (hnd rfl)
      obtain ⟨arp, h⟩ := build_complete af fresh nodes hc hmode
      exact ⟨arp, by rw [populate_of_build_ok af fresh nodes arp h]⟩

/-- C19, witness: the sample nodes followed by a node without stack, and
the sample nodes alone, whose addresses are distinct. -/
theorem missing_stack_is_fatal_witness :
    (∃ e, buildNodes true (sampleNodes ++ [{ ip := none }]) (newArpCache 99) = Except.error e ∧
      populateArpCache true 99 (sampleNodes ++ [{ ip := none }]) =
        { nodes := sampleNodes ++ [{ ip := none }], outcome := Except.error e }) ∧
    ((∃ arp, (populateArpCache true 99 sampleNodes).outcome = Except.ok arp) ↔
      (Equipped sampleNodes ∧ (true = true → ((bindings sampleNodes).map Prod.fst).Nodup))) ∧
    (∃ arp, (populateArpCache true 99 sampleNodes).outcome = Except.ok arp) :=
  ⟨(missing_stack_is_fatal true 99 (sampleNodes ++ [{ ip := none }])).1
      ⟨{ ip := none }, by simp, rfl⟩,
    (missing_stack_is_fatal true 99 sampleNodes).2.2,
    (missing_stack_is_fatal true 99 sampleNodes).2.2.mpr
      ⟨equipped_sampleNodes, fun _ => by decide⟩⟩

/-! ## C20: configuration names -/

theorem lossModelLab3b_ok (l : String) :
    (∃ r, lossModelLab3b l = Except.ok r) ↔
      l ∈ ["LogDistance", "Friis", "TwoRayGround", "Nakagami"] := by
  unfold lossModelLab3b
  by_cases h1 : l = "LogDistance"
  · simp [h1]
  · by_cases h2 : l = "Friis"
    · simp [h2]
    · by_cases h3 : l = "TwoRayGround"
      · simp [h3]
      · by_cases h4 : l = "Nakagami"
        · simp [h4]
        · simp [h1, h2, h3, h4]

theorem positioningLab3b_ok (p : String) :
    (∃ r, positioningLab3b p = Except.ok r) ↔ p ∈ ["grid", "rectangle", "disc"] := by
  unfold positioningLab3b
  by_cases h1 : p = "grid"
  · simp [h1]
  · by_cases h2 : p = "rectangle"
    · simp [h2]
    · by_cases h3 : p = "disc"
      · simp [h3]
      · simp [h1, h2, h3]

theorem setupLab3b_ok (l p : String) :
    (∃ r, setupLab3b l p = Except.ok r) ↔
      ((∃ m, lossModelLab3b l = Except.ok m) ∧ ∃ a, positioningLab3b p = Except.ok a) := by
  unfold setupLab3b
  cases lossModelLab3b l with
  | error e => simp
  | ok m =>
    cases positioningLab3b p with
    | error e => simp
    | ok a => simp

/-- C20. In `ms-lab3b.cc` the setup gets past the channel and the mobility
configuration exactly when `lossModel` is one of "LogDistance", "Friis",
"TwoRayGround", "Nakagami" and `positioning` is one of "grid", "rectangle",
"disc", compared as written (other capitalisation is refused); for every
other value of either it aborts with a message. In `ms-lab2.cc` and
`anomaly_project.cc` the accepted loss models are exactly "LogDistance",
"Friis", "Nakagami". -/
theorem configuration_names :
    (∀ l p : String, (∃ r, setupLab3b l p = Except.ok r) ↔
      (l ∈ ["LogDistance", "Friis", "TwoRayGround", "Nakagami"] ∧
        p ∈ ["grid", "rectangle", "disc"])) ∧
    (∀ l p : String, (∃ msg, setupLab3b l p = Except.error msg) ↔
      ¬ (l ∈ ["LogDistance", "Friis", "TwoRayGround", "Nakagami"] ∧
        p ∈ ["grid", "rectangle", "disc"])) ∧
    (∀ l : String, (∃ r, lossModelLab2 l = Except.ok r) ↔
      l ∈ ["LogDistance", "Friis", "Nakagami"]) ∧
    (∀ l : String, (∃ r, lossModelAnomalyProject l = Except.ok r) ↔
      l ∈ ["LogDistance", "Friis", "Nakagami"]) ∧
    (∃ msg, setupLab3b "friis" "grid" = Except.error msg) ∧
    (∃ msg, setupLab3b "Friis" "Disc" = Except.error msg) ∧
    (∃ msg, lossModelLab2 "TwoRayGround" = Except.error msg) ∧
    (∃ msg, lossModelAnomalyProject "TwoRayGround" = Except.error msg) ∧
    setupLab3b "TwoRayGround" "disc" = Except.ok (LossModel.twoRayGround, Allocator.disc) := by
  have h3b : ∀ l p : String, (∃ r, setupLab3b l p = Except.ok r) ↔
      (l ∈ ["LogDistance", "Friis", "TwoRayGround", "Nakagami"] ∧
        p ∈ ["grid", "rectangle", "disc"]) := by
    intro l p
    rw [setupLab3b_ok, lossModelLab3b_ok, positioningLab3b_ok]
  have hlab2 : ∀ l : String, (∃ r, lossModelLab2 l = Except.ok r) ↔
      l ∈ ["LogDistance", "Friis", "Nakagami"] := by
    intro l
    unfold lossModelLab2
    by_cases h1 : l = "LogDistance"
    · simp [h1]
    · by_cases h2 : l = "Friis"
      · simp [h2]
      · by_cases h3 : l = "Nakagami"
        · simp [h3]
        · simp [h1, h2, h3]
  have hap : ∀ l : String, (∃ r, lossModelAnomalyProject l = Except.ok r) ↔
      l ∈ ["LogDistance", "Friis", "Nakagami"] := by
    intro l
    unfold lossModelAnomalyProject
    by_cases h1 : l = "LogDistance"
    · simp [h1]
    · by_cases h2 : l = "Friis"
      · simp [h2]
      · by_cases h3 : l = "Nakagami"
        · simp [h3]
        · simp [h1, h2, h3]
  have herr : ∀ {α : Type} (x : Except String α),
      (∃ msg, x = Except.error msg) ↔ ¬ ∃ r, x = Except.ok r := by
    intro α x
    cases x with
    | error e => simp
    | ok r => simp
  refine ⟨h3b, ?_, hlab2, hap, ?_, ?_, ?_, ?_, ?_⟩
  · intro l p
    rw [herr, h3b]
  · rw [herr, h3b]
    decide
  · rw [herr, h3b]
    decide
  · rw [herr, hlab2]
    decide
  · rw [herr, hap]
    decide
  · decide

/-! ## C21: growth of the counters -/

theorem classBucket_initStats (u : ℚ) (k : Nat) : (initStats u).classBucket k = Bucket.empty := by
  have a := getD_replicate_zero (0 : Nat) 8 k
  have b := getD_replicate_zero (0 : ℚ) 8 k
  have c := getD_replicate_zero (0 : Int) 8 k
  unfold Stats.classBucket initStats Bucket.empty
  rw [Bucket.mk.injEq]
  exact ⟨a, a, a, a, a, b, c, c⟩

/-- C21, counterexample. A class-0 flow that sent `2 ^ 64 - 1` bytes followed
by a class-0 flow that sent 1 byte: processing the second record takes
`txBytes` from 18446744073709551615 to 0, in bucket 0 and in the global
bucket, so the counter after is below the counter before. -/
theorem counter_decreases_at_wrap :
    (finalStats binary64 10000000 0
        [mkFlow 1 17 1000 18446744073709551615 0 1 0 1 0 0]).map
      (fun s => ((s.classBucket 0).txBytes, s.globalBucket.txBytes)) =
      some (18446744073709551615, 18446744073709551615) ∧
    (finalStats binary64 10000000 0
        [mkFlow 1 17 1000 18446744073709551615 0 1 0 1 0 0]).map
      (fun s =>
        (((accumulate binary64 10000000 s (mkFlow 2 17 1000 1 0 1 0 1 0 0)).classBucket 0).txBytes,
          (accumulate binary64 10000000 s
            (mkFlow 2 17 1000 1 0 1 0 1 0 0)).globalBucket.txBytes)) = some (0, 0) ∧
    ¬ (18446744073709551615 ≤ 0) := by
  refine ⟨by decide!, by decide!, by decide⟩

/-- C21, amended. For every state with the eight 8-element vectors and every
flow record with destination port 1000..1007, processing succeeds and each of
the five counters of the record's class bucket and of the global bucket
becomes (value before + value of the record) mod `2 ^ 64`; so in each of the
two buckets the counters after are at least the counters before whenever the
five sums stay below `2 ^ 64`, and the counters of every other class bucket
are unchanged. -/
theorem monotone_accumulation (rnd : ℚ → ℚ) (W : Int) (s : Stats) (fl : FlowEntry)
    (hs : s.WF) (h1 : 1000 ≤ fl.t.destinationPort) (h2 : fl.t.destinationPort ≤ 1007) :
    ∃ s1, accumulate rnd W s fl = s1 ∧
      s1.globalBucket = s.globalBucket.addFlow rnd W fl.second ∧
      s1.classBucket (fl.t.destinationPort - 1000) =
        (s.classBucket (fl.t.destinationPort - 1000)).addFlow rnd W fl.second ∧
      (∀ k, k ≠ fl.t.destinationPort - 1000 → s1.classBucket k = s.classBucket k) ∧
      (∀ b : Bucket, (b.addFlow rnd W fl.second).txBytes = (b.txBytes + fl.second.txBytes) % 2 ^ 64 ∧
        (b.addFlow rnd W fl.second).rxBytes = (b.rxBytes + fl.second.rxBytes) % 2 ^ 64 ∧
        (b.addFlow rnd W fl.second).txPackets = (b.txPackets + fl.second.txPackets) % 2 ^ 64 ∧
        (b.addFlow rnd W fl.second).rxPackets = (b.rxPackets + fl.second.rxPackets) % 2 ^ 64 ∧
        (b.addFlow rnd W fl.second).lostPackets =
          (b.lostPackets + fl.second.lostPackets) % 2 ^ 64) ∧
      (s.globalBucket.Fits fl.second → s.globalBucket.CountersLe s1.globalBucket) ∧
      (∀ k, (k = fl.t.destinationPort - 1000 → (s.classBucket k).Fits fl.second) →
        (s.classBucket k).CountersLe (s1.classBucket k)) := by
  have htid : tidOf fl.t.destinationPort = fl.t.destinationPort - 1000 := by
    unfold tidOf
    omega
  have hlt : tidOf fl.t.destinationPort < 8 := by omega
  have hle : ∀ b : Bucket, b.Fits fl.second → b.CountersLe (b.addFlow rnd W fl.second) := by
    intro b hb
    obtain ⟨f1, f2, f3, f4, f5⟩ := hb
    simp only [Bucket.CountersLe, Bucket.addFlow, add64]
    refine ⟨?_, ?_, ?_, ?_, ?_⟩ <;> omega
  refine ⟨_, accumulate_of_lt rnd W s fl hs hlt, rfl, ?_, ?_, ?_, ?_, ?_⟩
  · rw [classBucket_accumulateIn rnd W s fl hs hlt _, if_pos htid]
  · intro k hk
    rw [classBucket_accumulateIn rnd W s fl hs hlt k, if_neg (by omega)]
  · intro b
    exact ⟨rfl, rfl, rfl, rfl, rfl⟩
  · intro hfit
    exact hle _ hfit
  · intro k hk
    rw [classBucket_accumulateIn rnd W s fl hs hlt k]
    by_cases e : tidOf fl.t.destinationPort = k
    · rw [if_pos e]
      exact hle _ (hk (by omega))
    · rw [if_neg e]
      exact ⟨le_refl _, le_refl _, le_refl _, le_refl _, le_refl _⟩

/-- C21, witness: a flow to port 1006 on the initial accumulators. -/
theorem monotone_accumulation_witness :
    ∃ s1, accumulate binary64 10000000 (initStats 0)
        (mkFlow 1 17 1006 14700 14700 10 10 0 50000 9000) = s1 ∧
      (initStats 0).globalBucket.CountersLe s1.globalBucket ∧
      ∀ k, (initStats 0).classBucket k = Bucket.empty ∧
        ((initStats 0).classBucket k).CountersLe (s1.classBucket k) := by
  obtain ⟨s1, h1, _, _, _, _, h6, h7⟩ :=
    monotone_accumulation binary64 10000000 (initStats 0)
      (mkFlow 1 17 1006 14700 14700 10 10 0 50000 9000) (wf_initStats 0) (by decide) (by decide)
  have he : ∀ k, (initStats 0).classBucket k = Bucket.empty := classBucket_initStats 0
  refine ⟨s1, h1, h6 ?_, fun k => ⟨he k, h7 k (fun _ => ?_)⟩⟩
  · simp [Bucket.Fits, Stats.globalBucket, initStats, mkFlow]
  · rw [he k]
    simp [Bucket.Fits, Bucket.empty, mkFlow]

/-! ## C22: the accumulators before the first record -/

/-- C22, failing input. With the empty set of flow records the flow loop
leaves the accumulators as declared: every per-class bucket has all
counters, both time sums and the throughput at zero, the global bucket has
all counters and both time sums at zero, and mean delay and mean jitter are
shown as `---` in every class block and in the total block. The global
throughput, however, is the starting content `u` of `double throughput`,
which has no initialiser: with `u = 1` the total block shows throughput 1,
not 0. -/
theorem empty_aggregates_except_global_throughput (rnd : ℚ → ℚ) (W : Int) (u : ℚ) :
    finalStats rnd W u [] = some (initStats u) ∧
    (∀ k, (initStats u).classBucket k = Bucket.empty) ∧
    (initStats u).globalBucket = { Bucket.empty with throughput := u } ∧
    (List.range 8).map (fun k => (tidMeanDelay rnd (initStats u) k,
        tidMeanJitter rnd (initStats u) k)) =
      List.replicate 8 (Except.ok Shown.dashes, Except.ok Shown.dashes) ∧
    totalMeanDelay rnd (initStats u) = Except.ok Shown.dashes ∧
    totalMeanJitter rnd (initStats u) = Except.ok Shown.dashes ∧
    (printResults rnd W u []).totalBlock.map (fun b => (b.rxPackets, b.throughput)) =
      some (0, u) ∧
    (printResults rnd W u []).status = Except.ok () ∧
    (printResults binary64 10000000 1 []).totalBlock.map (fun b => b.throughput) = some 1 ∧
    (initStats 1).globalBucket ≠ Bucket.empty := by
  exact ⟨rfl, classBucket_initStats u, rfl, rfl, rfl, rfl, rfl, rfl, by decide!, by decide!⟩

/-! ## C23: the mean delay -/

theorem meanOf_exact (sum : Int) (n : Nat) :
    meanOf exactArith sum n = ((Int.tdiv (Int.tdiv sum (n : Int)) 1000 : Int) : ℚ) / 1000 := rfl

/-- C23. At each of the three levels the mean delay shown, when the
level's own `rxPackets` is positive, is `(double) M / 1000` for
`M = ((delaySum / rxPackets) in whole nanoseconds, truncated) / 1000`
truncated, the whole microseconds of the quotient: in the per-flow block
(from the record's `delaySum` and `rxPackets`), in the class block (from cell
`tid` of the two vectors) and in the total block (from the global sums). In
exact arithmetic the value is `M / 1000`. -/
theorem mean_delay_formula (rnd : ℚ → ℚ) :
    (∀ (W : Int) (proto : String) (fl : FlowEntry),
      0 < fl.second.rxPackets → fl.second.rxPackets < 2 ^ 32 →
      ∃ b, flowBlock rnd W proto fl = some b ∧
        b.meanDelay = Shown.value (meanOf rnd fl.second.delaySum fl.second.rxPackets)) ∧
    (∀ (s : Stats) (tid : Nat), s.WF → tid < 8 → 0 < s.rxPacketsPerTid.getD tid 0 →
      tidMeanDelay rnd s tid = Except.ok (Shown.value
        (meanOf rnd (s.delaySumPerTid.getD tid 0) (s.rxPacketsPerTid.getD tid 0)))) ∧
    (∀ s : Stats, 0 < s.rxPackets →
      totalMeanDelay rnd s = Except.ok (Shown.value (meanOf rnd s.delaySum s.rxPackets))) ∧
    (∀ (sum : Int) (n : Nat), meanOf rnd sum n =
      rnd (rnd ((Int.tdiv (Int.tdiv sum (n : Int)) 1000 : Int) : ℚ) / 1000)) ∧
    (∀ (sum : Int) (n : Nat), meanOf exactArith sum n =
      ((Int.tdiv (Int.tdiv sum (n : Int)) 1000 : Int) : ℚ) / 1000) := by
  refine ⟨?_, ?_, ?_, fun _ _ => rfl, fun _ _ => rfl⟩
  · intro W proto fl h0 h32
    unfold flowBlock
    rw [if_pos h0, meanMs_isSome rnd _ _ (by omega)]
    by_cases h1 : 1 < fl.second.rxPackets
    · rw [flowJitter_of_gt rnd _ h1 h32]
      exact ⟨_, rfl, rfl⟩
    · rw [flowJitter_of_le rnd _ (by omega)]
      exact ⟨_, rfl, rfl⟩
  · intro s tid hs ht h0
    unfold tidMeanDelay
    rw [getElem?_of_getD _ tid 0 (by rw [hs.2.2.2.1]; exact ht),
      getElem?_of_getD _ tid 0 (by rw [hs.2.2.2.2.2.2.1]; exact ht)]
    simp only [if_pos h0, meanMs_isSome rnd _ _ (Nat.pos_iff_ne_zero.mp h0)]
    rfl
  · intro s h0
    unfold totalMeanDelay
    simp only [if_pos h0, meanMs_isSome rnd _ _ (Nat.pos_iff_ne_zero.mp h0)]
    rfl

/-- C23, witness: a flow with `delaySum` 50000999 ns over 10 packets; the
quotient is 5000099 ns, `M` = 5000 µs, and the mean delay shown is 5 ms, in
the per-flow block, in the block of its class and in the total block. -/
theorem mean_delay_formula_witness :
    meanOf exactArith 50000999 10 = 5 ∧
    (∃ b, flowBlock exactArith 10000000 "UDP"
        (mkFlow 1 17 1006 14700 14700 10 10 0 50000999 9000) = some b ∧
      b.meanDelay = Shown.value 5) ∧
    (finalStats exactArith 10000000 0
        [mkFlow 1 17 1006 14700 14700 10 10 0 50000999 9000]).map
      (fun s => (tidMeanDelay exactArith s 6, totalMeanDelay exactArith s)) =
      some (Except.ok (Shown.value 5), Except.ok (Shown.value 5)) := by
  have h5 : meanOf exactArith 50000999 10 = 5 := by decide!
  obtain ⟨b, hb1, hb2⟩ := (mean_delay_formula exactArith).1 10000000 "UDP"
    (mkFlow 1 17 1006 14700 14700 10 10 0 50000999 9000) (by decide) (by decide)
  refine ⟨h5, ⟨b, hb1, ?_⟩, by decide!⟩
  rw [hb2]
  exact congrArg Shown.value h5

/-! ## C25: the class index of a port -/

/-- C25. For every 16-bit destination port `p` the class index is
`(p - 1000) mod 2 ^ 16`; it lies in 0..7 exactly when `1000 ≤ p ≤ 1007`; and
every port below 1000 gives an index of at least 64536 (`p + 64536`), for
example 64545 for port 9. -/
theorem port_wrap (p : Nat) (hp : p < 2 ^ 16) :
    (tidOf p : Int) = ((p : Int) - 1000) % 2 ^ 16 ∧
    (tidOf p < 8 ↔ 1000 ≤ p ∧ p ≤ 1007) ∧
    (p < 1000 → 64536 ≤ tidOf p ∧ tidOf p = p + 64536) ∧
    tidOf p < 2 ^ 16 ∧
    tidOf 9 = 64545 := by
  refine ⟨?_, ?_, ?_, ?_, by decide⟩
  · unfold tidOf
    omega
  · unfold tidOf
    omega
  · intro h
    unfold tidOf
    omega
  · unfold tidOf
    omega

/-- C25, witness: the discard port 9. -/
theorem port_wrap_witness :
    (tidOf 9 : Int) = ((9 : Nat) - 1000 : Int) % 2 ^ 16 ∧ (tidOf 9 < 8 ↔ 1000 ≤ 9 ∧ 9 ≤ 1007) ∧
    (9 < 1000 → 64536 ≤ tidOf 9 ∧ tidOf 9 = 9 + 64536) ∧ tidOf 9 < 2 ^ 16 ∧ tidOf 9 = 64545 :=
  port_wrap 9 (by decide)

/-! ## C29: marking of a class index above 7 -/

/-- C29. For every `tid`, in particular every 8-bit one, the TOS byte is
`(tid mod 8) * 32`, which is `(tid << 5) mod 256`; two class indices congruent modulo 8 get the same
marking, so an index of 8 or more is marked as the index `tid mod 8` in
0..7. -/
theorem marking_aliases (tid : Nat) :
    tosOf tid = (tid % 8) * 32 ∧ tosOf tid = (tid <<< 5) % 256 ∧
    (∀ tid2, tid2 % 8 = tid % 8 → tosOf tid2 = tosOf tid) ∧
    tid % 8 < 8 ∧ tosOf (tid % 8) = tosOf tid := by
  have key : ∀ n : Nat, tosOf n = (n % 8) * 32 := by
    intro n
    unfold tosOf
    rw [Nat.shiftLeft_eq]
    omega
  refine ⟨key tid, rfl, ?_, by omega, ?_⟩
  · intro tid2 h2
    rw [key, key, h2]
  · rw [key, key]
    omega

/-- C29, witness: index 14 is marked as index 6 (Voice), 192. -/
theorem marking_aliases_witness :
    tosOf 14 = (14 % 8) * 32 ∧ tosOf 14 = (14 <<< 5) % 256 ∧
    (∀ tid2, tid2 % 8 = 14 % 8 → tosOf tid2 = tosOf 14) ∧
    14 % 8 < 8 ∧ tosOf (14 % 8) = tosOf 14 ∧ tosOf 14 = 192 ∧ tosOf 6 = 192 :=
  ⟨(marking_aliases 14).1, (marking_aliases 14).2.1, (marking_aliases 14).2.2.1,
    (marking_aliases 14).2.2.2.1, (marking_aliases 14).2.2.2.2, by decide, by decide⟩

/-! ## C26: vector indices -/

theorem tidMeanJitter_no_oob (rnd : ℚ → ℚ) (s : Stats) (tid : Nat) (hs : s.WF) (ht : tid < 8) :
    (∃ j, tidMeanJitter rnd s tid = Except.ok j) ∨
      tidMeanJitter rnd s tid = Except.error Fault.divisionByZero := by
  unfold tidMeanJitter
  rw [getElem?_of_getD _ tid 0 (by rw [hs.2.2.2.1]; exact ht),
    getElem?_of_getD _ tid 0 (by rw [hs.2.2.2.2.2.2.2]; exact ht)]
  by_cases h0 : 0 < s.rxPacketsPerTid.getD tid 0
  · by_cases h1 : 1 < s.rxPackets
    · simp only [if_pos h0, if_pos h1]
      cases meanMs rnd (s.jitterSumPerTid.getD tid 0) (sub64 (s.rxPacketsPerTid.getD tid 0) 1) with
      | none => exact Or.inr rfl
      | some j => exact Or.inl ⟨_, rfl⟩
    · simp only [if_pos h0, if_neg h1]
      exact Or.inl ⟨_, rfl⟩
  · simp only [if_neg h0]
    exact Or.inl ⟨_, rfl⟩

theorem tidBlock_no_oob (rnd : ℚ → ℚ) (s : Stats) (tid : Nat) (hs : s.WF) (ht : tid < 8) :
    (∃ b, tidBlock rnd s tid = Except.ok b) ∨
      tidBlock rnd s tid = Except.error Fault.divisionByZero := by
  obtain ⟨h1, h2, h3, h4, h5, h6, h7, h8⟩ := hs
  obtain ⟨d, hd⟩ := tidMeanDelay_ok rnd s tid ⟨h1, h2, h3, h4, h5, h6, h7, h8⟩ ht
  have hj := tidMeanJitter_no_oob rnd s tid ⟨h1, h2, h3, h4, h5, h6, h7, h8⟩ ht
  unfold tidBlock
  rw [getElem?_of_getD _ tid 0 (by rw [h1]; exact ht),
    getElem?_of_getD _ tid 0 (by rw [h2]; exact ht),
    getElem?_of_getD _ tid 0 (by rw [h3]; exact ht),
    getElem?_of_getD _ tid 0 (by rw [h4]; exact ht),
    getElem?_of_getD _ tid 0 (by rw [h5]; exact ht),
    getElem?_of_getD _ tid 0 (by rw [h6]; exact ht)]
  rcases hj with ⟨j, hj⟩ | hj
  · left
    simp [hd, hj, bind, Except.bind, pure, Except.pure]
  · right
    simp [hd, hj, bind, Except.bind]

theorem tidLoop_error (rnd : ℚ → ℚ) (s : Stats) (l : List Nat) :
    ∀ (out : List TidBlock) (e : Fault), (tidLoop rnd s l out).2 = Except.error e →
      ∃ tid ∈ l, tidBlock rnd s tid = Except.error e := by
  induction l with
  | nil =>
    intro out e h
    simp [tidLoop] at h
  | cons tid rest ih =>
    intro out e h
    by_cases hrep : reported tid = true
    · cases hb : tidBlock rnd s tid with
      | error e2 =>
        simp only [tidLoop, hrep, hb, if_true, Except.error.injEq] at h
        subst h
        exact ⟨tid, List.mem_cons_self _ _, hb⟩
      | ok b =>
        simp only [tidLoop, hrep, hb, if_true] at h
        obtain ⟨t, ht, hte⟩ := ih _ e h
        exact ⟨t, List.mem_cons_of_mem _ ht, hte⟩
    · have hrep2 : reported tid = false := by simpa using hrep
      simp only [tidLoop, hrep2] at h
      obtain ⟨t, ht, hte⟩ := ih _ e h
      exact ⟨t, List.mem_cons_of_mem _ ht, hte⟩

theorem printResults_status (rnd : ℚ → ℚ) (W : Int) (u : ℚ) (flows : List FlowEntry) :
    (∃ e, (flowLoop rnd W flows (initStats u) []).2 = Except.error e ∧
        (printResults rnd W u flows).status = Except.error e) ∨
      ∃ s, (flowLoop rnd W flows (initStats u) []).2 = Except.ok s ∧
        ((printResults rnd W u flows).status = Except.ok () ∨
          (∃ e, (tidLoop rnd s (List.range 8) []).2 = Except.error e ∧
            (printResults rnd W u flows).status = Except.error e) ∨
          (∃ e, totalBlock rnd s = Except.error e ∧
            (printResults rnd W u flows).status = Except.error e)) := by
  unfold printResults
  rcases hfl : flowLoop rnd W flows (initStats u) [] with ⟨fb, st⟩
  cases st with
  | error e =>
    left
    exact ⟨e, rfl, rfl⟩
  | ok s =>
    right
    refine ⟨s, rfl, ?_⟩
    rcases htl : tidLoop rnd s (List.range 8) [] with ⟨tb, st2⟩
    cases st2 with
    | error e => simp [htl]
    | ok x =>
      cases htot : totalBlock rnd s with
      | error e => simp [htl, htot]
      | ok b => simp [htl, htot]

theorem status_accepted (rnd : ℚ → ℚ) (W : Int) (u : ℚ) (flows : List FlowEntry)
    (hall : ∀ fl ∈ flows, Accepted fl) :
    (printResults rnd W u flows).status = Except.ok () ∨
      (printResults rnd W u flows).status = Except.error Fault.divisionByZero := by
  have hs := flowLoop_accepted rnd W flows (initStats u) [] (wf_initStats u) hall
  have hwf := wf_foldl_accumulateIn rnd W flows _ (wf_initStats u)
  obtain ⟨hlt, _⟩ := final_rxPackets_lt rnd W u flows hall
  rcases printResults_status rnd W u flows with ⟨e, he, _⟩ | ⟨s, hs2, h⟩
  · rw [hs] at he
    exact absurd he (by simp)
  rw [hs] at hs2
  have e : flows.foldl (accumulateIn rnd W) (initStats u) = s := by
    simpa using hs2
  subst e
  rcases h with h | ⟨e, he, hst⟩ | ⟨e, he, hst⟩
  · exact Or.inl h
  · right
    obtain ⟨tid, htid, hte⟩ := tidLoop_error rnd _ _ _ e he
    rcases tidBlock_no_oob rnd _ tid hwf (List.mem_range.mp htid) with ⟨b, hb⟩ | hb
    · rw [hb] at hte
      exact absurd hte (by simp)
    · rw [hb] at hte
      simp only [Except.error.injEq] at hte
      rw [hst, ← hte]
  · obtain ⟨tb, htb, _⟩ := totalBlock_ok rnd _ hlt
    rw [htb] at he
    exact absurd he (by simp)

/-- C26. If every flow record has protocol 6 or 17 and a destination port
in 1000..1007, then at every record of the loop the vectors have their 8
cells and the class index is below 8, so each of the eight updates of the
record indexes inside its vector; the flow loop ends with vectors of
8 cells; every index 0..7 of the report loop is inside each of the eight
vectors, no class block stops on an index; and the printing part never
stops with an indexing failure (it ends normally or at the division of the
class jitter line). -/
theorem index_safety (rnd : ℚ → ℚ) (W : Int) (u : ℚ) (flows : List FlowEntry)
    (hall : ∀ fl ∈ flows, Accepted fl) :
    (∀ pre fl post, flows = pre ++ fl :: post →
      ∃ s s1, finalStats rnd W u pre = some s ∧ s.WF ∧ tidOf fl.t.destinationPort < 8 ∧
        s.InBounds (tidOf fl.t.destinationPort) ∧ accumulate rnd W s fl = s1 ∧ s1.WF) ∧
    (∃ s, finalStats rnd W u flows = some s ∧ s.WF ∧
      (∀ tid, tid < 8 →
        s.txBytesPerTid[tid]? ≠ none ∧ s.rxBytesPerTid[tid]? ≠ none ∧
        s.txPacketsPerTid[tid]? ≠ none ∧ s.rxPacketsPerTid[tid]? ≠ none ∧
        s.lostPacketsPerTid[tid]? ≠ none ∧ s.throughputPerTid[tid]? ≠ none ∧
        s.delaySumPerTid[tid]? ≠ none ∧ s.jitterSumPerTid[tid]? ≠ none ∧
        tidBlock rnd s tid ≠ Except.error Fault.outOfBounds)) ∧
    (printResults rnd W u flows).status ≠ Except.error Fault.outOfBounds := by
  refine ⟨?_, ?_, ?_⟩
  · intro pre fl post hsplit
    have hpre : ∀ x ∈ pre, Accepted x := by
      intro x hx
      exact hall x (by rw [hsplit]; exact List.mem_append_left _ hx)
    have hfl : Accepted fl := hall fl (by rw [hsplit]; simp)
    have hwf := wf_foldl_accumulateIn rnd W pre _ (wf_initStats u)
    have hlt := tidOf_of_accepted hfl
    obtain ⟨h1, h2, h3, h4, h5, h6, h7, h8⟩ := hwf
    exact ⟨_, _, finalStats_accepted rnd W u pre hpre, ⟨h1, h2, h3, h4, h5, h6, h7, h8⟩, hlt,
      ⟨by omega, by omega, by omega, by omega, by omega, by omega, by omega, by omega⟩,
      accumulate_of_lt rnd W _ fl ⟨h1, h2, h3, h4, h5, h6, h7, h8⟩ hlt,
      wf_accumulateIn rnd W _ fl ⟨h1, h2, h3, h4, h5, h6, h7, h8⟩⟩
  · have hwf := wf_foldl_accumulateIn rnd W flows _ (wf_initStats u)
    refine ⟨_, finalStats_accepted rnd W u flows hall, hwf, ?_⟩
    intro tid ht
    obtain ⟨h1, h2, h3, h4, h5, h6, h7, h8⟩ := hwf
    refine ⟨?_, ?_, ?_, ?_, ?_, ?_, ?_, ?_, ?_⟩
    · rw [getElem?_of_getD _ tid 0 (by rw [h1]; exact ht)]; simp
    · rw [getElem?_of_getD _ tid 0 (by rw [h2]; exact ht)]; simp
    · rw [getElem?_of_getD _ tid 0 (by rw [h3]; exact ht)]; simp
    · rw [getElem?_of_getD _ tid 0 (by rw [h4]; exact ht)]; simp
    · rw [getElem?_of_getD _ tid 0 (by rw [h5]; exact ht)]; simp
    · rw [getElem?_of_getD _ tid 0 (by rw [h6]; exact ht)]; simp
    · rw [getElem?_of_getD _ tid 0 (by rw [h7]; exact ht)]; simp
    · rw [getElem?_of_getD _ tid 0 (by rw [h8]; exact ht)]; simp
    · rcases tidBlock_no_oob rnd _ tid ⟨h1, h2, h3, h4, h5, h6, h7, h8⟩ ht with ⟨b, hb⟩ | hb
      · rw [hb]; simp
      · rw [hb]; simp
  · rcases status_accepted rnd W u flows hall with h | h
    · rw [h]; simp
    · rw [h]; simp

/-- C26, witness: flows of classes 6, 2 and 7. -/
theorem index_safety_witness :
    (∃ s, finalStats binary64 10000000 0 mixedFlows = some s ∧ s.WF) ∧
    (printResults binary64 10000000 0 mixedFlows).status ≠ Except.error Fault.outOfBounds := by
  obtain ⟨_, ⟨s, h1, h2, _⟩, h3⟩ := index_safety binary64 10000000 0 mixedFlows accepted_mixedFlows
  exact ⟨⟨s, h1, h2⟩, h3⟩

/-! ## C27: the loopback test -/

/-- C27. The loop over the addresses of an interface skips an address
exactly when it equals 127.0.0.1 (`Ipv4Address::GetLoopback ()`, the number
`127 * 2 ^ 24 + 1`): when the loop ends, every address of the interface other
than 127.0.0.1 has the entry resolved to the device address, whatever its
network prefix, while the entry of 127.0.0.1 and of every address that is not
on the interface is what the cache held before. -/
theorem loopback_exact_match (af : Bool) (addr : Nat) (addresses : List Nat) (c c1 : ArpCache)
    (h : buildAddresses af addr addresses c = Except.ok c1) :
    loopback = 127 * 2 ^ 24 + 0 * 2 ^ 16 + 0 * 2 ^ 8 + 1 ∧
    (∀ a, a ∈ addresses → a ≠ loopback → c1.entries.lookup a = some (resolved a addr)) ∧
    (∀ a, a = loopback ∨ a ∉ addresses → c1.entries.lookup a = c.entries.lookup a) ∧
    (∀ a m, (a, m) ∈ ifaceBindings addr addresses ↔ a ∈ addresses ∧ a ≠ loopback ∧ m = addr) := by
  rw [buildAddresses_eq] at h
  obtain ⟨_, _, hl⟩ := insertAll_lookup af _ c c1 h
  refine ⟨by decide, ?_, ?_, mem_ifaceBindings addr addresses⟩
  · intro a ha hne
    obtain ⟨m2, hm2⟩ := lastMac_isSome _ a addr
      ((mem_ifaceBindings addr addresses a addr).mpr ⟨ha, hne, rfl⟩)
    have hm := (mem_ifaceBindings addr addresses a m2).mp (lastMac_mem _ a m2 hm2)
    rw [hl a, hm2, hm.2.2]
  · intro a ha
    cases hm : lastMac (ifaceBindings addr addresses) a with
    | some m =>
      have hmem := (mem_ifaceBindings addr addresses a m).mp (lastMac_mem _ a m hm)
      rcases ha with ha | ha
      · exact absurd ha hmem.2.1
      · exact absurd hmem.1 ha
    | none => rw [hl a, hm]

/-- C27, witness: an interface with the addresses 127.0.0.1, 127.0.0.2 and
10.0.0.1 on the new cache. 127.0.0.2 gets its entry although it lies in
127.0.0.0/8; 127.0.0.1 gets none. -/
theorem loopback_exact_match_witness :
    buildAddresses true 11 loopbackNet (newArpCache 7) =
      Except.ok { newArpCache 7 with
        entries := [(167772161, resolved 167772161 11), (2130706434, resolved 2130706434 11)] } ∧
    2130706434 = 127 * 2 ^ 24 + 2 ∧
    ({ newArpCache 7 with
        entries := [(167772161, resolved 167772161 11), (2130706434, resolved 2130706434 11)] } :
      ArpCache).entries.lookup 2130706434 = some (resolved 2130706434 11) ∧
    ({ newArpCache 7 with
        entries := [(167772161, resolved 167772161 11), (2130706434, resolved 2130706434 11)] } :
      ArpCache).entries.lookup loopback = (newArpCache 7).entries.lookup loopback := by
  have hb : buildAddresses true 11 loopbackNet (newArpCache 7) =
      Except.ok { newArpCache 7 with
        entries := [(167772161, resolved 167772161 11), (2130706434, resolved 2130706434 11)] } := by
    decide
  obtain ⟨_, h2, h3, _⟩ := loopback_exact_match true 11 loopbackNet (newArpCache 7) _ hb
  exact ⟨hb, by decide, h2 2130706434 (by decide) (by decide), h3 loopback (Or.inl rfl)⟩

/-! ## C24: order of the report -/

theorem protoName_eq_protoOf {fl : FlowEntry} (h : fl.t.protocol = 6 ∨ fl.t.protocol = 17) :
    protoName fl.t.protocol = some (protoOf fl) := by
  rcases h with h6 | h17
  · simp [protoName, protoOf, h6]
  · simp [protoName, protoOf, h17]

theorem flowBlock_eq (rnd : ℚ → ℚ) (W : Int) (fl : FlowEntry) (h : fl.second.rxPackets < 2 ^ 32) :
    flowBlock rnd W (protoOf fl) fl = some (flowBlockIn rnd W fl) := by
  unfold flowBlock flowBlockIn thrTerm meanOf
  by_cases h0 : 0 < fl.second.rxPackets
  · rw [if_pos h0, meanMs_isSome rnd _ _ (by omega)]
    by_cases h1 : 1 < fl.second.rxPackets
    · rw [flowJitter_of_gt rnd _ h1 h]
      simp [h0, h1]
    · rw [flowJitter_of_le rnd _ (by omega)]
      simp [h0, h1]
  · have h1 : ¬ 1 < fl.second.rxPackets := by omega
    rw [if_neg h0]
    simp [h0, h1]

theorem flowLoop_blocks_accepted (rnd : ℚ → ℚ) (W : Int) (l : List FlowEntry) :
    ∀ (s : Stats) (out : List FlowBlock), s.WF → (∀ x ∈ l, Accepted x) →
      (flowLoop rnd W l s out).1 = out ++ l.map (flowBlockIn rnd W) := by
  induction l with
  | nil => intro s out _ _; simp [flowLoop]
  | cons fl rest ih =>
    intro s out hs hall
    have hfl : Accepted fl := hall fl (List.mem_cons_self _ _)
    have hp := protoName_eq_protoOf hfl.2.1
    have hb := flowBlock_eq rnd W fl hfl.1.2.2.2.2.2.2.2.1
    have hacc := accumulate_of_lt rnd W s fl hs (tidOf_of_accepted hfl)
    simp only [flowLoop, hp, hb, hacc, List.map_cons]
    rw [ih _ _ (wf_accumulateIn rnd W s fl hs) (fun x hx => hall x (List.mem_cons_of_mem _ hx))]
    simp

theorem printResults_sections (rnd : ℚ → ℚ) (W : Int) (u : ℚ) (flows : List FlowEntry) :
    (printResults rnd W u flows).flowBlocks = (flowLoop rnd W flows (initStats u) []).1 ∧
    ((printResults rnd W u flows).tidBlocks ≠ [] →
      ∃ s, (flowLoop rnd W flows (initStats u) []).2 = Except.ok s) ∧
    (∀ tb, (printResults rnd W u flows).totalBlock = some tb →
      ∃ s, (flowLoop rnd W flows (initStats u) []).2 = Except.ok s ∧
        (tidLoop rnd s (List.range 8) []).2 = Except.ok () ∧
        (printResults rnd W u flows).tidBlocks = (tidLoop rnd s (List.range 8) []).1 ∧
        totalBlock rnd s = Except.ok tb ∧
        (printResults rnd W u flows).status = Except.ok ()) := by
  unfold printResults
  rcases hfl : flowLoop rnd W flows (initStats u) [] with ⟨fb, st⟩
  cases st with
  | error e => simp
  | ok s =>
    rcases htl : tidLoop rnd s (List.range 8) [] with ⟨tb, st2⟩
    cases st2 with
    | error e => simp [htl]
    | ok x =>
      cases htot : totalBlock rnd s with
      | error e => simp [htl, htot]
      | ok b => simp [htl, htot]

/-- Class part of C28. In exact arithmetic, for flow records with supported
protocols and destination ports in 1000..1007: the per-flow blocks are one per
record; for every `t` the throughput accumulated for class `t`, which is the
throughput of every class block printed for `t`, is the sum of the
throughput values shown in the per-flow blocks with destination port
`1000 + t`; and the global throughput, shown in the total block, is the sum
of all per-flow values plus the starting content `u` of the variable. -/
theorem throughput_is_sum_of_flow_values (W : Int) (u : ℚ) (flows : List FlowEntry)
    (hall : ∀ fl ∈ flows, Accepted fl) :
    ∃ s, finalStats exactArith W u flows = some s ∧
      (printResults exactArith W u flows).flowBlocks = flows.map (flowBlockIn exactArith W) ∧
      (∀ t, s.throughputPerTid.getD t 0 =
        (((printResults exactArith W u flows).flowBlocks.filter
          (fun b => decide (b.t.destinationPort = 1000 + t))).map
            (fun b => b.throughput.num)).sum) ∧
      (∀ b ∈ (printResults exactArith W u flows).tidBlocks,
        b.throughput = s.throughputPerTid.getD b.tid 0) ∧
      s.throughput =
        u + ((printResults exactArith W u flows).flowBlocks.map (fun b => b.throughput.num)).sum ∧
      (∀ tb, (printResults exactArith W u flows).totalBlock = some tb →
        tb.throughput = s.throughput) := by
  have htid : ∀ fl ∈ flows, tidOf fl.t.destinationPort < 8 :=
    fun fl h => tidOf_of_accepted (hall fl h)
  have hs := flowLoop_accepted exactArith W flows (initStats u) [] (wf_initStats u) hall
  obtain ⟨hfb, _, htot⟩ := printResults_sections exactArith W u flows
  have hblocks : (printResults exactArith W u flows).flowBlocks =
      flows.map (flowBlockIn exactArith W) := by
    rw [hfb, flowLoop_blocks_accepted exactArith W flows _ _ (wf_initStats u) hall]
    simp
  refine ⟨_, finalStats_accepted exactArith W u flows hall, hblocks, ?_, ?_, ?_, ?_⟩
  · intro t
    rw [final_throughputPerTid exactArith W u flows htid t,
      foldl_dblAdd_exact (fun fl => thrTerm exactArith W fl.second), zero_add, hblocks,
      List.filter_map, List.map_map]
    have hf : flows.filter (fun fl => decide (tidOf fl.t.destinationPort = t)) =
        flows.filter ((fun b => decide (b.t.destinationPort = 1000 + t)) ∘
          flowBlockIn exactArith W) := by
      apply List.filter_congr
      intro fl hfl
      have h1 := (hall fl hfl).2.2.1
      have h2 := (hall fl hfl).2.2.2
      have e : tidOf fl.t.destinationPort = fl.t.destinationPort - 1000 := by
        unfold tidOf
        omega
      simp only [Function.comp, flowBlockIn, e, decide_eq_decide]
      omega
    rw [hf]
    rfl
  · intro b hb
    rcases printResults_tidBlocks exactArith W u flows with ⟨_, h, _⟩ | ⟨s, hs2, h, _, _⟩
    · rw [h] at hb
      exact absurd hb (List.not_mem_nil _)
    · rw [hs] at hs2
      have e : flows.foldl (accumulateIn exactArith W) (initStats u) = s := by
        simpa using hs2
      subst e
      obtain ⟨_, _, hmem⟩ := tidLoop_spec exactArith
        (flows.foldl (accumulateIn exactArith W) (initStats u)) (List.range 8) []
      rw [h] at hb
      rcases hmem b hb with h0 | h0
      · exact absurd h0 (List.not_mem_nil _)
      · exact (tidBlock_fields exactArith _ b.tid b h0).2.2.2.2.2.2
  · rw [foldl_proj (accumulateIn exactArith W) Stats.throughput
        (fun a fl => dblAdd exactArith a (thrTerm exactArith W fl.second)) (fun _ _ => rfl) flows,
      foldl_dblAdd_exact (fun fl => thrTerm exactArith W fl.second), hblocks, List.map_map]
    rfl
  · intro tb htb
    obtain ⟨s, hs2, _, _, htb2, _⟩ := htot tb htb
    rw [hs] at hs2
    have e : flows.foldl (accumulateIn exactArith W) (initStats u) = s := by
      simpa using hs2
    subst e
    unfold totalBlock at htb2
    cases hd : totalMeanDelay exactArith
        (flows.foldl (accumulateIn exactArith W) (initStats u)) with
    | error e => simp [hd, bind, Except.bind] at htb2
    | ok d =>
      cases hj : totalMeanJitter exactArith
          (flows.foldl (accumulateIn exactArith W) (initStats u)) with
      | error e => simp [hd, hj, bind, Except.bind] at htb2
      | ok j =>
        simp only [hd, hj, bind, Except.bind, pure, Except.pure, Except.ok.injEq] at htb2
        rw [← htb2]

/-- C28, failing input. One UDP flow to port 1000 that received 1470000
bytes in 1000 packets, window 10 s, exact arithmetic, with the storage of
`double throughput` holding 1 when the loop starts: the per-flow block shows
147/125 (1.176), the block of class 0 shows the same 147/125, the sum of the
per-flow values, but the total block shows 272/125 (2.176), the sum plus the
starting content of the variable, which has no initialiser. -/
theorem total_throughput_is_not_the_sum :
    (printResults exactArith 10000000 1
      [mkFlow 1 17 1000 1470000 1470000 1000 1000 0 5000000 900000]).flowBlocks.map
        (fun b => b.throughput.num) = [147 / 125] ∧
    (printResults exactArith 10000000 1
      [mkFlow 1 17 1000 1470000 1470000 1000 1000 0 5000000 900000]).tidBlocks.map
        (fun b => (b.tid, b.throughput)) = [(0, 147 / 125), (1, 0), (5, 0), (6, 0)] ∧
    (printResults exactArith 10000000 1
      [mkFlow 1 17 1000 1470000 1470000 1000 1000 0 5000000 900000]).totalBlock.map
        (fun b => b.throughput) = some (272 / 125) ∧
    ((272 : ℚ) / 125 ≠ ([147 / 125] : List ℚ).sum) := by
  refine ⟨by decide!, by decide!, by decide!, by decide!⟩

/-! ## C30: close and distant stations in `anomaly_project.cc` -/

theorem projectFlowThr_exact (f : ProjectFlow) (h : f.timeLastRxPacket ≠ f.timeFirstTxPacket) :
    projectFlowThr exactArith f = some (exactFlowThr f) := by
  have hne : ((f.timeLastRxPacket : ℚ) / 1000000000 - (f.timeFirstTxPacket : ℚ) / 1000000000)
      ≠ 0 := by
    intro h0
    apply h
    have : (f.timeLastRxPacket : ℚ) = (f.timeFirstTxPacket : ℚ) := by linarith
    exact_mod_cast this
  unfold projectFlowThr observedDuration getSeconds exactArith
  rw [if_neg hne]
  unfold exactFlowThr
  congr 3
  ring

theorem exactFlowThr_of_no_rx (f : ProjectFlow) (h : f.rxBytes = 0) : exactFlowThr f = 0 := by
  unfold exactFlowThr
  rw [h]
  simp

theorem projectLoop_exact (nWifi : Nat) (flows : List ProjectFlow) :
    ∀ st : ProjectTotals, (∀ f ∈ flows, f.timeLastRxPacket ≠ f.timeFirstTxPacket) →
      st.number + flows.length ≤ 2 ^ 32 →
      ∃ r, projectLoop exactArith nWifi flows st = some r ∧
        r.flowThrClose =
          st.flowThrClose + ((flows.take (nWifi - st.number)).map exactFlowThr).sum ∧
        r.flowThrDist =
          st.flowThrDist + ((flows.drop (nWifi - st.number)).map exactFlowThr).sum ∧
        r.totalThr = st.totalThr + (flows.map exactFlowThr).sum := by
  induction flows with
  | nil =>
    intro st _ _
    exact ⟨st, rfl, by simp, by simp, by simp⟩
  | cons f rest ih =>
    intro st hd hlen
    have hf := projectFlowThr_exact f (hd f (List.mem_cons_self _ _))
    have hrest : ∀ x ∈ rest, x.timeLastRxPacket ≠ x.timeFirstTxPacket :=
      fun x hx => hd x (List.mem_cons_of_mem _ hx)
    simp only [List.length_cons] at hlen
    have htot : (if f.rxBytes ≠ 0 then dblAdd exactArith st.totalThr (exactFlowThr f)
        else st.totalThr) = st.totalThr + exactFlowThr f := by
      by_cases h0 : f.rxBytes = 0
      · simp [h0, exactFlowThr_of_no_rx f h0]
      · simp [h0, dblAdd, exactArith]
    rcases rest with _ | ⟨g, rest2⟩
    · simp only [projectLoop, projectStep, hf, htot]
      refine ⟨_, rfl, ?_, ?_, by simp⟩
      · by_cases hn : st.number < nWifi
        · have e : nWifi - st.number = (nWifi - st.number - 1) + 1 := by omega
          rw [e]
          simp [hn, dblAdd, exactArith]
        · have e : nWifi - st.number = 0 := by omega
          rw [e]
          simp [hn]
      · by_cases hn : st.number < nWifi
        · have e : nWifi - st.number = (nWifi - st.number - 1) + 1 := by omega
          have hn2 : ¬ nWifi ≤ st.number := by omega
          rw [e]
          simp [hn2]
        · have e : nWifi - st.number = 0 := by omega
          have hn2 : nWifi ≤ st.number := by omega
          rw [e]
          simp [hn2, dblAdd, exactArith]
    · simp only [List.length_cons] at hlen
      have hmod : (st.number + 1) % 2 ^ 32 = st.number + 1 := Nat.mod_eq_of_lt (by omega)
      obtain ⟨r, hr, hc, hdist, ht⟩ := ih
        { totalThr := st.totalThr + exactFlowThr f
          flowThrClose :=
            if st.number < nWifi then dblAdd exactArith st.flowThrClose (exactFlowThr f)
            else st.flowThrClose
          flowThrDist :=
            if nWifi ≤ st.number then dblAdd exactArith st.flowThrDist (exactFlowThr f)
            else st.flowThrDist
          number := st.number + 1 } hrest (by simp only [List.length_cons]; omega)
      refine ⟨r, ?_, ?_, ?_, ?_⟩
      · rw [← hr]
        simp only [projectLoop, projectStep, hf, htot, hmod]
      · rw [hc]
        by_cases hn : st.number < nWifi
        · have e : nWifi - st.number = (nWifi - (st.number + 1)) + 1 := by omega
          rw [e]
          simp only [hn, if_true, dblAdd, exactArith, List.take_succ_cons, List.map_cons,
            List.sum_cons]
          ring
        · have e : nWifi - st.number = 0 := by omega
          have e2 : nWifi - (st.number + 1) = 0 := by omega
          rw [e, e2]
          simp [hn]
      · rw [hdist]
        by_cases hn : st.number < nWifi
        · have e : nWifi - st.number = (nWifi - (st.number + 1)) + 1 := by omega
          have hn2 : ¬ nWifi ≤ st.number := by omega
          rw [e]
          simp only [hn2, if_false, List.drop_succ_cons]
        · have e : nWifi - st.number = 0 := by omega
          have e2 : nWifi - (st.number + 1) = 0 := by omega
          have hn2 : nWifi ≤ st.number := by omega
          rw [e, e2]
          simp only [hn2, if_true, dblAdd, exactArith, List.drop_zero, List.map_cons,
            List.sum_cons]
          ring
      · rw [ht]
        simp only [List.map_cons, List.sum_cons]
        ring

theorem projectLoop_total (nWifi : Nat) (flows : List ProjectFlow) :
    ∀ st : ProjectTotals, (∀ f ∈ flows, f.timeLastRxPacket ≠ f.timeFirstTxPacket) →
      ∃ r, projectLoop exactArith nWifi flows st = some r ∧
        r.flowThrClose + r.flowThrDist =
          st.flowThrClose + st.flowThrDist + (flows.map exactFlowThr).sum ∧
        r.totalThr = st.totalThr + (flows.map exactFlowThr).sum := by
  induction flows with
  | nil =>
    intro st _
    exact ⟨st, rfl, by simp, by simp⟩
  | cons f rest ih =>
    intro st hd
    have hf := projectFlowThr_exact f (hd f (List.mem_cons_self _ _))
    have htot : (if f.rxBytes ≠ 0 then dblAdd exactArith st.totalThr (exactFlowThr f)
        else st.totalThr) = st.totalThr + exactFlowThr f := by
      by_cases h0 : f.rxBytes = 0
      · simp [h0, exactFlowThr_of_no_rx f h0]
      · simp [h0, dblAdd, exactArith]
    obtain ⟨r, hr, hsum, ht⟩ := ih
      { totalThr := st.totalThr + exactFlowThr f
        flowThrClose :=
          if st.number < nWifi then dblAdd exactArith st.flowThrClose (exactFlowThr f)
          else st.flowThrClose
        flowThrDist :=
          if nWifi ≤ st.number then dblAdd exactArith st.flowThrDist (exactFlowThr f)
          else st.flowThrDist
        number := (st.number + 1) % 2 ^ 32 } (fun x hx => hd x (List.mem_cons_of_mem _ hx))
    refine ⟨r, ?_, ?_, ?_⟩
    · rw [← hr]
      simp only [projectLoop, projectStep, hf, htot]
    · rw [hsum]
      simp only [List.map_cons, List.sum_cons]
      by_cases hn : st.number < nWifi
      · have hn2 : ¬ nWifi ≤ st.number := by omega
        simp only [hn, hn2, if_true, if_false, dblAdd, exactArith]
        ring
      · have hn2 : nWifi ≤ st.number := by omega
        simp only [hn, hn2, if_true, if_false, dblAdd, exactArith]
        ring
    · rw [ht]
      simp only [List.map_cons, List.sum_cons]
      ring

/-- C30. In exact arithmetic, for every list of flow records, each with a
non-zero observed duration, and every `nWifi`: the loop ends, every flow has
a throughput, the sum `flowThrClose + flowThrDist` is the sum of the
throughput of all flows, each being added to exactly one of the two, and
`totalThr = flowThrClose + flowThrDist`, because a flow with `rxBytes = 0`,
which `totalThr` skips, has throughput 0. For at most `2 ^ 32` records (the
flow ids are 32-bit, as is `number`), `flowThrClose` is the sum over the
first `nWifi` flows and `flowThrDist` the sum over the later flows. -/
theorem close_distant_split (nWifi : Nat) (flows : List ProjectFlow)
    (hd : ∀ f ∈ flows, f.timeLastRxPacket ≠ f.timeFirstTxPacket) :
    ∃ r, projectLoop exactArith nWifi flows projectInit = some r ∧
      r.totalThr = r.flowThrClose + r.flowThrDist ∧
      r.totalThr = (flows.map exactFlowThr).sum ∧
      (∀ f ∈ flows, projectFlowThr exactArith f = some (exactFlowThr f)) ∧
      (∀ f ∈ flows, f.rxBytes = 0 → exactFlowThr f = 0) ∧
      (flows.length ≤ 2 ^ 32 →
        r.flowThrClose = ((flows.take nWifi).map exactFlowThr).sum ∧
        r.flowThrDist = ((flows.drop nWifi).map exactFlowThr).sum) := by
  obtain ⟨r, hr, hsum, ht⟩ := projectLoop_total nWifi flows projectInit hd
  simp only [projectInit, zero_add] at hsum ht
  refine ⟨r, hr, ?_, ht, fun f hf => projectFlowThr_exact f (hd f hf),
    fun f _ h0 => exactFlowThr_of_no_rx f h0, ?_⟩
  · rw [ht, hsum]
  · intro hlen
    obtain ⟨r2, hr2, hc, hdist, _⟩ := projectLoop_exact nWifi flows projectInit hd
      (by simpa [projectInit] using hlen)
    rw [hr] at hr2
    simp only [Option.some.injEq] at hr2
    subst hr2
    simp only [projectInit, zero_add, Nat.sub_zero] at hc hdist
    exact ⟨hc, hdist⟩

theorem projectFlows_durations :
    ∀ f ∈ projectFlows, f.timeLastRxPacket ≠ f.timeFirstTxPacket := by
  decide

/-- C30, witness: two close flows of 1 and 2 Mb/s and a distant flow that
received nothing, `nWifi = 2`: close 3, distant 0, total 3. -/
theorem close_distant_split_witness :
    projectLoop exactArith 2 projectFlows projectInit =
      some { flowThrClose := 3, flowThrDist := 0, totalThr := 3, number := 3 } ∧
    ∃ r, projectLoop exactArith 2 projectFlows projectInit = some r ∧
      r.totalThr = r.flowThrClose + r.flowThrDist ∧
      r.totalThr = (projectFlows.map exactFlowThr).sum ∧
      (∀ f ∈ projectFlows, projectFlowThr exactArith f = some (exactFlowThr f)) ∧
      (∀ f ∈ projectFlows, f.rxBytes = 0 → exactFlowThr f = 0) ∧
      (projectFlows.length ≤ 2 ^ 32 →
        r.flowThrClose = ((projectFlows.take 2).map exactFlowThr).sum ∧
        r.flowThrDist = ((projectFlows.drop 2).map exactFlowThr).sum) :=
  ⟨by decide!, close_distant_split 2 projectFlows projectFlows_durations⟩

end MSProject
